import Mathlib

/-!
# FTP32: a shallow embedding of the client in `src/src/ftp32.h`

The class `FTP32` is embedded as a record of its member variables together with the
state of the network it talks to.  Every member function becomes a function on that
record; the transport (`WiFiClient`) and the FTP server are the environment.

Modelling conventions
* A `const char*` argument or an Arduino `String` is the list of its characters.
* A `WiFiClient` is its `connected()` flag, the bytes that `available()`/`read()` can
  deliver now (`rx`), and the chunks that arrive later (`later`): one chunk arrives each
  time a timed polling loop finds the connection idle.
* The two timed loops (`_readResponse`, `_readData`) compare `esp_timer_get_time()` with a
  timeout.  The clock is modelled as advancing one microsecond per loop iteration, so a
  loop runs for at most `_ctrl_timeout_us` (resp. `_data_timeout_us`) iterations.
* What the peer does when the client connects, writes or closes is a parameter (`Env`).
* Every call that sends something to a transport is appended to `trace`.
* Undefined behaviour of the C++ code (reading `parts[]` uninitialised, writing past it)
  is the result `none`.
-/

namespace FTP32

/-! ## Enumerations -/

/-- The `Status` enum of the class. -/
inductive Status where
  | DOWNLOADING
  | UPLOADING
  | IDLE
deriving DecidableEq, Repr

/-- The `OpenType` enum; `invalid` stands for every value that is neither enumerator
(the `default:` branch of the `switch`). -/
inductive OpenType where
  | CREATE_REPLACE
  | APPEND
  | invalid
deriving DecidableEq, Repr

/-- `Error::TIMEOUT`. -/
def TIMEOUT : Nat := 1
/-- `Error::INVARG`. -/
def INVARG : Nat := 2
/-- `Error::BUSY`. -/
def BUSY : Nat := 3

/-! ## Transport and environment -/

/-- One `WiFiClient`. -/
structure WiFiClient where
  isConnected : Bool
  rx : List Char
  later : List (List Char)
deriving DecidableEq, Repr

/-- Which client object a call is made on: `_cClient`, `_dClient`, or the local `tmp`
of `listContent`. -/
inductive Chan where
  | ctrl
  | data
  | tmp
deriving DecidableEq, Repr

/-- An `IPAddress(a, b, c, d)`; the constructor takes four `uint8_t`. -/
structure IPAddress where
  a : Nat
  b : Nat
  c : Nat
  d : Nat
deriving DecidableEq, Repr

/-- The calls that send something to a transport. -/
inductive Ev where
  | println (line : List Char)
  | connect (ch : Chan) (ip : IPAddress) (port : Nat)
  | write (bytes : List Char)
  | stop (ch : Chan)
deriving DecidableEq, Repr

/-- The three client objects and the state of the peer. -/
structure Net (σ : Type) where
  _cClient : WiFiClient
  _dClient : WiFiClient
  tmp : WiFiClient
  srv : σ

/-- The behaviour of the peer: its reaction to a line printed on the control connection,
to a `connect`, to a `write` on `_dClient` (returning the number of bytes accepted) and
to a `stop`. -/
structure Env (σ : Type) where
  println : List Char → Net σ → Net σ
  connect : Chan → IPAddress → Nat → Net σ → Bool × Net σ
  write : List Char → Net σ → Nat × Net σ
  stop : Chan → Net σ → Net σ

/-- The member variables of `FTP32` (`_address` and `_port` are only used by
`connectWithPassword`), the network and the trace of calls. -/
structure State (σ : Type) where
  net : Net σ
  _status : Status
  _msg_buff_size : Nat
  _r_code : Nat
  _r_msg : List Char
  _ctrl_timeout_us : Nat
  _data_timeout_us : Nat
  trace : List Ev

/-- The chunk that arrives while a timed loop finds the connection idle. -/
def WiFiClient.poll (c : WiFiClient) : WiFiClient :=
  match c.later with
  | [] => c
  | chunk :: more => { c with rx := chunk, later := more }

/-- Select a client object. -/
def Net.client {σ : Type} (n : Net σ) : Chan → WiFiClient
  | Chan.ctrl => n._cClient
  | Chan.data => n._dClient
  | Chan.tmp => n.tmp

/-- Replace a client object. -/
def Net.setClient {σ : Type} (n : Net σ) (ch : Chan) (c : WiFiClient) : Net σ :=
  match ch with
  | Chan.ctrl => { n with _cClient := c }
  | Chan.data => { n with _dClient := c }
  | Chan.tmp => { n with tmp := c }

/-! ## Library configuration -/

/-- `setMaxInBufferSize(uint16_t size)`: the member `_msg_buff_size` is a `uint8_t`, so the
assignment keeps the low eight bits. -/
def setMaxInBufferSize {σ : Type} (size : Nat) (s : State σ) : State σ :=
  { s with _msg_buff_size := (size % 65536) % 256 }

/-- `setControlChannelTimeout(uint16_t milliseconds)`. -/
def setControlChannelTimeout {σ : Type} (milliseconds : Nat) (s : State σ) : State σ :=
  { s with _ctrl_timeout_us := (milliseconds % 65536) * 1000 }

/-- `setDataChannelTimeout(uint16_t milliseconds)`. -/
def setDataChannelTimeout {σ : Type} (milliseconds : Nat) (s : State σ) : State σ :=
  { s with _data_timeout_us := (milliseconds % 65536) * 1000 }

/-- `getLastMsg()`. -/
def getLastMsg {σ : Type} (s : State σ) : List Char := s._r_msg

/-- `getLastCode()`. -/
def getLastCode {σ : Type} (s : State σ) : Nat := s._r_code

/-! ## Control channel -/

/-- The statement `_r_code += (c - '0') * k` on the `uint16_t` member `_r_code`. -/
def addDigit (code : Nat) (c : Char) (k : Nat) : Nat :=
  (((code : Int) + ((c.toNat : Int) - 48) * (k : Int)) % 65536).toNat

/-- The result of the first loop of `_readResponse`: the control client, `_r_code` and
`_r_msg`. -/
structure Reply where
  client : WiFiClient
  code : Nat
  msg : List Char
deriving DecidableEq, Repr

/-- The timed loop of `_readResponse`.  `fuel` is the number of iterations left before the
control timeout elapses, `i` the local counter, `size` the member `_msg_buff_size`. -/
def readLoop (size : Nat) : Nat → Nat → WiFiClient → Nat → List Char → Reply
  | 0, _, c, code, msg => ⟨c, code, msg⟩
  | fuel + 1, i, c, code, msg =>
    match c.rx with
    | ch :: rest =>
      let c1 : WiFiClient := { c with rx := rest }
      match i with
      | 0 => readLoop size fuel 1 c1 (addDigit code ch 100) msg
      | 1 => readLoop size fuel 2 c1 (addDigit code ch 10) msg
      | 2 => readLoop size fuel 3 c1 (addDigit code ch 1) msg
      | 3 => readLoop size fuel 4 c1 code msg
      | j + 4 =>
        if ch = '\r' ∨ j + 5 = size then ⟨c1, code, msg⟩
        else readLoop size fuel (j + 5) c1 code (msg ++ [ch])
    | [] =>
      if c.isConnected then readLoop size fuel i c.poll code msg
      else ⟨c, TIMEOUT, msg⟩

/-- The second loop of `_readResponse`: `while( _cClient.available() ) _cClient.read();`. -/
def discardRest (c : WiFiClient) : WiFiClient :=
  { c with rx := [] }

/-- `_readResponse()`: returns the code and the new state. -/
def _readResponse {σ : Type} (s : State σ) : Nat × State σ :=
  let r := readLoop s._msg_buff_size s._ctrl_timeout_us 0 s.net._cClient 0 []
  (r.code,
    { s with
      net := { s.net with _cClient := discardRest r.client }
      _r_code := r.code
      _r_msg := r.msg })

/-- The call `_cClient.println(line)`: the line and `"\r\n"` go to the peer. -/
def ctrlPrintln {σ : Type} (env : Env σ) (line : List Char) (s : State σ) : State σ :=
  { s with
    net := env.println (line ++ ['\r', '\n']) s.net
    trace := s.trace ++ [Ev.println line] }

/-- `_sendCmd(cmd, arg, expectedResponseCode)`. -/
def _sendCmd {σ : Type} (env : Env σ) (cmd arg : List Char) (expectedResponseCode : Nat)
    (s : State σ) : Nat × State σ :=
  if s.net._cClient.isConnected then
    let r := _readResponse (ctrlPrintln env (cmd ++ [' '] ++ arg) s)
    if r.1 = expectedResponseCode then (0, r.2) else (r.2._r_code, r.2)
  else (TIMEOUT, { s with _r_code := TIMEOUT })

/-- `_sendCmd(cmd, expectedResponseCode)`, the overload without an argument. -/
def _sendCmdNoArg {σ : Type} (env : Env σ) (cmd : List Char) (expectedResponseCode : Nat)
    (s : State σ) : Nat × State σ :=
  if s.net._cClient.isConnected then
    let r := _readResponse (ctrlPrintln env cmd s)
    if r.1 = expectedResponseCode then (0, r.2) else (r.2._r_code, r.2)
  else (TIMEOUT, { s with _r_code := TIMEOUT })

/-! ## Arduino `String` and C library functions used by the class -/

/-- The characters a C string function sees: those before the first NUL. -/
def cstr (s : List Char) : List Char :=
  s.takeWhile (fun c => c ≠ Char.ofNat 0)

/-- Whether `pat` is an initial segment of `s`. -/
def startsWith : List Char → List Char → Bool
  | _, [] => true
  | [], _ :: _ => false
  | c :: cs, p :: ps => c = p && startsWith cs ps

/-- The offset of the first occurrence of `pat` in `s`, counted from `k` (`strstr`). -/
def strstr (pat : List Char) : List Char → Nat → Option Nat
  | [], k => if pat = [] then some k else none
  | c :: cs, k => if startsWith (c :: cs) pat then some k else strstr pat cs (k + 1)

/-- `String::indexOf(const String&)`: the index of the first occurrence, or `-1`. -/
def indexOfStr (s pat : List Char) : Int :=
  if 0 < s.length then
    match strstr (cstr pat) (cstr s) 0 with
    | some k => (k : Int)
    | none => -1
  else -1

/-- An `int` passed for an `unsigned int` parameter. -/
def toUnsigned (x : Int) : Nat := (x % 4294967296).toNat

/-- `String::substring(unsigned int left, unsigned int right)`: the bounds are swapped when
`left > right`, the result is empty when `left` is past the end, and `right` is clipped to
the length. -/
def substring (s : List Char) (left right : Int) : List Char :=
  let l := min (toUnsigned left) (toUnsigned right)
  let r := max (toUnsigned left) (toUnsigned right)
  if s.length ≤ l then [] else (s.drop l).take (min r s.length - l)

/-- All tokens that repeated `strtok(.., ",")` calls return: the maximal runs of characters
other than the delimiter.  `cur` is the token being collected. -/
def strtokAll (delim : Char) : List Char → List Char → List (List Char)
  | [], cur => if cur = [] then [] else [cur]
  | c :: cs, cur =>
    if c = delim then
      if cur = [] then strtokAll delim cs [] else cur :: strtokAll delim cs []
    else strtokAll delim cs (cur ++ [c])

/-- The `isspace` of the C locale. -/
def isSpaceC (c : Char) : Bool :=
  c = ' ' || (9 ≤ c.toNat && c.toNat ≤ 13)

/-- The value of the leading decimal digits of a string, continuing from `acc`. -/
def leadingDigits : List Char → Nat → Nat
  | [], acc => acc
  | c :: cs, acc =>
    if 48 ≤ c.toNat ∧ c.toNat ≤ 57 then leadingDigits cs (acc * 10 + (c.toNat - 48)) else acc

/-- `atoi`: optional white space, an optional sign, then decimal digits (values outside the
range of `int` are undefined in C and are not wrapped here). -/
def atoi (s : List Char) : Int :=
  match s.dropWhile isSpaceC with
  | '-' :: r => - (leadingDigits r 0 : Int)
  | '+' :: r => (leadingDigits r 0 : Int)
  | t => (leadingDigits t 0 : Int)

/-- The 32-bit pattern of an `int`. -/
def bits32 (x : Int) : Nat := (x % 4294967296).toNat

/-! ## Data channel -/

/-- The endpoint handed to `client.connect` by `_openDataChn`, computed from `_r_msg`:
`IPAddress(parts[0], parts[1], parts[2], parts[3])` (each converted to `uint8_t`) and
`(parts[4] << 8) | (parts[5] & 255)` (converted to `uint16_t`).  The array `parts` has six
elements that are written only by the tokens found: with fewer than six tokens the call reads
uninitialised elements, with more it writes past the array; both are `none`. -/
def pasvEndpoint (msg : List Char) : Option (IPAddress × Nat) :=
  let startPos := indexOfStr msg ['(']
  let endPos := indexOfStr msg [')']
  let toks : List (List Char) :=
    if startPos ≠ -1 ∧ endPos ≠ -1 then
      strtokAll ',' (cstr (substring msg (startPos + 1) endPos)) []
    else []
  match toks.map atoi with
  | [p0, p1, p2, p3, p4, p5] =>
    some (⟨bits32 p0 % 256, bits32 p1 % 256, bits32 p2 % 256, bits32 p3 % 256⟩,
      (((bits32 p4 <<< 8) % 4294967296) ||| (bits32 p5 &&& 255)) % 65536)
  | _ => none

/-- The call `client.connect(ip, port, timeout)`. -/
def clientConnect {σ : Type} (env : Env σ) (ch : Chan) (ip : IPAddress) (port : Nat)
    (s : State σ) : Bool × State σ :=
  let r := env.connect ch ip port s.net
  (r.1, { s with net := r.2, trace := s.trace ++ [Ev.connect ch ip port] })

/-- The call `client.stop()`: the connection is closed locally, then the peer reacts. -/
def clientStop {σ : Type} (env : Env σ) (ch : Chan) (s : State σ) : State σ :=
  { s with
    net := env.stop ch (s.net.setClient ch ⟨false, [], []⟩)
    trace := s.trace ++ [Ev.stop ch] }

/-- The call `_dClient.write(..)`: returns the number of bytes written. -/
def dataWrite {σ : Type} (env : Env σ) (bytes : List Char) (s : State σ) : Nat × State σ :=
  let r := env.write bytes s.net
  (r.1, { s with net := r.2, trace := s.trace ++ [Ev.write bytes] })

/-- `_openDataChn(client)`. -/
def _openDataChn {σ : Type} (env : Env σ) (ch : Chan) (s : State σ) :
    Option (Nat × State σ) :=
  let r := _sendCmdNoArg env "PASV".data 227 s
  if r.1 ≠ 0 then some (r.2._r_code, r.2)
  else
    match pasvEndpoint r.2._r_msg with
    | none => none
    | some (ip, port) =>
      let c := clientConnect env ch ip port r.2
      if c.1 then some (0, c.2) else some (c.2._r_code, c.2)

/-- The timed loop of `_readData`.  `fuel` is the number of iterations left before the data
timeout elapses; `acc` holds the bytes read so far, so `read` is `acc.length`. -/
def readDataLoop (amount : Nat) : Nat → WiFiClient → List Char → WiFiClient × List Char
  | 0, c, acc => (c, acc)
  | fuel + 1, c, acc =>
    if amount ≠ 0 ∧ acc.length = amount then (c, acc)
    else
      match c.rx with
      | ch :: rest => readDataLoop amount fuel { c with rx := rest } (acc ++ [ch])
      | [] => if c.isConnected then readDataLoop amount fuel c.poll acc else (c, acc)

/-- `_readData(dataC, dest, amount)` without the destination: returns the bytes read, in
order, and the new state.  The number of bytes read is the length of the list. -/
def _readData {σ : Type} (ch : Chan) (amount : Nat) (s : State σ) : List Char × State σ :=
  let r := readDataLoop amount s._data_timeout_us (s.net.client ch) []
  (r.2, { s with net := s.net.setClient ch r.1 })

/-- The overload `add(String& str, char c, size_t pos)` applied to all bytes read. -/
def addString (dest bytes : List Char) : List Char := dest ++ bytes

/-- The overload `add(char* str, char c, size_t pos)` applied to all bytes read: byte `pos`
of the buffer is overwritten.  The list is the memory at `dest`; the caller must have
allocated enough of it. -/
def addRaw (dest bytes : List Char) : List Char := bytes ++ dest.drop bytes.length

/-! ## Upload -/

/-- `initUpload(destinationFilepath, t)`. -/
def initUpload {σ : Type} (env : Env σ) (destinationFilepath : List Char) (t : OpenType)
    (s : State σ) : Option (Nat × State σ) :=
  if s.net._dClient.isConnected ∨ s._status ≠ Status.IDLE then some (BUSY, s)
  else
    match _openDataChn env Chan.data s with
    | none => none
    | some (r, s1) =>
      if r ≠ 0 then some (s1._r_code, s1)
      else
        match t with
        | OpenType.invalid => some (INVARG, s1)
        | OpenType.CREATE_REPLACE =>
          let c := _sendCmd env "STOR".data destinationFilepath 150 s1
          if c.1 = 0 then some (0, { c.2 with _status := Status.UPLOADING })
          else some (c.2._r_code, c.2)
        | OpenType.APPEND =>
          let c := _sendCmd env "APPE".data destinationFilepath 150 s1
          if c.1 = 0 then some (0, { c.2 with _status := Status.UPLOADING })
          else some (c.2._r_code, c.2)

/-- `uploadData(const char* data)`.  The list is the memory at `data`; `write(const char*)`
sends the C string there, the bytes before the first NUL. -/
def uploadData {σ : Type} (env : Env σ) (data : List Char) (s : State σ) : Nat × State σ :=
  if s._status ≠ Status.UPLOADING then (0, s)
  else dataWrite env (cstr data) s

/-- `uploadData(uint8_t* data, size_t size)`: the first `size` bytes of the buffer. -/
def uploadDataN {σ : Type} (env : Env σ) (data : List Char) (size : Nat) (s : State σ) :
    Nat × State σ :=
  if s._status ≠ Status.UPLOADING then (0, s)
  else dataWrite env (data.take size) s

/-- `finishUpload()`. -/
def finishUpload {σ : Type} (env : Env σ) (s : State σ) : Nat × State σ :=
  if s._status ≠ Status.UPLOADING then (0, s)
  else
    let s1 : State σ := { clientStop env Chan.data s with _status := Status.IDLE }
    let r := _readResponse s1
    if r.1 = 226 then (0, r.2) else (r.2._r_code, r.2)

/-- `uploadSingleshot(destinationFilepath, data, t)`. -/
def uploadSingleshot {σ : Type} (env : Env σ) (destinationFilepath data : List Char)
    (t : OpenType) (s : State σ) : Option (Nat × State σ) :=
  if s._status ≠ Status.IDLE then some (BUSY, s)
  else
    match initUpload env destinationFilepath t s with
    | none => none
    | some (r, s1) =>
      if r ≠ 0 then some (s1._r_code, s1)
      else
        let w := uploadData env data s1
        if w.1 = 0 then some (w.2._r_code, w.2)
        else
          let f := finishUpload env w.2
          if f.1 ≠ 0 then some (f.2._r_code, f.2) else some (0, f.2)

/-- `uploadSingleshot(destinationFilepath, data, dataSize, t)`. -/
def uploadSingleshotN {σ : Type} (env : Env σ) (destinationFilepath data : List Char)
    (dataSize : Nat) (t : OpenType) (s : State σ) : Option (Nat × State σ) :=
  if s._status ≠ Status.IDLE then some (BUSY, s)
  else
    match initUpload env destinationFilepath t s with
    | none => none
    | some (r, s1) =>
      if r ≠ 0 then some (s1._r_code, s1)
      else
        let w := uploadDataN env data dataSize s1
        if w.1 = 0 then some (w.2._r_code, w.2)
        else
          let f := finishUpload env w.2
          if f.1 ≠ 0 then some (f.2._r_code, f.2) else some (0, f.2)

/-! ## Download -/

/-- `initDownload(filename)`. -/
def initDownload {σ : Type} (env : Env σ) (filename : List Char) (s : State σ) :
    Option (Nat × State σ) :=
  if s._status ≠ Status.IDLE then some (BUSY, s)
  else
    match _openDataChn env Chan.data s with
    | none => none
    | some (r, s1) =>
      if r ≠ 0 then some (s1._r_code, s1)
      else
        let c := _sendCmd env "RETR".data filename 150 s1
        if c.1 ≠ 0 then some (c.2._r_code, c.2)
        else some (0, { c.2 with _status := Status.DOWNLOADING })

/-- `downloadData(dest, amount)`: returns the number of bytes read, the destination buffer
and the new state. -/
def downloadData {σ : Type} (dest : List Char) (amount : Nat) (s : State σ) :
    Nat × List Char × State σ :=
  if s._status ≠ Status.DOWNLOADING then (0, dest, s)
  else
    let r := _readData Chan.data amount s
    let read := r.1.length
    if amount = 0 ∨ (amount ≠ 0 ∧ read = 0) then
      (read, addRaw dest r.1, { (_readResponse r.2).2 with _status := Status.IDLE })
    else (read, addRaw dest r.1, r.2)

/-- `downloadSingleshot(filename, String& dest)`: returns the result, the destination and
the new state. -/
def downloadSingleshot {σ : Type} (env : Env σ) (filename dest : List Char) (s : State σ) :
    Option (Nat × List Char × State σ) :=
  if s._status ≠ Status.IDLE then some (BUSY, dest, s)
  else
    match _openDataChn env Chan.data s with
    | none => none
    | some (r, s1) =>
      if r ≠ 0 then some (s1._r_code, dest, s1)
      else
        let c := _sendCmd env "RETR".data filename 150 s1
        if c.1 ≠ 0 then some (c.2._r_code, dest, c.2)
        else
          let d := _readData Chan.data 0 c.2
          let f := _readResponse d.2
          if f.1 = 226 then some (0, addString dest d.1, f.2)
          else some (f.2._r_code, addString dest d.1, f.2)

/-- `downloadSingleshot(filename, char* dest)`. -/
def downloadSingleshotRaw {σ : Type} (env : Env σ) (filename dest : List Char)
    (s : State σ) : Option (Nat × List Char × State σ) :=
  if s._status ≠ Status.IDLE then some (BUSY, dest, s)
  else
    match _openDataChn env Chan.data s with
    | none => none
    | some (r, s1) =>
      if r ≠ 0 then some (s1._r_code, dest, s1)
      else
        let c := _sendCmd env "RETR".data filename 150 s1
        if c.1 ≠ 0 then some (c.2._r_code, dest, c.2)
        else
          let d := _readData Chan.data 0 c.2
          let f := _readResponse d.2
          if f.1 = 226 then some (0, addRaw dest d.1, f.2)
          else some (f.2._r_code, addRaw dest d.1, f.2)

/-! ## File and directory commands -/

/-- The `ListType` enum; `invalid` stands for every value that is no enumerator (the
`default:` branch of the `switch`). -/
inductive ListType where
  | HUMAN
  | MACHINE
  | SIMPLE
  | invalid
deriving DecidableEq, Repr

/-- The outcome of a function with an untimed loop: it returned, it reached undefined
behaviour, or its loop was still running after the number of iterations the model allows. -/
inductive Run (α : Type) where
  | done (a : α)
  | undefined
  | running

/-- `renameFile(from, to)`.  When both commands succeed the function flows off its end
without a `return`: no return value is defined, which is the result `none`. -/
def renameFile {σ : Type} (env : Env σ) (src dst : List Char) (s : State σ) :
    Option Nat × State σ :=
  let a := _sendCmd env "RNFR".data src 350 s
  if a.1 ≠ 0 then (some a.2._r_code, a.2)
  else
    let b := _sendCmd env "RNTO".data dst 250 a.2
    if b.1 ≠ 0 then (some b.2._r_code, b.2) else (none, b.2)

/-- `renameFile(from, to)` of the legacy header `src/ftp32.h`. -/
def renameFileLegacy {σ : Type} (env : Env σ) (src dst : List Char) (s : State σ) :
    Nat × State σ :=
  let a := _sendCmd env "RNFR".data src 350 s
  if a.1 ≠ 0 then (a.2._r_code, a.2)
  else _sendCmd env "RNTO".data dst 250 a.2

/-- `deleteFile(filename)`. -/
def deleteFile {σ : Type} (env : Env σ) (filename : List Char) (s : State σ) :
    Nat × State σ :=
  _sendCmd env "DELE".data filename 250 s

/-- `mkdir(name)`. -/
def mkdir {σ : Type} (env : Env σ) (name : List Char) (s : State σ) : Nat × State σ :=
  _sendCmd env "MKD".data name 257 s

/-- `changeDir(path)`. -/
def changeDir {σ : Type} (env : Env σ) (path : List Char) (s : State σ) : Nat × State σ :=
  _sendCmd env "CWD".data path 250 s

/-- `rmdir(name)`. -/
def rmdir {σ : Type} (env : Env σ) (name : List Char) (s : State σ) : Nat × State σ :=
  _sendCmd env "RMD".data name 250 s

/-- `getLastModificationDate(filename, date)`: returns the result, the output parameter
`date` and the new state.  The body is the single statement
`return _sendCmd("MDTM", filename, 213);`. -/
def getLastModificationDate {σ : Type} (env : Env σ) (filename date : List Char)
    (s : State σ) : Nat × List Char × State σ :=
  let r := _sendCmd env "MDTM".data filename 213 s
  (r.1, date, r.2)

/-- `getSystemInfo(dest)`. -/
def getSystemInfo {σ : Type} (env : Env σ) (dest : List Char) (s : State σ) :
    Nat × List Char × State σ :=
  let r := _sendCmdNoArg env "SYST".data 215 s
  if r.1 ≠ 0 then (r.2._r_code, dest, r.2) else (0, r.2._r_msg, r.2)

/-- The command of a listing type; `none` for the `default:` branch. -/
def listCommand : ListType → Option (List Char)
  | ListType.HUMAN => some "LIST".data
  | ListType.MACHINE => some "MLSD".data
  | ListType.SIMPLE => some "NLST".data
  | ListType.invalid => none

/-- The destructor of the local `WiFiClient tmp` of `listContent`: it closes the
connection. -/
def destroyTmp {σ : Type} (env : Env σ) (s : State σ) : State σ :=
  clientStop env Chan.tmp s

/-- `listContent(dir, t, dest)`: returns the result, the destination `String` (the data read
is appended to it) and the new state.  The local client `tmp` is created unconnected and
destroyed on return. -/
def listContent {σ : Type} (env : Env σ) (dir : List Char) (t : ListType)
    (dest : List Char) (s : State σ) : Option (Nat × List Char × State σ) :=
  match listCommand t with
  | none => some (INVARG, dest, s)
  | some cmd =>
    match _openDataChn env Chan.tmp { s with net := { s.net with tmp := ⟨false, [], []⟩ } } with
    | none => none
    | some (r, s1) =>
      if r ≠ 0 then some (s1._r_code, dest, destroyTmp env s1)
      else
        let c := _sendCmd env cmd dir 150 s1
        if c.1 ≠ 0 then some (c.2._r_code, dest, destroyTmp env c.2)
        else
          let d := _readData Chan.tmp 0 c.2
          let f := _readResponse d.2
          if f.1 = 226 then some (0, addString dest d.1, destroyTmp env f.2)
          else some (f.2._r_code, addString dest d.1, destroyTmp env f.2)

/-- The offset of the first occurrence of `ch` in `s`, counted from `k` (`strchr`). -/
def strchr (ch : Char) : List Char → Nat → Option Nat
  | [], _ => none
  | c :: cs, k => if c = ch then some k else strchr ch cs (k + 1)

/-- `String::indexOf(char ch, unsigned int fromIndex)`: `-1` when `fromIndex` is not below
the length or the character does not occur from there on. -/
def indexOfChar (s : List Char) (ch : Char) (fromIndex : Int) : Int :=
  if toUnsigned fromIndex < s.length then
    match strchr ch (cstr (s.drop (toUnsigned fromIndex))) (toUnsigned fromIndex) with
    | some k => (k : Int)
    | none => -1
  else -1

/-- `String::operator[](unsigned int index)`: the character, or NUL outside the string. -/
def charAt (s : List Char) (index : Int) : Char :=
  (s.get? (toUnsigned index)).getD (Char.ofNat 0)

/-- `String::equals(const String&)`, used by `==` and `!=` between two `String`s: the
lengths agree and `strcmp` finds no difference. -/
def strEquals (a b : List Char) : Bool :=
  a.length = b.length && cstr a = cstr b

/-- `String::equals(const char*)`, used by `==` between a `String` and a literal: `strcmp`
finds no difference. -/
def equalsLit (a lit : List Char) : Bool :=
  cstr a = lit

/-- The loop of `mktree`.  `fuel` bounds the number of iterations; the other arguments are
the locals `existingPath`, `pathContentBuff` and `left`. -/
def mktreeLoop {σ : Type} (env : Env σ) (p : List Char) :
    Nat → List Char → List Char → Int → State σ → Run (Nat × State σ)
  | 0, _, _, _, _ => Run.running
  | fuel + 1, existingPath, pathContentBuff, left, s =>
    if strEquals existingPath p then Run.done (0, s)
    else
      match listContent env (cstr existingPath) ListType.SIMPLE pathContentBuff s with
      | none => Run.undefined
      | some (r, buff, s1) =>
        if r ≠ 0 then Run.done (s1._r_code, s1)
        else
          let right := indexOfChar p '/' left
          let nextToAdd := substring p left right
          let existing1 := existingPath ++ nextToAdd
          let existing2 := if right ≠ -1 then existing1 ++ ['/'] else existing1
          if indexOfStr buff existing2 ≠ -1 then
            mktreeLoop env p fuel existing2 buff (right + 1) s1
          else
            let m := mkdir env (cstr existing2) s1
            if m.1 ≠ 0 then Run.done (m.2._r_code, m.2)
            else mktreeLoop env p fuel existing2 buff (right + 1) m.2

/-- `mktree(path)`, its loop bounded by `fuel` iterations. -/
def mktree {σ : Type} (env : Env σ) (fuel : Nat) (path : List Char) (s : State σ) :
    Run (Nat × State σ) :=
  if startsWith path ['/'] then mktreeLoop env path fuel ['/'] [] 1 s
  else mktreeLoop env path fuel ['.', '/'] [] 0 s

/-- What the entry scan of `rmtree` hands back: the code of an early `return` if any, the
stack, the flag `containDir` and the state. -/
structure Scan (σ : Type) where
  returned : Option Nat
  dirStack : List (List Char)
  containDir : Bool
  state : State σ

/-- The inner loop of `rmtree` over the entries of `dirContent`.  The stack is a list whose
head is the top. -/
def rmtreeScan {σ : Type} (env : Env σ) (currentDir dirContent : List Char) :
    Nat → Int → List (List Char) → Bool → State σ → Run (Scan σ)
  | 0, _, _, _, _ => Run.running
  | fuel + 1, startPos, dirStack, containDir, s =>
    if toUnsigned startPos < dirContent.length then
      let endPos := indexOfChar dirContent '\r' startPos
      let entry := substring dirContent startPos endPos
      let fullEntryPath :=
        currentDir ++ ['/'] ++ substring entry (indexOfChar entry ' ' 0 + 1) endPos
      if equalsLit (substring entry (indexOfChar entry '=' 0 + 1) (indexOfChar entry ';' 0))
          "dir".data
      then rmtreeScan env currentDir dirContent fuel (endPos + 2) (fullEntryPath :: dirStack)
        true s
      else
        let r := deleteFile env (cstr fullEntryPath) s
        if r.1 ≠ 0 then Run.done ⟨some r.2._r_code, dirStack, containDir, r.2⟩
        else rmtreeScan env currentDir dirContent fuel (endPos + 2) dirStack containDir r.2
    else Run.done ⟨none, dirStack, containDir, s⟩

/-- The outer loop of `rmtree`.  `fuel` bounds the iterations of this loop and of each entry
scan. -/
def rmtreeLoop {σ : Type} (env : Env σ) (scanFuel : Nat) :
    Nat → List (List Char) → State σ → Run (Nat × State σ)
  | 0, _, _ => Run.running
  | _ + 1, [], s => Run.done (0, s)
  | fuel + 1, currentDir :: rest, s =>
    if currentDir = [] then rmtreeLoop env scanFuel fuel rest s
    else
      match listContent env (cstr currentDir) ListType.MACHINE [] s with
      | none => Run.undefined
      | some (r, dirContent, s1) =>
        if r ≠ 0 then Run.done (s1._r_code, s1)
        else if dirContent = [] then
          if rest = [] ∧ equalsLit currentDir ['/'] then Run.done (0, s1)
          else
            let d := rmdir env (cstr currentDir) s1
            if d.1 ≠ 0 then Run.done (d.2._r_code, d.2)
            else rmtreeLoop env scanFuel fuel rest d.2
        else
          match rmtreeScan env currentDir dirContent scanFuel 0 (currentDir :: rest) false s1 with
          | Run.running => Run.running
          | Run.undefined => Run.undefined
          | Run.done ⟨some code, _, _, s2⟩ => Run.done (code, s2)
          | Run.done ⟨none, dirStack, containDir, s2⟩ =>
            if containDir then rmtreeLoop env scanFuel fuel dirStack s2
            else
              let d := rmdir env (cstr currentDir) s2
              if d.1 ≠ 0 then Run.done (d.2._r_code, d.2)
              else rmtreeLoop env scanFuel fuel dirStack.tail d.2

/-- `rmtree(rootPath)`, its loops bounded by `fuel` iterations. -/
def rmtree {σ : Type} (env : Env σ) (fuel : Nat) (rootPath : List Char) (s : State σ) :
    Run (Nat × State σ) :=
  if charAt rootPath ((rootPath.length : Int) - 1) = '/' then
    rmtreeLoop env fuel fuel [substring rootPath 0 ((rootPath.length : Int) - 1)] s
  else rmtreeLoop env fuel fuel [rootPath] s

/-! ## Environments and states used to run the client -/

/-- The object the constructor `FTP32(address, port)` builds, placed in a network `net`:
status `IDLE`, `_msg_buff_size` 60, control timeout 5 s, data timeout twice that.  The
constructor leaves `_r_code` uninitialised; `rcode` is the value it happens to hold. -/
def construct {σ : Type} (net : Net σ) (rcode : Nat) : State σ :=
  { net := net
    _status := Status.IDLE
    _msg_buff_size := 60
    _r_code := rcode
    _r_msg := []
    _ctrl_timeout_us := 5000000
    _data_timeout_us := 5000000 * 2
    trace := [] }

/-- A network in which the control connection is established and holds the pending bytes
`rx`, and no data connection is open. -/
def ctrlOnly {σ : Type} (srv : σ) (up : Bool) (rx : List Char) : Net σ :=
  { _cClient := ⟨up, rx, []⟩
    _dClient := ⟨false, [], []⟩
    tmp := ⟨false, [], []⟩
    srv := srv }

/-- A peer that answers the k-th printed line with the k-th reply of a fixed script (its
state is the list of replies not yet sent), accepts every connection and every write, and
does not react to a `stop`. -/
def scripted : Env (List (List Char)) where
  println := fun _ n =>
    match n.srv with
    | [] => n
    | r :: rs => { n with _cClient := { n._cClient with rx := n._cClient.rx ++ r }, srv := rs }
  connect := fun ch _ _ n => (true, n.setClient ch ⟨true, [], []⟩)
  write := fun bytes n => (bytes.length, n)
  stop := fun _ n => n

/-- The value of a decimal digit character. -/
def digitVal (c : Char) : Nat := c.toNat - 48

/-- Whether a character is a decimal digit. -/
def isDigitC (c : Char) : Bool := 48 ≤ c.toNat && c.toNat ≤ 57

/-- A client whose buffer size was set to 10 and whose control connection holds the
complete reply `200 Type OK`: the message has 7 characters. -/
def shortReplyState : State Unit :=
  setMaxInBufferSize 10 (construct (ctrlOnly () true "200 Type OK\r\n".data) 0)

/-- A message of 50 bytes. -/
def fiftyBytes : List Char :=
  "01234567890123456789012345678901234567890123456789".data

/-- A client with buffer size `size` whose control connection holds the complete reply
`227`, a space and the 50-byte message. -/
def longReplyState (size : Nat) : State Unit :=
  setMaxInBufferSize size
    (construct (ctrlOnly () true ("227 ".data ++ fiftyBytes ++ "\r\n".data)) 0)

/-- A freshly constructed client whose control connection is up and on which nothing
arrives. -/
def silentState : State Unit :=
  construct (ctrlOnly () true []) 0

/-- A freshly constructed client whose control connection is up and received `22` before
the peer fell silent. -/
def stalledState : State Unit :=
  construct (ctrlOnly () true "22".data) 0

/-- A connected client facing a peer that answers the next command with the line `000`. -/
def zeroCodeState : State (List (List Char)) :=
  construct (ctrlOnly ["000 \r\n".data] true []) 0

/-- A connected client whose status is `UPLOADING`, facing the scripted peer. -/
def uploadingState : State (List (List Char)) :=
  { zeroCodeState with _status := Status.UPLOADING }

/-- A connected client in status `DOWNLOADING` whose data connection was closed by the peer
after the bytes `hello`, the reply `226` arriving afterwards. -/
def downloadingState : State (List (List Char)) :=
  { construct
      { _cClient := ⟨true, [], ["226 Transfer complete.\r\n".data]⟩
        _dClient := ⟨false, "hello".data, []⟩
        tmp := ⟨false, [], []⟩
        srv := [] } 150 with
    _status := Status.DOWNLOADING }

/-- A client in status `UPLOADING` on whose control connection the line `000` will be the
next reply. -/
def finishZeroState : State (List (List Char)) :=
  { construct
      { _cClient := ⟨true, "000 \r\n".data, []⟩
        _dClient := ⟨true, [], []⟩
        tmp := ⟨false, [], []⟩
        srv := [] } 150 with
    _status := Status.UPLOADING }

/-- A client in status `UPLOADING` on whose control connection the reply `226` arrives
once the client waits for it. -/
def finishingState : State (List (List Char)) :=
  { construct
      { _cClient := ⟨true, [], ["226 Transfer complete.\r\n".data]⟩
        _dClient := ⟨true, [], []⟩
        tmp := ⟨false, [], []⟩
        srv := [] } 150 with
    _status := Status.UPLOADING }

/-- The value of a string of decimal digits. -/
def decimalValue (t : List Char) : Nat :=
  t.foldl (fun a c => a * 10 + digitVal c) 0

/-- Whether a string is a non-empty string of decimal digits. -/
def isNumber (t : List Char) : Bool :=
  !t.isEmpty && t.all isDigitC

/-- The text `t0,t1,t2,t3,t4,t5`. -/
def sextuple (t0 t1 t2 t3 t4 t5 : List Char) : List Char :=
  t0 ++ ',' :: (t1 ++ ',' :: (t2 ++ ',' :: (t3 ++ ',' :: (t4 ++ ',' :: t5))))

/-- A freshly constructed, connected client facing a peer that answers the next command
with the `227` reply of the specification. -/
def pasvState : State (List (List Char)) :=
  construct (ctrlOnly ["227 Entering Passive Mode (127,0,0,1,200,56).\r\n".data] true []) 0

/-! ## A model server that stores files -/

/-- The state of the model server: the stored files (path and content), whether a passive
endpoint was announced and awaits its connection, and the path a `STOR` in progress
writes to. -/
structure Ftpd where
  files : List (List Char × List Char)
  passive : Bool
  storing : Option (List Char)

/-- The content stored under a path. -/
def lookupFile (files : List (List Char × List Char)) (path : List Char) :
    Option (List Char) :=
  match files with
  | [] => none
  | f :: fs => if f.1 = path then some f.2 else lookupFile fs path

/-- Create or replace the file at a path. -/
def storeFile (files : List (List Char × List Char)) (path content : List Char) :
    List (List Char × List Char) :=
  (path, content) :: files.filter (fun f => f.1 ≠ path)

/-- Append bytes to the file at a path. -/
def appendFile (files : List (List Char × List Char)) (path bytes : List Char) :
    List (List Char × List Char) :=
  files.map (fun f => if f.1 = path then (f.1, f.2 ++ bytes) else f)

/-- The server sends a line on the control connection. -/
def ctrlReply (line : List Char) (n : Net Ftpd) : Net Ftpd :=
  { n with _cClient := { n._cClient with rx := n._cClient.rx ++ line } }

/-- The reply to `PASV`. -/
def pasvLine : List Char := "227 Entering Passive Mode (127,0,0,1,200,56).\r\n".data

/-- The reaction of the model server to a command line: the verb is the first four
characters, the argument what follows the separating space up to `'\r'`.
`PASV` announces the endpoint 127.0.0.1:51256.  `STOR path`, with the data connection open,
creates or empties the file and is answered 150.  `RETR path`, with the data connection open
and the file present, is answered 150; the content is sent on the data connection, which the
server then closes, and 226 follows on the control connection. -/
def ftpdPrintln (line : List Char) (n : Net Ftpd) : Net Ftpd :=
  let verb := line.take 4
  let arg := (line.drop 5).takeWhile (fun c => c ≠ '\r')
  if verb = "PASV".data then
    ctrlReply pasvLine { n with srv := { n.srv with passive := true } }
  else if verb = "STOR".data then
    if n._dClient.isConnected then
      ctrlReply "150 Ok to send data.\r\n".data
        { n with srv := { n.srv with files := storeFile n.srv.files arg [], storing := some arg } }
    else ctrlReply "425 Use PASV first.\r\n".data n
  else if verb = "RETR".data then
    match n._dClient.isConnected, lookupFile n.srv.files arg with
    | true, some content =>
      { n with
        _cClient :=
          { n._cClient with
            rx := n._cClient.rx ++ "150 Opening BINARY mode data connection.\r\n".data
            later := n._cClient.later ++ ["226 Transfer complete.\r\n".data] }
        _dClient := ⟨false, content, []⟩ }
    | _, _ => ctrlReply "550 Failed to open file.\r\n".data n
  else ctrlReply "500 Unknown command.\r\n".data n

/-- The model server: it accepts a connection to the announced endpoint, appends written
bytes to the file being stored, and answers 226 when the client closes the data connection
of a `STOR`. -/
def ftpd : Env Ftpd where
  println := ftpdPrintln
  connect := fun ch ip port n =>
    if n.srv.passive = true ∧ ip = ⟨127, 0, 0, 1⟩ ∧ port = 51256 then
      (true, { n.setClient ch ⟨true, [], []⟩ with srv := { n.srv with passive := false } })
    else (false, n)
  write := fun bytes n =>
    match n.srv.storing with
    | some path =>
      if n._dClient.isConnected then
        (bytes.length,
          { n with srv := { n.srv with files := appendFile n.srv.files path bytes } })
      else (0, n)
    | none => (0, n)
  stop := fun ch n =>
    match ch, n.srv.storing with
    | Chan.data, some _ =>
      ctrlReply "226 Transfer complete.\r\n".data { n with srv := { n.srv with storing := none } }
    | _, _ => n

/-- The calls `uploadData(chunk)` for each chunk in turn. -/
def uploadChunks {σ : Type} (env : Env σ) (chunks : List (List Char)) (s : State σ) :
    State σ :=
  chunks.foldl (fun st chunk => (uploadData env chunk st).2) s

/-- A connected, idle client of the model server with nothing pending, whose buffer size
admits the server's replies and whose control timeout leaves time to read them. -/
def Ready (s : State Ftpd) : Prop :=
  s._status = Status.IDLE ∧ s.net._cClient = ⟨true, [], []⟩ ∧
  s.net._dClient.isConnected = false ∧ s.net.srv.storing = none ∧
  (s._msg_buff_size < 5 ∨ 46 ≤ s._msg_buff_size) ∧ 64 ≤ s._ctrl_timeout_us

instance (s : State Ftpd) : Decidable (Ready s) := by
  unfold Ready
  infer_instance

/-- A freshly constructed client connected to the model server holding `files`. -/
def freshClient (files : List (List Char × List Char)) : State Ftpd :=
  construct (ctrlOnly ⟨files, false, none⟩ true []) 0

/-! ## A model server that holds a directory tree -/

/-- One file or directory of the model server: the segments of the directory that holds it,
its name, and whether it is a directory. -/
structure Entry where
  parent : List (List Char)
  name : List Char
  isDir : Bool
deriving DecidableEq, Repr

/-- The segments of the path of an entry. -/
def Entry.path (e : Entry) : List (List Char) := e.parent ++ [e.name]

/-- The state of the model server: its entries (the root directory `/` is always there and
has no entry), whether a passive endpoint was announced and awaits its connection, and
whether `NLST` answers with names prefixed by the listed path instead of bare names. -/
structure Treed where
  entries : List Entry
  passive : Bool
  fullNames : Bool

/-- The segments of a path: the non-empty runs of characters between `'/'`. -/
def segments (path : List Char) : List (List Char) := strtokAll '/' path []

/-- The path string of a list of segments: `/seg` for each segment. -/
def renderPath (segs : List (List Char)) : List Char :=
  (segs.map (fun seg => '/' :: seg)).flatten

/-- Whether the segments name a directory of the tree. -/
def isDirPath (entries : List Entry) (d : List (List Char)) : Bool :=
  d = [] || entries.any (fun e => e.isDir && e.path = d)

/-- The children of a directory, in the order of the entries. -/
def kids (entries : List Entry) (d : List (List Char)) : List Entry :=
  entries.filter (fun e => e.parent = d)

/-- The `MLSD` line of an entry: `type=dir; name` or `type=file; name`, then `"\r\n"`. -/
def mlsdLine (e : Entry) : List Char :=
  (if e.isDir then "type=dir;".data else "type=file;".data) ++ [' '] ++ e.name ++ ['\r', '\n']

/-- The `MLSD` listing of a list of entries. -/
def mlsdListing (es : List Entry) : List Char := (es.map mlsdLine).flatten

/-- The `NLST` listing of a list of entries; `lead` is put before each name. -/
def nlstListing (lead : List Char) (es : List Entry) : List Char :=
  (es.map (fun e => lead ++ e.name ++ ['\r', '\n'])).flatten

/-- What `NLST` puts before each name: nothing, or with `fullNames` the listed path, closed
by a `'/'`. -/
def nlstLead (fullNames : Bool) (arg : List Char) : List Char :=
  if fullNames then (if arg.getLast? = some '/' then arg else arg ++ ['/']) else []

/-- The tree server sends a line on the control connection. -/
def treeReply (line : List Char) (n : Net Treed) : Net Treed :=
  { n with _cClient := { n._cClient with rx := n._cClient.rx ++ line } }

/-- The tree server answers a listing command: 150, the listing on the data connection
`tmp`, which it then closes, and 226 afterwards. -/
def treeSend (listing : List Char) (n : Net Treed) : Net Treed :=
  { n with
    _cClient :=
      { n._cClient with
        rx := n._cClient.rx ++ "150 Here comes the listing.\r\n".data
        later := n._cClient.later ++ ["226 Transfer complete.\r\n".data] }
    tmp := ⟨false, listing, []⟩ }

/-- The entries without the one of the given path and kind. -/
def removeEntry (entries : List Entry) (p : List (List Char)) (dir : Bool) : List Entry :=
  entries.filter (fun e => !(e.path = p && e.isDir = dir))

/-- The reaction of the tree server to a command line.  The verb is what precedes the first
space, the argument what follows it up to `'\r'`.  `PASV` announces 127.0.0.1:51256.
`MLSD dir` and `NLST dir`, with the data connection `tmp` open and `dir` a directory, send
the listing of its children.  `DELE` removes a file, `RMD` a directory without children,
`MKD` creates a directory whose parent exists and whose path is free; each is answered 250
(257 for `MKD`) or, when it cannot be done, 550. -/
def treePrintln (line : List Char) (n : Net Treed) : Net Treed :=
  let verb := line.takeWhile (fun c => c ≠ ' ' && c ≠ '\r')
  let arg := (line.drop (verb.length + 1)).takeWhile (fun c => c ≠ '\r')
  let p := segments arg
  if verb = "PASV".data then
    treeReply pasvLine { n with srv := { n.srv with passive := true } }
  else if verb = "MLSD".data then
    if n.tmp.isConnected && isDirPath n.srv.entries p then
      treeSend (mlsdListing (kids n.srv.entries p)) n
    else treeReply "550 Failed to list.\r\n".data n
  else if verb = "NLST".data then
    if n.tmp.isConnected && isDirPath n.srv.entries p then
      treeSend (nlstListing (nlstLead n.srv.fullNames arg) (kids n.srv.entries p)) n
    else treeReply "550 Failed to list.\r\n".data n
  else if verb = "DELE".data then
    if n.srv.entries.any (fun e => !e.isDir && e.path = p) then
      treeReply "250 Deleted.\r\n".data
        { n with srv := { n.srv with entries := removeEntry n.srv.entries p false } }
    else treeReply "550 No such file.\r\n".data n
  else if verb = "RMD".data then
    if n.srv.entries.any (fun e => e.isDir && e.path = p) && (kids n.srv.entries p).isEmpty then
      treeReply "250 Removed.\r\n".data
        { n with srv := { n.srv with entries := removeEntry n.srv.entries p true } }
    else treeReply "550 Cannot remove.\r\n".data n
  else if verb = "MKD".data then
    if !p.isEmpty && isDirPath n.srv.entries p.dropLast
        && !n.srv.entries.any (fun e => e.path = p) then
      treeReply "257 Created.\r\n".data
        { n with
          srv := { n.srv with entries := n.srv.entries ++ [⟨p.dropLast, p.getLastD [], true⟩] } }
    else treeReply "550 Cannot create.\r\n".data n
  else treeReply "500 Unknown command.\r\n".data n

/-- The tree server: it accepts a connection to the announced endpoint, ignores written
bytes and does not react to a `stop`. -/
def treed : Env Treed where
  println := treePrintln
  connect := fun ch ip port n =>
    if n.srv.passive = true ∧ ip = ⟨127, 0, 0, 1⟩ ∧ port = 51256 then
      (true, { n.setClient ch ⟨true, [], []⟩ with srv := { n.srv with passive := false } })
    else (false, n)
  write := fun _ n => (0, n)
  stop := fun _ n => n

/-- A freshly constructed client connected to the tree server holding `entries`. -/
def treeClient (entries : List Entry) (fullNames : Bool) : State Treed :=
  construct (ctrlOnly ⟨entries, false, fullNames⟩ true []) 0

/-- A server on which every listing and every command succeeds: listings are empty, `PASV`
is answered 227, `MKD` 257, everything else 250.  Its state is the number of `MKD` commands
it still accepts before answering 550 to the next ones; `none` is for no limit. -/
def agreeable : Env (Option Nat) where
  println := fun line n =>
    let verb := line.takeWhile (fun c => c ≠ ' ' && c ≠ '\r')
    if verb = "PASV".data then
      { n with _cClient := { n._cClient with rx := n._cClient.rx ++ pasvLine } }
    else if verb = "NLST".data ∨ verb = "MLSD".data ∨ verb = "LIST".data then
      { n with
        _cClient :=
          { n._cClient with
            rx := n._cClient.rx ++ "150 Here comes the listing.\r\n".data
            later := n._cClient.later ++ ["226 Transfer complete.\r\n".data] }
        tmp := ⟨false, [], []⟩ }
    else if verb = "MKD".data then
      match n.srv with
      | some 0 =>
        { n with _cClient := { n._cClient with rx := n._cClient.rx ++ "550 Enough.\r\n".data } }
      | some (k + 1) =>
        { n with
          _cClient := { n._cClient with rx := n._cClient.rx ++ "257 Created.\r\n".data }
          srv := some k }
      | none =>
        { n with _cClient := { n._cClient with rx := n._cClient.rx ++ "257 Created.\r\n".data } }
    else
      { n with _cClient := { n._cClient with rx := n._cClient.rx ++ "250 Done.\r\n".data } }
  connect := fun ch _ _ n => (true, n.setClient ch ⟨true, [], []⟩)
  write := fun bytes n => (bytes.length, n)
  stop := fun _ n => n

/-- Whether a run was cut while its loop was still running. -/
def Run.isRunning {α : Type} : Run α → Bool
  | Run.running => true
  | _ => false

/-- The lines the client printed on the control connection, in order. -/
def printed : List Ev → List (List Char)
  | [] => []
  | Ev.println line :: rest => line :: printed rest
  | _ :: rest => printed rest

/-- The result of a run that returned. -/
def Run.result {α : Type} : Run α → Option α
  | Run.done a => some a
  | _ => none

/-- The files of the model file server in the examples: `/a.txt` holding `hello`. -/
def exampleFiles : List (List Char × List Char) := [("/a.txt".data, "hello".data)]

/-- A connected client of the scripted peer that answers `350` and then `250`. -/
def renameState : State (List (List Char)) :=
  construct (ctrlOnly ["350 Ready for RNTO.\r\n".data, "250 Rename successful.\r\n".data] true [])
    0

/-- A connected client of the scripted peer that answers `213` with a date. -/
def mdtmState : State (List (List Char)) :=
  construct (ctrlOnly ["213 20240101120000.000\r\n".data] true []) 0

/-- The tree `/a/f g`, `/a/x/y`, `/a/z/`, `/ab/`: two files, four directories. -/
def exampleTree : List Entry :=
  [⟨[], "a".data, true⟩, ⟨["a".data], "f g".data, false⟩, ⟨["a".data], "x".data, true⟩,
    ⟨["a".data, "x".data], "y".data, false⟩, ⟨["a".data], "z".data, true⟩,
    ⟨[], "ab".data, true⟩]

/-! ## Well-formed trees -/

/-- A name the tree server can hold: not empty, without `'/'`, `'\r'` and NUL. -/
def validName (n : List Char) : Bool :=
  !n.isEmpty && n.all (fun c => c ≠ '/' && c ≠ '\r' && c ≠ Char.ofNat 0)

/-- Whether an entry is the directory `d` or lies below it: `d` is an initial segment of
its path. -/
def inside (d : List (List Char)) (e : Entry) : Bool :=
  e.path.take d.length = d

/-- A finite directory tree: every name is valid, no two entries have the same path, and
every entry lies in the root or in a directory of the tree. -/
def WellFormed (entries : List Entry) : Prop :=
  (∀ e ∈ entries, validName e.name = true ∧ ∀ seg ∈ e.parent, validName seg = true) ∧
  (entries.map Entry.path).Nodup ∧
  (∀ e ∈ entries, isDirPath entries e.parent = true)

/-- A connected client of the tree server holding `entries`, with nothing pending on the
control connection, whose buffer size admits the server's replies, whose control timeout
leaves time to read them, and whose data timeout leaves time to read `bound` bytes. -/
def TreeReady (bound : Nat) (entries : List Entry) (s : State Treed) : Prop :=
  s.net._cClient = ⟨true, [], []⟩ ∧ s.net.srv.entries = entries ∧
  (s._msg_buff_size < 5 ∨ 46 ≤ s._msg_buff_size) ∧ 64 ≤ s._ctrl_timeout_us ∧
  bound < s._data_timeout_us

/-- The `MLSD` line of an entry without its line end. -/
def entryText (e : Entry) : List Char :=
  (if e.isDir then "type=dir;".data else "type=file;".data) ++ [' '] ++ e.name

instance (entries : List Entry) : Decidable (WellFormed entries) := by
  unfold WellFormed
  infer_instance

instance (bound : Nat) (entries : List Entry) (s : State Treed) :
    Decidable (TreeReady bound entries s) := by
  unfold TreeReady
  infer_instance

/-- The tree `/a/b/c/d/e/f`: six directories, each in the one before. -/
def chainTree : List Entry :=
  [⟨[], "a".data, true⟩, ⟨["a".data], "b".data, true⟩,
    ⟨["a".data, "b".data], "c".data, true⟩,
    ⟨["a".data, "b".data, "c".data], "d".data, true⟩,
    ⟨["a".data, "b".data, "c".data, "d".data], "e".data, true⟩,
    ⟨["a".data, "b".data, "c".data, "d".data, "e".data], "f".data, true⟩]

/-- The client after `mktree("/a/b/c/d/e/f/")` on the empty tree. -/
def chainClient : State Treed :=
  match mktree treed 20 "/a/b/c/d/e/f/".data (treeClient [] false) with
  | Run.done r => r.2
  | _ => treeClient [] false

/-! ## States and definitions for the last examples -/

/-- The client after `initUpload("/x", CREATE_REPLACE)` on a fresh client of the model
server. -/
def storInit : State Ftpd :=
  match initUpload ftpd "/x".data OpenType.CREATE_REPLACE (freshClient exampleFiles) with
  | some r => r.2
  | none => freshClient exampleFiles

/-- The name the entry scan of `rmtree` cuts out of an entry:
`entry.substring(entry.indexOf(' ') + 1, endPos)`. -/
def entryName (entry : List Char) (endPos : Int) : List Char :=
  substring entry (indexOfChar entry ' ' 0 + 1) endPos

/-- The test the entry scan of `rmtree` makes on an entry:
`entry.substring(entry.indexOf('=') + 1, entry.indexOf(';')) == "dir"`. -/
def entryIsDir (entry : List Char) : Bool :=
  equalsLit (substring entry (indexOfChar entry '=' 0 + 1) (indexOfChar entry ';' 0)) "dir".data

/-- One visit of an entry, in the words of the spec: a directory is pushed and the flag set,
a file is deleted at once; `returned` holds the code when the deletion fails. -/
def visitEntry {σ : Type} (env : Env σ) (currentDir entry : List Char)
    (dirStack : List (List Char)) (containDir : Bool) (s : State σ) : Scan σ :=
  if entryIsDir entry then
    ⟨none, (currentDir ++ ['/'] ++ entryName entry entry.length) :: dirStack, true, s⟩
  else
    let r := deleteFile env (cstr (currentDir ++ ['/'] ++ entryName entry entry.length)) s
    if r.1 ≠ 0 then ⟨some r.2._r_code, dirStack, containDir, r.2⟩
    else ⟨none, dirStack, containDir, r.2⟩

/-- The entries visited one after the other, each once, in their order, up to the first
deletion that fails. -/
def visitEntries {σ : Type} (env : Env σ) (currentDir : List Char) :
    List (List Char) → List (List Char) → Bool → State σ → Scan σ
  | [], dirStack, containDir, s => ⟨none, dirStack, containDir, s⟩
  | entry :: rest, dirStack, containDir, s =>
    let v := visitEntry env currentDir entry dirStack containDir s
    if v.returned.isSome then v
    else visitEntries env currentDir rest v.dirStack v.containDir v.state

/-- A listing buffer in which every entry, the last one too, is followed by `"\r\n"`. -/
def joinLines (entries : List (List Char)) : List Char :=
  (entries.map (fun entry => entry ++ ['\r', '\n'])).flatten

/-- An `MLSD` entry line `key=value;more name`: a first fact, further facts, a space and the
name. -/
def factLine (key value more name : List Char) : List Char :=
  key ++ ['='] ++ value ++ [';'] ++ more ++ [' '] ++ name

/-- What a finished entry scan hands back, with the trace reduced to the printed lines. -/
def Scan.summary {σ : Type} (r : Run (Scan σ)) :
    Option (Option Nat × List (List Char) × Bool × List (List Char)) :=
  match r with
  | Run.done v => some (v.returned, v.dirStack, v.containDir, printed v.state.trace)
  | _ => none

/-! # Theorems -/

/-! ## `_readResponse` -/

theorem addDigit_digit (code : Nat) (c : Char) (k : Nat) (hc : isDigitC c = true)
    (hlt : code + digitVal c * k < 65536) :
    addDigit code c k = code + digitVal c * k := by
  simp only [isDigitC, Bool.and_eq_true, decide_eq_true_eq] at hc
  unfold addDigit digitVal at *
  have h1 : ((c.toNat : Int) - 48) = ((c.toNat - 48 : Nat) : Int) := by omega
  rw [h1]
  have h2 : ((code : Int) + ((c.toNat - 48 : Nat) : Int) * (k : Int))
      = ((code + (c.toNat - 48) * k : Nat) : Int) := by push_cast; ring
  rw [h2]
  have h3 : (((code + (c.toNat - 48) * k : Nat) : Int) % 65536)
      = ((code + (c.toNat - 48) * k : Nat) : Int) := by
    apply Int.emod_eq_of_lt
    · exact Int.ofNat_nonneg _
    · exact_mod_cast hlt
  rw [h3]
  exact Int.toNat_ofNat _

theorem digitVal_le (c : Char) (hc : isDigitC c = true) : digitVal c ≤ 9 := by
  simp only [isDigitC, Bool.and_eq_true, decide_eq_true_eq] at hc
  unfold digitVal
  omega

/-- The message part of the loop: from counter `j + 4`, a message `m` without `'\r'` that
does not reach the size bound is appended whole and the loop leaves at the terminator. -/
theorem readLoop_msg (size : Nat) (m : List Char) :
    ∀ (fuel j : Nat) (c : WiFiClient) (code : Nat) (msg rest : List Char),
      c.rx = m ++ '\r' :: rest → '\r' ∉ m →
      (size < j + 5 ∨ j + 5 + m.length ≤ size) → m.length < fuel →
      readLoop size fuel (j + 4) c code msg = ⟨{ c with rx := rest }, code, msg ++ m⟩ := by
  induction m with
  | nil =>
    intro fuel j c code msg rest hrx _ _ hfuel
    obtain ⟨f, rfl⟩ : ∃ f, fuel = f + 1 := ⟨fuel - 1, by simp at hfuel; omega⟩
    simp only [List.nil_append] at hrx
    simp [readLoop, hrx]
  | cons a m ih =>
    intro fuel j c code msg rest hrx hm hsize hfuel
    obtain ⟨f, rfl⟩ : ∃ f, fuel = f + 1 := ⟨fuel - 1, by simp at hfuel; omega⟩
    simp only [List.cons_append] at hrx
    have ha : a ≠ '\r' := fun h => hm (by simp [h])
    have hm2 : '\r' ∉ m := fun h => hm (List.mem_cons_of_mem _ h)
    have hne : ¬ (j + 5 = size) := by simp at hsize; omega
    have hstep := ih f (j + 1) { c with rx := m ++ '\r' :: rest } code (msg ++ [a]) rest rfl hm2
      (by simp at hsize ⊢; omega) (by simp at hfuel; omega)
    simp only [readLoop, hrx, ha, hne, or_self, if_false]
    rw [hstep]
    simp

/-- A complete single-line reply is parsed: three digits give the code, the fourth
character is skipped, the message is stored up to the terminator. -/
theorem readLoop_reply (size fuel : Nat) (c : WiFiClient) (d0 d1 d2 sep : Char)
    (m rest : List Char)
    (hrx : c.rx = d0 :: d1 :: d2 :: sep :: (m ++ '\r' :: rest))
    (h0 : isDigitC d0 = true) (h1 : isDigitC d1 = true) (h2 : isDigitC d2 = true)
    (hm : '\r' ∉ m) (hsize : size < 5 ∨ m.length + 5 ≤ size) (hfuel : m.length + 5 ≤ fuel) :
    readLoop size fuel 0 c 0 [] =
      ⟨{ c with rx := rest }, digitVal d0 * 100 + digitVal d1 * 10 + digitVal d2, m⟩ := by
  obtain ⟨f, rfl⟩ : ∃ f, fuel = f + 4 := ⟨fuel - 4, by omega⟩
  have b0 := digitVal_le d0 h0
  have b1 := digitVal_le d1 h1
  have b2 := digitVal_le d2 h2
  have e0 : addDigit 0 d0 100 = digitVal d0 * 100 := by
    rw [addDigit_digit 0 d0 100 h0 (by omega)]; omega
  have e1 : addDigit (digitVal d0 * 100) d1 10 = digitVal d0 * 100 + digitVal d1 * 10 :=
    addDigit_digit _ d1 10 h1 (by omega)
  have e2 : addDigit (digitVal d0 * 100 + digitVal d1 * 10) d2 1
      = digitVal d0 * 100 + digitVal d1 * 10 + digitVal d2 := by
    rw [addDigit_digit _ d2 1 h2 (by omega)]; omega
  have hmsg := readLoop_msg size m f 0 { c with rx := m ++ '\r' :: rest }
    (digitVal d0 * 100 + digitVal d1 * 10 + digitVal d2) [] rest rfl hm
    (by omega) (by omega)
  simp only [readLoop, hrx, e0, e1, e2]
  simpa using hmsg

/-- While the control connection stays up and nothing arrives, the loop only waits: when
the timeout elapses it leaves `_r_code` and `_r_msg` as they are. -/
theorem readLoop_silent (size : Nat) (c : WiFiClient) (hup : c.isConnected = true)
    (hrx : c.rx = []) (hlater : c.later = []) :
    ∀ (fuel i code : Nat) (msg : List Char),
      readLoop size fuel i c code msg = ⟨c, code, msg⟩ := by
  intro fuel
  induction fuel with
  | zero => intro i code msg; simp [readLoop]
  | succ f ih =>
    intro i code msg
    have hp : c.poll = c := by simp [WiFiClient.poll, hlater]
    simp [readLoop, hrx, hup, hp, ih]

/-- `_readResponse` on a complete single-line reply. -/
theorem readResponse_reply {σ : Type} (s : State σ) (d0 d1 d2 sep : Char)
    (m rest : List Char)
    (hrx : s.net._cClient.rx = d0 :: d1 :: d2 :: sep :: (m ++ '\r' :: rest))
    (h0 : isDigitC d0 = true) (h1 : isDigitC d1 = true) (h2 : isDigitC d2 = true)
    (hm : '\r' ∉ m) (hsize : s._msg_buff_size < 5 ∨ m.length + 5 ≤ s._msg_buff_size)
    (hfuel : m.length + 5 ≤ s._ctrl_timeout_us) :
    _readResponse s =
      (digitVal d0 * 100 + digitVal d1 * 10 + digitVal d2,
        { s with
          net := { s.net with _cClient := { s.net._cClient with rx := [] } }
          _r_code := digitVal d0 * 100 + digitVal d1 * 10 + digitVal d2
          _r_msg := m }) := by
  unfold _readResponse
  rw [readLoop_reply s._msg_buff_size s._ctrl_timeout_us s.net._cClient d0 d1 d2 sep m rest
    hrx h0 h1 h2 hm hsize hfuel]
  simp [discardRest]

/-- The size bound in the message part of the loop: from counter `j + 4`, when the bound is
`j + 5 + m.length`, the characters of `m` are stored and the character after them is read
and dropped, whatever it is. -/
theorem readLoop_cut (size : Nat) (m : List Char) :
    ∀ (fuel j : Nat) (c : WiFiClient) (code : Nat) (msg : List Char) (a : Char)
      (rest : List Char),
      c.rx = m ++ a :: rest → '\r' ∉ m → j + 5 + m.length = size → m.length < fuel →
      readLoop size fuel (j + 4) c code msg = ⟨{ c with rx := rest }, code, msg ++ m⟩ := by
  induction m with
  | nil =>
    intro fuel j c code msg a rest hrx _ hsize hfuel
    obtain ⟨f, rfl⟩ : ∃ f, fuel = f + 1 := ⟨fuel - 1, by simp at hfuel; omega⟩
    simp only [List.nil_append] at hrx
    simp only [List.length_nil, Nat.add_zero] at hsize
    simp [readLoop, hrx, hsize]
  | cons b m ih =>
    intro fuel j c code msg a rest hrx hm hsize hfuel
    obtain ⟨f, rfl⟩ : ∃ f, fuel = f + 1 := ⟨fuel - 1, by simp at hfuel; omega⟩
    simp only [List.cons_append] at hrx
    have hb : b ≠ '\r' := fun h => hm (by simp [h])
    have hm2 : '\r' ∉ m := fun h => hm (List.mem_cons_of_mem _ h)
    have hne : ¬ (j + 5 = size) := by simp at hsize; omega
    have hstep := ih f (j + 1) { c with rx := m ++ a :: rest } code (msg ++ [b]) a rest rfl hm2
      (by simp at hsize; omega) (by simp at hfuel; omega)
    simp only [readLoop, hrx, hb, hne, or_self, if_false]
    rw [hstep]
    simp

/-- What `_readResponse` stores of a long message: with a buffer size of at least 5, a reply
whose message continues after `size - 5` characters without `'\r'` gives the code and
exactly those `size - 5` characters. -/
theorem readResponse_cut {σ : Type} (s : State σ) (d0 d1 d2 sep a : Char)
    (m rest : List Char)
    (hrx : s.net._cClient.rx = d0 :: d1 :: d2 :: sep :: (m ++ a :: rest))
    (h0 : isDigitC d0 = true) (h1 : isDigitC d1 = true) (h2 : isDigitC d2 = true)
    (hm : '\r' ∉ m) (hsize : m.length + 5 = s._msg_buff_size)
    (hfuel : m.length + 5 ≤ s._ctrl_timeout_us) :
    (_readResponse s).1 = digitVal d0 * 100 + digitVal d1 * 10 + digitVal d2 ∧
    getLastMsg (_readResponse s).2 = m := by
  obtain ⟨f, hf⟩ : ∃ f, s._ctrl_timeout_us = f + 4 := ⟨s._ctrl_timeout_us - 4, by omega⟩
  have b0 := digitVal_le d0 h0
  have b1 := digitVal_le d1 h1
  have b2 := digitVal_le d2 h2
  have e0 : addDigit 0 d0 100 = digitVal d0 * 100 := by
    rw [addDigit_digit 0 d0 100 h0 (by omega)]; omega
  have e1 : addDigit (digitVal d0 * 100) d1 10 = digitVal d0 * 100 + digitVal d1 * 10 :=
    addDigit_digit _ d1 10 h1 (by omega)
  have e2 : addDigit (digitVal d0 * 100 + digitVal d1 * 10) d2 1
      = digitVal d0 * 100 + digitVal d1 * 10 + digitVal d2 := by
    rw [addDigit_digit _ d2 1 h2 (by omega)]; omega
  have hcut := readLoop_cut s._msg_buff_size m f 0
    { s.net._cClient with rx := m ++ a :: rest }
    (digitVal d0 * 100 + digitVal d1 * 10 + digitVal d2) [] a rest rfl hm
    (by omega) (by omega)
  have hloop : readLoop s._msg_buff_size s._ctrl_timeout_us 0 s.net._cClient 0 []
      = ⟨{ s.net._cClient with rx := rest },
          digitVal d0 * 100 + digitVal d1 * 10 + digitVal d2, m⟩ := by
    rw [hf]
    simp only [readLoop, hrx, e0, e1, e2]
    simpa using hcut
  unfold _readResponse getLastMsg
  rw [hloop]
  exact ⟨rfl, rfl⟩

/-! ## C3, C4, C5: `_readResponse` at concrete replies -/

/-- C3 (failing input): with the buffer size set to 10, the complete reply `200 Type OK`,
whose message has 7 characters, is parsed to code 200 but only `Type ` is stored: the
counter compared with the size counts the three digits and the separator too. -/
theorem readResponse_short_message_cut :
    "Type OK".data.length < shortReplyState._msg_buff_size ∧
    (_readResponse shortReplyState).1 = 200 ∧
    getLastCode (_readResponse shortReplyState).2 = 200 ∧
    getLastMsg (_readResponse shortReplyState).2 = "Type ".data ∧
    getLastMsg (_readResponse shortReplyState).2 ≠ "Type OK".data := by
  decide

/-- C4 (failing input): with capacity 10 a 50-byte message is stored as 5 bytes, not 10;
with capacity 3 all 50 bytes are stored; the capacity 300 is kept as 44 and stores 39
bytes.  The code 227 is returned each time. -/
theorem readResponse_capacity_not_kept :
    fiftyBytes.length = 50 ∧
    (_readResponse (longReplyState 10)).1 = 227 ∧
    (getLastMsg (_readResponse (longReplyState 10)).2).length = 5 ∧
    (_readResponse (longReplyState 3)).1 = 227 ∧
    (getLastMsg (_readResponse (longReplyState 3)).2).length = 50 ∧
    (_readResponse (longReplyState 300)).1 = 227 ∧
    (getLastMsg (_readResponse (longReplyState 300)).2).length = 39 := by
  decide

/-- `_readResponse` stores the code it returns. -/
theorem readResponse_code {σ : Type} (s : State σ) :
    getLastCode (_readResponse s).2 = (_readResponse s).1 := rfl

/-- On a silent control connection that stays up `_readResponse` returns 0. -/
theorem readResponse_silent {σ : Type} (s : State σ)
    (hup : s.net._cClient.isConnected = true) (hrx : s.net._cClient.rx = [])
    (hlater : s.net._cClient.later = []) :
    (_readResponse s).1 = 0 := by
  unfold _readResponse
  rw [readLoop_silent s._msg_buff_size s.net._cClient hup hrx hlater]

/-- After the two characters `22` and nothing more on a control connection that stays up,
`_readResponse` returns 220. -/
theorem readResponse_stalled {σ : Type} (s : State σ)
    (hc : s.net._cClient = ⟨true, ['2', '2'], []⟩) (ht : 2 ≤ s._ctrl_timeout_us) :
    (_readResponse s).1 = 220 := by
  obtain ⟨f, hf⟩ : ∃ f, s._ctrl_timeout_us = f + 2 := ⟨s._ctrl_timeout_us - 2, by omega⟩
  unfold _readResponse
  rw [hf, hc]
  simp only [readLoop]
  rw [readLoop_silent s._msg_buff_size ⟨true, [], []⟩ rfl rfl rfl]
  decide

/-- C5 (failing input): when the control timeout elapses on a connection that stays up,
`_readResponse` returns what it accumulated so far, 0 on a silent connection and 220 after
the two characters `22`, and never `TIMEOUT`. -/
theorem readResponse_timeout_not_reported :
    silentState.net._cClient.isConnected = true ∧
    (_readResponse silentState).1 = 0 ∧
    getLastCode (_readResponse silentState).2 = 0 ∧
    (_readResponse stalledState).1 = 220 ∧
    getLastCode (_readResponse stalledState).2 = 220 ∧
    TIMEOUT = 1 := by
  have e1 : (_readResponse silentState).1 = 0 := readResponse_silent silentState rfl rfl rfl
  have e2 : (_readResponse stalledState).1 = 220 :=
    readResponse_stalled stalledState rfl (by decide)
  refine ⟨rfl, e1, ?_, e2, ?_, rfl⟩
  · rw [readResponse_code, e1]
  · rw [readResponse_code, e2]

/-- The other half of C5: on a control connection that is down, pending bytes without a
terminator that do not reach the size bound are read and then `TIMEOUT` is the result. -/
theorem readLoop_disconnected (size : Nat) (rx : List Char) :
    ∀ (fuel i : Nat) (c : WiFiClient) (code : Nat) (msg : List Char),
      c.rx = rx → c.isConnected = false → '\r' ∉ rx →
      (size ≤ 4 ∨ i + rx.length < size) → rx.length < fuel →
      (readLoop size fuel i c code msg).code = TIMEOUT := by
  induction rx with
  | nil =>
    intro fuel i c code msg hrx hdown _ _ hfuel
    obtain ⟨f, rfl⟩ : ∃ f, fuel = f + 1 := ⟨fuel - 1, by simp at hfuel; omega⟩
    simp [readLoop, hrx, hdown]
  | cons a rx ih =>
    intro fuel i c code msg hrx hdown hcr hsize hfuel
    obtain ⟨f, rfl⟩ : ∃ f, fuel = f + 1 := ⟨fuel - 1, by simp at hfuel; omega⟩
    have ha : a ≠ '\r' := fun h => hcr (by simp [h])
    have hcr2 : '\r' ∉ rx := fun h => hcr (List.mem_cons_of_mem _ h)
    have hf : rx.length < f := by simp at hfuel; omega
    have hs : ∀ k, k = i + 1 → (size ≤ 4 ∨ k + rx.length < size) := by
      intro k hk; simp at hsize; omega
    match i with
    | 0 => simpa [readLoop, hrx] using ih f 1 { c with rx := rx } _ msg rfl hdown hcr2 (hs 1 rfl) hf
    | 1 => simpa [readLoop, hrx] using ih f 2 { c with rx := rx } _ msg rfl hdown hcr2 (hs 2 rfl) hf
    | 2 => simpa [readLoop, hrx] using ih f 3 { c with rx := rx } _ msg rfl hdown hcr2 (hs 3 rfl) hf
    | 3 => simpa [readLoop, hrx] using ih f 4 { c with rx := rx } code msg rfl hdown hcr2 (hs 4 rfl) hf
    | j + 4 =>
      have hne : ¬ (j + 5 = size) := by simp at hsize; omega
      simpa [readLoop, hrx, ha, hne] using
        ih f (j + 5) { c with rx := rx } code (msg ++ [a]) rfl hdown hcr2 (hs (j + 5) rfl) hf

/-! ## C2: `_sendCmd` -/

/-- C2 (counterexample): on a connected control channel the reply line `000` makes both
overloads of `_sendCmd` return 0 although the parsed code, 0, is not the expected 227. -/
theorem sendCmd_zero_code_counterexample :
    zeroCodeState.net._cClient.isConnected = true ∧
    (_readResponse (ctrlPrintln scripted ("PASV".data ++ [' '] ++ []) zeroCodeState)).1 = 0 ∧
    (_sendCmd scripted "PASV".data [] 227 zeroCodeState).1 = 0 ∧
    (_readResponse (ctrlPrintln scripted "PASV".data zeroCodeState)).1 = 0 ∧
    (_sendCmdNoArg scripted "PASV".data 227 zeroCodeState).1 = 0 := by
  decide

/-- C2 (amended): without a control connection `_sendCmd` returns `TIMEOUT` and makes it the
last code, sending nothing; with one it prints `cmd arg` (or `cmd`), reads one reply, keeps
it as the last response, and returns 0 when the parsed code is the expected one and the
parsed code otherwise.  For a parsed code other than 0 the result is therefore 0 exactly
when the channel is connected and the parsed code is the expected one. -/
theorem sendCmd_result {σ : Type} (env : Env σ) (cmd arg : List Char) (e : Nat)
    (s : State σ) :
    ((_sendCmd env cmd arg e s).1 =
        if s.net._cClient.isConnected then
          if (_readResponse (ctrlPrintln env (cmd ++ [' '] ++ arg) s)).1 = e then 0
          else (_readResponse (ctrlPrintln env (cmd ++ [' '] ++ arg) s)).1
        else TIMEOUT) ∧
    ((_sendCmd env cmd arg e s).2 =
        if s.net._cClient.isConnected then
          (_readResponse (ctrlPrintln env (cmd ++ [' '] ++ arg) s)).2
        else { s with _r_code := TIMEOUT }) ∧
    (getLastCode (_sendCmd env cmd arg e s).2 =
        if s.net._cClient.isConnected then
          (_readResponse (ctrlPrintln env (cmd ++ [' '] ++ arg) s)).1
        else TIMEOUT) ∧
    ((_readResponse (ctrlPrintln env (cmd ++ [' '] ++ arg) s)).1 ≠ 0 →
      ((_sendCmd env cmd arg e s).1 = 0 ↔
        (s.net._cClient.isConnected = true ∧
          (_readResponse (ctrlPrintln env (cmd ++ [' '] ++ arg) s)).1 = e))) ∧
    ((_sendCmdNoArg env cmd e s).1 =
        if s.net._cClient.isConnected then
          if (_readResponse (ctrlPrintln env cmd s)).1 = e then 0
          else (_readResponse (ctrlPrintln env cmd s)).1
        else TIMEOUT) ∧
    ((_sendCmdNoArg env cmd e s).2 =
        if s.net._cClient.isConnected then (_readResponse (ctrlPrintln env cmd s)).2
        else { s with _r_code := TIMEOUT }) ∧
    (getLastCode (_sendCmdNoArg env cmd e s).2 =
        if s.net._cClient.isConnected then (_readResponse (ctrlPrintln env cmd s)).1
        else TIMEOUT) ∧
    ((_readResponse (ctrlPrintln env cmd s)).1 ≠ 0 →
      ((_sendCmdNoArg env cmd e s).1 = 0 ↔
        (s.net._cClient.isConnected = true ∧ (_readResponse (ctrlPrintln env cmd s)).1 = e)))
    := by
  unfold _sendCmd _sendCmdNoArg
  cases hc : s.net._cClient.isConnected
  · simp [TIMEOUT, getLastCode]
  · simp only [if_true, true_and]
    refine ⟨?_, ?_, ?_, ?_, ?_, ?_, ?_, ?_⟩
    · split <;> simp [readResponse_code, getLastCode, _readResponse]
    · split <;> rfl
    · split <;> rfl
    · intro hne
      split <;> simp_all [_readResponse]
    · split <;> simp [readResponse_code, getLastCode, _readResponse]
    · split <;> rfl
    · split <;> rfl
    · intro hne
      split <;> simp_all [_readResponse]

/-! ## C7, C8: guards -/

/-- C7: when the status is not `IDLE`, `initUpload`, `initDownload`, both `uploadSingleshot`
overloads and both `downloadSingleshot` overloads return `BUSY` (3) and hand back the state
(network, status, last response and trace) exactly as it was. -/
theorem transfer_init_busy {σ : Type} (env : Env σ) (path data dest : List Char)
    (size : Nat) (t : OpenType) (s : State σ) (h : s._status ≠ Status.IDLE) :
    BUSY = 3 ∧
    initUpload env path t s = some (BUSY, s) ∧
    initDownload env path s = some (BUSY, s) ∧
    uploadSingleshot env path data t s = some (BUSY, s) ∧
    uploadSingleshotN env path data size t s = some (BUSY, s) ∧
    downloadSingleshot env path dest s = some (BUSY, dest, s) ∧
    downloadSingleshotRaw env path dest s = some (BUSY, dest, s) := by
  simp [initUpload, initDownload, uploadSingleshot, uploadSingleshotN, downloadSingleshot,
    downloadSingleshotRaw, h, BUSY]

theorem transfer_init_busy_witness :
    uploadingState._status ≠ Status.IDLE ∧
    initUpload scripted "/a.txt".data OpenType.CREATE_REPLACE uploadingState
      = some (BUSY, uploadingState) ∧
    initDownload scripted "/a.txt".data uploadingState = some (BUSY, uploadingState) :=
  ⟨by decide,
    (transfer_init_busy scripted "/a.txt".data [] [] 0 OpenType.CREATE_REPLACE
      uploadingState (by decide)).2.1,
    (transfer_init_busy scripted "/a.txt".data [] [] 0 OpenType.CREATE_REPLACE
      uploadingState (by decide)).2.2.1⟩

/-- C8: `uploadData` (both overloads) and `finishUpload` in a status other than `UPLOADING`,
and `downloadData` in a status other than `DOWNLOADING`, return 0 and hand back the state
(network, status, last code, last message, trace) and the destination unchanged. -/
theorem data_calls_noop {σ : Type} (env : Env σ) (data dest : List Char) (size amount : Nat)
    (s u : State σ) (hs : s._status ≠ Status.UPLOADING) (hu : u._status ≠ Status.DOWNLOADING) :
    uploadData env data s = (0, s) ∧
    uploadDataN env data size s = (0, s) ∧
    finishUpload env s = (0, s) ∧
    downloadData dest amount u = (0, dest, u) := by
  simp [uploadData, uploadDataN, finishUpload, downloadData, hs, hu]

theorem data_calls_noop_witness :
    zeroCodeState._status ≠ Status.UPLOADING ∧
    zeroCodeState._status ≠ Status.DOWNLOADING ∧
    uploadData scripted "hello".data zeroCodeState = (0, zeroCodeState) ∧
    uploadDataN scripted "hello".data 5 zeroCodeState = (0, zeroCodeState) ∧
    finishUpload scripted zeroCodeState = (0, zeroCodeState) ∧
    downloadData [] 0 zeroCodeState = (0, [], zeroCodeState) :=
  ⟨by decide, by decide,
    data_calls_noop scripted "hello".data [] 5 0 zeroCodeState zeroCodeState
      (by decide) (by decide)⟩

/-! ## C9: `downloadData` -/

/-- `_readData` on the data client leaves the control client, the last response, the
status and the trace as they are. -/
theorem readData_frame {σ : Type} (amount : Nat) (s : State σ) :
    (_readData Chan.data amount s).2.net._cClient = s.net._cClient ∧
    (_readData Chan.data amount s).2._r_code = s._r_code ∧
    (_readData Chan.data amount s).2._r_msg = s._r_msg ∧
    (_readData Chan.data amount s).2._status = s._status ∧
    (_readData Chan.data amount s).2.trace = s.trace := by
  simp [_readData, Net.setClient]

/-- C9: from status `DOWNLOADING`, `downloadData(dest, amount)` returns the number of bytes
`_readData` read; it runs `_readResponse` once and sets the status to `IDLE` exactly when
`amount` is 0 or no byte was read; otherwise the state is the one `_readData` left, with
status `DOWNLOADING` and the control client and last response untouched. -/
theorem downloadData_finish {σ : Type} (dest : List Char) (amount : Nat) (s : State σ)
    (h : s._status = Status.DOWNLOADING) :
    (downloadData dest amount s).1 = (_readData Chan.data amount s).1.length ∧
    ((downloadData dest amount s).2.2._status = Status.IDLE ↔
      (amount = 0 ∨ (_readData Chan.data amount s).1.length = 0)) ∧
    ((amount = 0 ∨ (_readData Chan.data amount s).1.length = 0) →
      (downloadData dest amount s).2.2 =
        { (_readResponse (_readData Chan.data amount s).2).2 with _status := Status.IDLE }) ∧
    (¬ (amount = 0 ∨ (_readData Chan.data amount s).1.length = 0) →
      (downloadData dest amount s).2.2 = (_readData Chan.data amount s).2 ∧
      (downloadData dest amount s).2.2._status = Status.DOWNLOADING ∧
      (downloadData dest amount s).2.2.net._cClient = s.net._cClient ∧
      (downloadData dest amount s).2.2._r_code = s._r_code ∧
      (downloadData dest amount s).2.2._r_msg = s._r_msg) := by
  have hf := readData_frame amount s
  by_cases hc : amount = 0 ∨ (_readData Chan.data amount s).1.length = 0
  · have hc2 : amount = 0 ∨ (amount ≠ 0 ∧ (_readData Chan.data amount s).1.length = 0) := by
      rcases hc with h0 | h0
      · exact Or.inl h0
      · by_cases ha : amount = 0
        · exact Or.inl ha
        · exact Or.inr ⟨ha, h0⟩
    simp only [downloadData, h, ne_eq, not_true_eq_false, if_false, hc2, if_true, hc,
      true_iff, true_implies, not_true_eq_false, false_implies, and_true]
  · have hc2 : ¬ (amount = 0 ∨ (amount ≠ 0 ∧ (_readData Chan.data amount s).1.length = 0)) := by
      intro h0
      rcases h0 with h0 | h0
      · exact hc (Or.inl h0)
      · exact hc (Or.inr h0.2)
    simp only [downloadData, h, ne_eq, not_true_eq_false, if_false, hc2, hc, false_implies,
      not_false_eq_true, true_implies, true_and, and_true]
    refine ⟨?_, hf.2.2.2.1.trans h, hf.1, hf.2.1, hf.2.2.1⟩
    rw [hf.2.2.2.1, h]
    simp

theorem downloadData_finish_witness :
    downloadingState._status = Status.DOWNLOADING ∧
    (downloadData [] 0 downloadingState).1
      = (_readData Chan.data 0 downloadingState).1.length ∧
    (downloadData [] 0 downloadingState).1 = 5 ∧
    (downloadData [] 2 downloadingState).1 = 2 ∧
    (downloadData [] 2 downloadingState).2.2._status = Status.DOWNLOADING :=
  ⟨by decide, (downloadData_finish [] 0 downloadingState (by decide)).1, by decide,
    by decide, by decide⟩

/-! ## C10: `finishUpload` -/

/-- C10 (counterexample): from status `UPLOADING`, when the next control-channel reply is the
line `000`, `finishUpload` returns 0 although the reply's code is 0 and not 226. -/
theorem finishUpload_zero_code_counterexample :
    finishZeroState._status = Status.UPLOADING ∧
    (_readResponse
      { clientStop scripted Chan.data finishZeroState with _status := Status.IDLE }).1 = 0 ∧
    (finishUpload scripted finishZeroState).1 = 0 := by
  decide

/-- C10 (amended): from status `UPLOADING`, `finishUpload` calls `stop` on the data client,
sets the status to `IDLE` whatever the reply, reads one reply, and returns 0 when its code is
226 and the code itself otherwise; for a code other than 0 it returns 0 exactly when the code
is 226. -/
theorem finishUpload_result {σ : Type} (env : Env σ) (s : State σ)
    (h : s._status = Status.UPLOADING) :
    (finishUpload env s).1 =
      (if (_readResponse { clientStop env Chan.data s with _status := Status.IDLE }).1 = 226
        then 0
        else (_readResponse { clientStop env Chan.data s with _status := Status.IDLE }).1) ∧
    (finishUpload env s).2 =
      (_readResponse { clientStop env Chan.data s with _status := Status.IDLE }).2 ∧
    (finishUpload env s).2._status = Status.IDLE ∧
    (finishUpload env s).2.trace = s.trace ++ [Ev.stop Chan.data] ∧
    (finishUpload env s).2.net.srv =
      (env.stop Chan.data { s.net with _dClient := ⟨false, [], []⟩ }).srv ∧
    ((_readResponse { clientStop env Chan.data s with _status := Status.IDLE }).1 ≠ 0 →
      ((finishUpload env s).1 = 0 ↔
        (_readResponse { clientStop env Chan.data s with _status := Status.IDLE }).1 = 226))
    := by
  simp only [finishUpload, h, ne_eq, not_true_eq_false, if_false]
  refine ⟨?_, ?_, ?_, ?_, ?_, ?_⟩
  · split <;> simp [_readResponse]
  · split <;> rfl
  · split <;> simp [_readResponse]
  · split <;> simp [_readResponse, clientStop]
  · split <;> simp [_readResponse, clientStop, Net.setClient]
  · intro hne
    split <;> simp_all [_readResponse]

theorem finishUpload_result_witness :
    finishingState._status = Status.UPLOADING ∧
    (finishUpload scripted finishingState).1 = 0 ∧
    (finishUpload scripted finishingState).2._status = Status.IDLE ∧
    (finishUpload scripted finishingState).2.trace
      = finishingState.trace ++ [Ev.stop Chan.data] :=
  ⟨by decide, by decide, (finishUpload_result scripted finishingState (by decide)).2.2.1,
    (finishUpload_result scripted finishingState (by decide)).2.2.2.1⟩

/-! ## Parsing the `PASV` reply -/

theorem bits32_ofNat (n : Nat) (h : n < 4294967296) : bits32 (n : Int) = n := by
  unfold bits32
  have : ((n : Int) % 4294967296) = (n : Int) := by
    apply Int.emod_eq_of_lt
    · exact Int.ofNat_nonneg _
    · exact_mod_cast h
  rw [this]
  exact Int.toNat_ofNat _

theorem pasv_port (a b : Nat) (ha : a ≤ 255) (hb : b ≤ 255) :
    (((a <<< 8) % 4294967296) ||| (b &&& 255)) % 65536 = a * 256 + b := by
  have h1 : a <<< 8 = 2 ^ 8 * a := by rw [Nat.shiftLeft_eq]; ring
  have h2 : b &&& 255 = b := by
    have := Nat.and_pow_two_sub_one_eq_mod b 8
    norm_num at this
    rw [this]; omega
  have h3 : (2 ^ 8 * a) % 4294967296 = 2 ^ 8 * a := by
    apply Nat.mod_eq_of_lt; omega
  rw [h1, h3, h2, ← Nat.mul_add_lt_is_or (by omega) a]
  omega

theorem digit_ne (c d : Char) (hc : isDigitC c = true) (hd : d.toNat < 48 ∨ 57 < d.toNat) :
    c ≠ d := by
  intro h
  subst h
  simp only [isDigitC, Bool.and_eq_true, decide_eq_true_eq] at hc
  omega

theorem leadingDigits_digits (t : List Char) :
    ∀ acc : Nat, (∀ c ∈ t, isDigitC c = true) →
      leadingDigits t acc = t.foldl (fun a c => a * 10 + digitVal c) acc := by
  induction t with
  | nil => intro acc _; rfl
  | cons a t ih =>
    intro acc h
    have ha := h a (by simp)
    have ha2 : 48 ≤ a.toNat ∧ a.toNat ≤ 57 := by
      simpa [isDigitC] using ha
    simp only [leadingDigits, ha2, and_self, if_true, List.foldl_cons]
    rw [ih _ (fun c hc => h c (List.mem_cons_of_mem _ hc))]
    rfl

theorem atoi_number (t : List Char) (ht : isNumber t = true) :
    atoi t = (decimalValue t : Int) := by
  simp only [isNumber, Bool.and_eq_true, Bool.not_eq_true', List.all_eq_true] at ht
  obtain ⟨hne, hd⟩ := ht
  cases t with
  | nil => simp at hne
  | cons a t =>
    have ha := hd a (by simp)
    have hsp : isSpaceC a = false := by
      have h1 := digit_ne a ' ' ha (by decide)
      simp only [isDigitC, Bool.and_eq_true, decide_eq_true_eq] at ha
      simp only [isSpaceC, Bool.or_eq_false_iff, decide_eq_false_iff_not, Bool.and_eq_false_iff,
        decide_eq_false_iff_not]
      exact ⟨h1, by omega⟩
    have hm : a ≠ '-' := digit_ne a '-' ha (by decide)
    have hp : a ≠ '+' := digit_ne a '+' ha (by decide)
    unfold atoi
    rw [List.dropWhile_cons_of_neg (by simp [hsp])]
    split
    · rename_i heq; simp at heq; exact absurd heq.1 hm
    · rename_i heq; simp at heq; exact absurd heq.1 hp
    · rw [leadingDigits_digits _ 0 hd]; rfl

theorem number_mem (t : List Char) (ht : isNumber t = true) :
    t ≠ [] ∧ ∀ c ∈ t, isDigitC c = true := by
  simp only [isNumber, Bool.and_eq_true, Bool.not_eq_true', List.all_eq_true] at ht
  refine ⟨?_, ht.2⟩
  intro h
  simp [h] at ht

theorem number_not_mem (t : List Char) (ht : isNumber t = true) (d : Char)
    (hd : d.toNat < 48 ∨ 57 < d.toNat) : d ∉ t := by
  intro h
  exact digit_ne d d ((number_mem t ht).2 d h) hd rfl

theorem strtokAll_last (delim : Char) (t : List Char) :
    ∀ cur : List Char, delim ∉ t → cur ++ t ≠ [] → strtokAll delim t cur = [cur ++ t] := by
  induction t with
  | nil => intro cur _ h; simp at h; simp [strtokAll, h]
  | cons a t ih =>
    intro cur hd _
    have ha : a ≠ delim := fun h => hd (by simp [h])
    have hd2 : delim ∉ t := fun h => hd (List.mem_cons_of_mem _ h)
    simp only [strtokAll, ha, if_false]
    rw [ih (cur ++ [a]) hd2 (by simp)]
    simp

theorem strtokAll_token (delim : Char) (t rest : List Char) :
    ∀ cur : List Char, delim ∉ t → cur ++ t ≠ [] →
      strtokAll delim (t ++ delim :: rest) cur = (cur ++ t) :: strtokAll delim rest [] := by
  induction t with
  | nil => intro cur _ h; simp at h; simp [strtokAll, h]
  | cons a t ih =>
    intro cur hd _
    have ha : a ≠ delim := fun h => hd (by simp [h])
    have hd2 : delim ∉ t := fun h => hd (List.mem_cons_of_mem _ h)
    simp only [List.cons_append, strtokAll, ha, if_false, List.append_eq]
    rw [ih (cur ++ [a]) hd2 (by simp)]
    simp

theorem strtokAll_sextuple (t0 t1 t2 t3 t4 t5 : List Char)
    (h0 : isNumber t0 = true) (h1 : isNumber t1 = true) (h2 : isNumber t2 = true)
    (h3 : isNumber t3 = true) (h4 : isNumber t4 = true) (h5 : isNumber t5 = true) :
    strtokAll ',' (sextuple t0 t1 t2 t3 t4 t5) [] = [t0, t1, t2, t3, t4, t5] := by
  unfold sextuple
  rw [strtokAll_token ',' t0 _ [] (number_not_mem t0 h0 ',' (by decide))
      (by simpa using (number_mem t0 h0).1),
    strtokAll_token ',' t1 _ [] (number_not_mem t1 h1 ',' (by decide))
      (by simpa using (number_mem t1 h1).1),
    strtokAll_token ',' t2 _ [] (number_not_mem t2 h2 ',' (by decide))
      (by simpa using (number_mem t2 h2).1),
    strtokAll_token ',' t3 _ [] (number_not_mem t3 h3 ',' (by decide))
      (by simpa using (number_mem t3 h3).1),
    strtokAll_token ',' t4 _ [] (number_not_mem t4 h4 ',' (by decide))
      (by simpa using (number_mem t4 h4).1),
    strtokAll_last ',' t5 [] (number_not_mem t5 h5 ',' (by decide))
      (by simpa using (number_mem t5 h5).1)]
  simp

theorem sextuple_not_mem (t0 t1 t2 t3 t4 t5 : List Char)
    (h0 : isNumber t0 = true) (h1 : isNumber t1 = true) (h2 : isNumber t2 = true)
    (h3 : isNumber t3 = true) (h4 : isNumber t4 = true) (h5 : isNumber t5 = true)
    (d : Char) (hd : d.toNat < 44 ∨ 57 < d.toNat) : d ∉ sextuple t0 t1 t2 t3 t4 t5 := by
  have hc : d ≠ ',' := by
    intro h; subst h; revert hd; decide
  have hd2 : d.toNat < 48 ∨ 57 < d.toNat := by omega
  simp only [sextuple, List.mem_append, List.mem_cons, not_or]
  exact ⟨number_not_mem t0 h0 d hd2, hc, number_not_mem t1 h1 d hd2, hc,
    number_not_mem t2 h2 d hd2, hc, number_not_mem t3 h3 d hd2, hc,
    number_not_mem t4 h4 d hd2, hc, number_not_mem t5 h5 d hd2⟩

theorem strstr_single (p : Char) (pre rest : List Char) :
    ∀ k : Nat, p ∉ pre → strstr [p] (pre ++ p :: rest) k = some (k + pre.length) := by
  induction pre with
  | nil => intro k _; simp [strstr, startsWith]
  | cons a pre ih =>
    intro k hp
    have ha : a ≠ p := fun h => hp (by simp [h])
    have hp2 : p ∉ pre := fun h => hp (List.mem_cons_of_mem _ h)
    simp only [List.cons_append, strstr, startsWith, ha, decide_False, Bool.false_and,
      Bool.false_eq_true, if_false, List.append_eq]
    rw [ih (k + 1) hp2]
    simp; omega

theorem cstr_append (a b : List Char) (ha : Char.ofNat 0 ∉ a) :
    cstr (a ++ b) = a ++ cstr b := by
  unfold cstr
  apply List.takeWhile_append_of_pos
  intro c hc
  simp only [ne_eq, decide_not, Bool.not_eq_true', decide_eq_false_iff_not]
  intro h
  exact ha (h ▸ hc)

theorem cstr_id (a : List Char) (ha : Char.ofNat 0 ∉ a) : cstr a = a := by
  have := cstr_append a [] ha
  simpa [cstr] using this

theorem toUnsigned_ofNat (n : Nat) (h : n < 4294967296) : toUnsigned (n : Int) = n :=
  bits32_ofNat n h

theorem indexOfStr_single (p : Char) (pre rest : List Char) (hp : p ∉ pre)
    (hp0 : p ≠ Char.ofNat 0) (hpre : Char.ofNat 0 ∉ pre) :
    indexOfStr (pre ++ p :: rest) [p] = (pre.length : Int) := by
  unfold indexOfStr
  have hlen : 0 < (pre ++ p :: rest).length := by simp
  have hc1 : cstr [p] = [p] := by
    simp [cstr, List.takeWhile, hp0]
  have hc2 : cstr (pre ++ p :: rest) = pre ++ p :: cstr rest := by
    rw [cstr_append pre _ hpre]
    simp [cstr, List.takeWhile, hp0]
  rw [if_pos hlen, hc1, hc2, strstr_single p pre _ 0 hp]
  simp

theorem substring_mid (a m b : List Char) (h : (a ++ m).length < 4294967296) :
    substring (a ++ m ++ b) (a.length : Int) ((a ++ m).length : Int) = m := by
  unfold substring
  have ha : a.length < 4294967296 := by simp at h; omega
  rw [toUnsigned_ofNat _ ha, toUnsigned_ofNat _ h]
  simp only [List.length_append, List.append_assoc]
  rw [Nat.min_eq_left (by omega), Nat.max_eq_right (by omega)]
  by_cases hm : m = []
  · subst hm; simp
  · have hpos : 0 < m.length := List.length_pos.mpr hm
    rw [if_neg (by omega)]
    rw [List.drop_left' rfl]
    rw [Nat.min_eq_left (by omega)]
    simp

/-- The endpoint read from a message whose first parenthesis opens a group of six decimal
numbers, each at most 255: the address is the first four, the port `p1 * 256 + p2`. -/
theorem pasvEndpoint_sextuple (pre post t0 t1 t2 t3 t4 t5 : List Char)
    (hpre : ∀ c ∈ pre, c ≠ '(' ∧ c ≠ ')' ∧ c ≠ Char.ofNat 0)
    (h0 : isNumber t0 = true) (h1 : isNumber t1 = true) (h2 : isNumber t2 = true)
    (h3 : isNumber t3 = true) (h4 : isNumber t4 = true) (h5 : isNumber t5 = true)
    (b0 : decimalValue t0 ≤ 255) (b1 : decimalValue t1 ≤ 255) (b2 : decimalValue t2 ≤ 255)
    (b3 : decimalValue t3 ≤ 255) (b4 : decimalValue t4 ≤ 255) (b5 : decimalValue t5 ≤ 255)
    (hlen : (pre ++ '(' :: sextuple t0 t1 t2 t3 t4 t5).length < 2147483648) :
    pasvEndpoint (pre ++ '(' :: (sextuple t0 t1 t2 t3 t4 t5 ++ ')' :: post)) =
      some (⟨decimalValue t0, decimalValue t1, decimalValue t2, decimalValue t3⟩,
        decimalValue t4 * 256 + decimalValue t5) := by
  have hS := sextuple_not_mem t0 t1 t2 t3 t4 t5 h0 h1 h2 h3 h4 h5
  have hp1 : '(' ∉ pre := fun h => (hpre _ h).1 rfl
  have hp2 : ')' ∉ pre := fun h => (hpre _ h).2.1 rfl
  have hp0 : Char.ofNat 0 ∉ pre := fun h => (hpre _ h).2.2 rfl
  have hS0 : Char.ofNat 0 ∉ sextuple t0 t1 t2 t3 t4 t5 := hS _ (by decide)
  have hi1 : indexOfStr (pre ++ '(' :: (sextuple t0 t1 t2 t3 t4 t5 ++ ')' :: post)) ['(']
      = (pre.length : Int) :=
    indexOfStr_single '(' pre _ hp1 (by decide) hp0
  have hi2 : indexOfStr (pre ++ '(' :: (sextuple t0 t1 t2 t3 t4 t5 ++ ')' :: post)) [')']
      = ((pre ++ '(' :: sextuple t0 t1 t2 t3 t4 t5).length : Int) := by
    have := indexOfStr_single ')' (pre ++ '(' :: sextuple t0 t1 t2 t3 t4 t5) post
      (by
        simp only [List.mem_append, List.mem_cons, not_or]
        exact ⟨hp2, by decide, hS _ (by decide)⟩)
      (by decide)
      (by
        simp only [List.mem_append, List.mem_cons, not_or]
        exact ⟨hp0, by decide, hS0⟩)
    simpa using this
  have hsub : substring (pre ++ '(' :: (sextuple t0 t1 t2 t3 t4 t5 ++ ')' :: post))
      ((pre.length : Int) + 1) ((pre ++ '(' :: sextuple t0 t1 t2 t3 t4 t5).length : Int)
      = sextuple t0 t1 t2 t3 t4 t5 := by
    have := substring_mid (pre ++ ['(']) (sextuple t0 t1 t2 t3 t4 t5) (')' :: post)
      (by simp at hlen ⊢; omega)
    simpa using this
  unfold pasvEndpoint
  simp only [hi1, hi2]
  rw [if_pos (by constructor <;> omega), hsub, cstr_id _ hS0,
    strtokAll_sextuple t0 t1 t2 t3 t4 t5 h0 h1 h2 h3 h4 h5]
  simp only [List.map, atoi_number, h0, h1, h2, h3, h4, h5]
  rw [bits32_ofNat _ (by omega), bits32_ofNat _ (by omega), bits32_ofNat _ (by omega),
    bits32_ofNat _ (by omega), bits32_ofNat _ (by omega), bits32_ofNat _ (by omega),
    pasv_port _ _ b4 b5, Nat.mod_eq_of_lt (by omega), Nat.mod_eq_of_lt (by omega),
    Nat.mod_eq_of_lt (by omega), Nat.mod_eq_of_lt (by omega)]

/-! ## C6: `_openDataChn` -/

/-- C6: when `PASV` is answered with the expected code and the stored message opens its first
parenthesis on six comma-separated decimal numbers `h1,h2,h3,h4,p1,p2`, each at most 255,
`_openDataChn` calls `connect` on the given client with address `h1.h2.h3.h4` and port
`p1 * 256 + p2`, and returns 0 when that call succeeds. -/
theorem openDataChn_endpoint {σ : Type} (env : Env σ) (ch : Chan) (s : State σ)
    (pre post t0 t1 t2 t3 t4 t5 : List Char)
    (hret : (_sendCmdNoArg env "PASV".data 227 s).1 = 0)
    (hmsg : getLastMsg (_sendCmdNoArg env "PASV".data 227 s).2
      = pre ++ '(' :: (sextuple t0 t1 t2 t3 t4 t5 ++ ')' :: post))
    (hpre : ∀ c ∈ pre, c ≠ '(' ∧ c ≠ ')' ∧ c ≠ Char.ofNat 0)
    (h0 : isNumber t0 = true) (h1 : isNumber t1 = true) (h2 : isNumber t2 = true)
    (h3 : isNumber t3 = true) (h4 : isNumber t4 = true) (h5 : isNumber t5 = true)
    (b0 : decimalValue t0 ≤ 255) (b1 : decimalValue t1 ≤ 255) (b2 : decimalValue t2 ≤ 255)
    (b3 : decimalValue t3 ≤ 255) (b4 : decimalValue t4 ≤ 255) (b5 : decimalValue t5 ≤ 255)
    (hlen : (pre ++ '(' :: sextuple t0 t1 t2 t3 t4 t5).length < 2147483648) :
    _openDataChn env ch s =
      some
        ((if (clientConnect env ch
              ⟨decimalValue t0, decimalValue t1, decimalValue t2, decimalValue t3⟩
              (decimalValue t4 * 256 + decimalValue t5)
              (_sendCmdNoArg env "PASV".data 227 s).2).1
          then 0
          else getLastCode (_sendCmdNoArg env "PASV".data 227 s).2),
        (clientConnect env ch
          ⟨decimalValue t0, decimalValue t1, decimalValue t2, decimalValue t3⟩
          (decimalValue t4 * 256 + decimalValue t5)
          (_sendCmdNoArg env "PASV".data 227 s).2).2) ∧
    (clientConnect env ch
        ⟨decimalValue t0, decimalValue t1, decimalValue t2, decimalValue t3⟩
        (decimalValue t4 * 256 + decimalValue t5)
        (_sendCmdNoArg env "PASV".data 227 s).2).2.trace =
      (_sendCmdNoArg env "PASV".data 227 s).2.trace ++
        [Ev.connect ch
          ⟨decimalValue t0, decimalValue t1, decimalValue t2, decimalValue t3⟩
          (decimalValue t4 * 256 + decimalValue t5)] := by
  refine ⟨?_, rfl⟩
  have hep := pasvEndpoint_sextuple pre post t0 t1 t2 t3 t4 t5 hpre h0 h1 h2 h3 h4 h5
    b0 b1 b2 b3 b4 b5 hlen
  unfold getLastMsg at hmsg
  rw [← hmsg] at hep
  unfold _openDataChn
  simp only [hret, ne_eq, not_true_eq_false, if_false, hep]
  split <;> simp_all [clientConnect, getLastCode]

theorem openDataChn_endpoint_witness :
    (_readResponse (ctrlPrintln scripted "PASV".data pasvState)).1 = 227 ∧
    ((_openDataChn scripted Chan.data pasvState).map (fun r => r.1)) = some 0 ∧
    ((_openDataChn scripted Chan.data pasvState).map (fun r => r.2.trace)) =
      some [Ev.println "PASV".data, Ev.connect Chan.data ⟨127, 0, 0, 1⟩ 51256] ∧
    (_openDataChn scripted Chan.data pasvState =
      some
        ((if (clientConnect scripted Chan.data
              ⟨decimalValue "127".data, decimalValue "0".data, decimalValue "0".data,
                decimalValue "1".data⟩
              (decimalValue "200".data * 256 + decimalValue "56".data)
              (_sendCmdNoArg scripted "PASV".data 227 pasvState).2).1
          then 0
          else getLastCode (_sendCmdNoArg scripted "PASV".data 227 pasvState).2),
        (clientConnect scripted Chan.data
          ⟨decimalValue "127".data, decimalValue "0".data, decimalValue "0".data,
            decimalValue "1".data⟩
          (decimalValue "200".data * 256 + decimalValue "56".data)
          (_sendCmdNoArg scripted "PASV".data 227 pasvState).2).2)) :=
  ⟨by decide, by decide, by decide,
    (openDataChn_endpoint scripted Chan.data pasvState "Entering Passive Mode ".data
      ".".data "127".data "0".data "0".data "1".data "200".data "56".data
      (by decide) (by decide) (by decide) (by decide) (by decide) (by decide) (by decide)
      (by decide) (by decide) (by decide) (by decide) (by decide) (by decide) (by decide)
      (by decide) (by decide)).1⟩

/-! ## The client against the model server -/

theorem lookupFile_storeFile (files : List (List Char × List Char)) (path content : List Char) :
    lookupFile (storeFile files path content) path = some content := by
  simp [storeFile, lookupFile]

theorem lookupFile_appendFile (files : List (List Char × List Char)) (path bytes : List Char) :
    lookupFile (appendFile files path bytes) path
      = (lookupFile files path).map (fun c => c ++ bytes) := by
  induction files with
  | nil => rfl
  | cons f fs ih =>
    by_cases h : f.1 = path
    · simp [appendFile, lookupFile, h]
    · have ih2 : lookupFile (List.map (fun f => if f.1 = path then (f.1, f.2 ++ bytes) else f) fs) path
          = (lookupFile fs path).map (fun c => c ++ bytes) := ih
      simp [appendFile, lookupFile, h, ih2]

/-- `PASV` against the model server. -/
theorem ftpd_pasv (d t : WiFiClient) (srv : Ftpd) (st : Status) (size code : Nat)
    (msg : List Char) (ct dt : Nat) (tr : List Ev)
    (hsize : size < 5 ∨ 46 ≤ size) (hct : 64 ≤ ct) :
    _sendCmdNoArg ftpd "PASV".data 227
        ⟨⟨⟨true, [], []⟩, d, t, srv⟩, st, size, code, msg, ct, dt, tr⟩ =
      (0, ⟨⟨⟨true, [], []⟩, d, t, { srv with passive := true }⟩, st, size, 227,
        "Entering Passive Mode (127,0,0,1,200,56).".data, ct, dt,
        tr ++ [Ev.println "PASV".data]⟩) := by
  have hp : ∀ n : Net Ftpd, ftpdPrintln ("PASV".data ++ ['\r', '\n']) n
      = ctrlReply pasvLine { n with srv := { n.srv with passive := true } } := fun _ => rfl
  have hr := readResponse_reply
    (⟨⟨⟨true, pasvLine, []⟩, d, t, { srv with passive := true }⟩, st, size, code, msg, ct, dt,
        tr ++ [Ev.println "PASV".data]⟩ : State Ftpd)
    '2' '2' '7' ' ' "Entering Passive Mode (127,0,0,1,200,56).".data ['\n'] rfl rfl rfl rfl
    (by decide) (by simpa using hsize) (by simp; omega)
  simp only [_sendCmdNoArg, ctrlPrintln, ftpd, hp, ctrlReply, List.nil_append, if_true]
  rw [hr]
  simp [digitVal]

/-- `_openDataChn` against the model server. -/
theorem ftpd_openDataChn (d t : WiFiClient) (srv : Ftpd) (st : Status) (size code : Nat)
    (msg : List Char) (ct dt : Nat) (tr : List Ev)
    (hsize : size < 5 ∨ 46 ≤ size) (hct : 64 ≤ ct) :
    _openDataChn ftpd Chan.data
        ⟨⟨⟨true, [], []⟩, d, t, srv⟩, st, size, code, msg, ct, dt, tr⟩ =
      some (0, ⟨⟨⟨true, [], []⟩, ⟨true, [], []⟩, t, { srv with passive := false }⟩, st, size,
        227, "Entering Passive Mode (127,0,0,1,200,56).".data, ct, dt,
        tr ++ [Ev.println "PASV".data, Ev.connect Chan.data ⟨127, 0, 0, 1⟩ 51256]⟩) := by
  have he : pasvEndpoint "Entering Passive Mode (127,0,0,1,200,56).".data
      = some (⟨127, 0, 0, 1⟩, 51256) := by decide
  unfold _openDataChn
  rw [ftpd_pasv d t srv st size code msg ct dt tr hsize hct]
  simp [he, clientConnect, ftpd, Net.setClient]

/-- The command line the client prints for `verb path` reaches the server with the verb in
front and `path` as the argument. -/
theorem ftpd_line (v0 v1 v2 v3 : Char) (path : List Char) (hpath : '\r' ∉ path) :
    (([v0, v1, v2, v3] ++ [' '] ++ path) ++ ['\r', '\n']).take 4 = [v0, v1, v2, v3] ∧
    (((([v0, v1, v2, v3] ++ [' '] ++ path) ++ ['\r', '\n']).drop 5).takeWhile
      (fun c => c ≠ '\r')) = path := by
  constructor
  · simp
  · have h : ∀ c ∈ path, (decide (c ≠ '\r')) = true := by
      intro c hc
      simp only [ne_eq, decide_not, Bool.not_eq_true', decide_eq_false_iff_not]
      intro h
      exact hpath (h ▸ hc)
    simp only [List.cons_append, List.nil_append, List.append_assoc, List.drop_succ_cons,
      List.drop_zero]
    rw [List.takeWhile_append_of_pos h]
    simp [List.takeWhile]

/-- `STOR path` against the model server, with the data connection open. -/
theorem ftpd_stor (path : List Char) (hpath : '\r' ∉ path)
    (t : WiFiClient) (srv : Ftpd) (st : Status) (size code : Nat)
    (msg : List Char) (ct dt : Nat) (tr : List Ev)
    (hsize : size < 5 ∨ 46 ≤ size) (hct : 64 ≤ ct) :
    _sendCmd ftpd ['S', 'T', 'O', 'R'] path 150
        ⟨⟨⟨true, [], []⟩, ⟨true, [], []⟩, t, srv⟩, st, size, code, msg, ct, dt, tr⟩ =
      (0, ⟨⟨⟨true, [], []⟩, ⟨true, [], []⟩, t,
          { srv with files := storeFile srv.files path [], storing := some path }⟩,
        st, size, 150, "Ok to send data.".data, ct, dt,
        tr ++ [Ev.println (['S', 'T', 'O', 'R'] ++ [' '] ++ path)]⟩) := by
  have hl := ftpd_line 'S' 'T' 'O' 'R' path hpath
  have hp : ∀ n : Net Ftpd, n._dClient.isConnected = true →
      ftpdPrintln ((['S', 'T', 'O', 'R'] ++ [' '] ++ path) ++ ['\r', '\n']) n
      = ctrlReply "150 Ok to send data.\r\n".data
        { n with srv := { n.srv with files := storeFile n.srv.files path [],
                                     storing := some path } } := by
    intro n hn
    unfold ftpdPrintln
    simp only [hl.1, hl.2, hn, if_true]
    rw [if_neg (by decide)]
  have hr := readResponse_reply
    (⟨⟨⟨true, "150 Ok to send data.\r\n".data, []⟩, ⟨true, [], []⟩, t,
        { srv with files := storeFile srv.files path [], storing := some path }⟩,
      st, size, code, msg, ct, dt, tr ++ [Ev.println (['S', 'T', 'O', 'R'] ++ [' '] ++ path)]⟩ :
        State Ftpd)
    '1' '5' '0' ' ' "Ok to send data.".data ['\n'] rfl rfl rfl rfl
    (by decide) (by simp; omega) (by simp; omega)
  simp only [_sendCmd, ctrlPrintln, ftpd,
    hp ⟨⟨true, [], []⟩, ⟨true, [], []⟩, t, srv⟩ rfl, ctrlReply, List.nil_append, if_true]
  rw [hr]
  simp [digitVal]

/-- `RETR path` against the model server, with the data connection open and the file
present: the content is pending on the closed data connection and 226 will follow. -/
theorem ftpd_retr (path content : List Char) (hpath : '\r' ∉ path)
    (t : WiFiClient) (srv : Ftpd) (st : Status) (size code : Nat)
    (msg : List Char) (ct dt : Nat) (tr : List Ev)
    (hfile : lookupFile srv.files path = some content)
    (hsize : size < 5 ∨ 46 ≤ size) (hct : 64 ≤ ct) :
    _sendCmd ftpd ['R', 'E', 'T', 'R'] path 150
        ⟨⟨⟨true, [], []⟩, ⟨true, [], []⟩, t, srv⟩, st, size, code, msg, ct, dt, tr⟩ =
      (0, ⟨⟨⟨true, [], ["226 Transfer complete.\r\n".data]⟩, ⟨false, content, []⟩, t, srv⟩,
        st, size, 150, "Opening BINARY mode data connection.".data, ct, dt,
        tr ++ [Ev.println (['R', 'E', 'T', 'R'] ++ [' '] ++ path)]⟩) := by
  have hl := ftpd_line 'R' 'E' 'T' 'R' path hpath
  have hp : ftpdPrintln ((['R', 'E', 'T', 'R'] ++ [' '] ++ path) ++ ['\r', '\n'])
        (⟨⟨true, [], []⟩, ⟨true, [], []⟩, t, srv⟩ : Net Ftpd)
      = ⟨⟨true, "150 Opening BINARY mode data connection.\r\n".data,
            ["226 Transfer complete.\r\n".data]⟩, ⟨false, content, []⟩, t, srv⟩ := by
    unfold ftpdPrintln
    simp only [hl.1, hl.2, hfile]
    rw [if_neg (by decide), if_neg (by decide)]
    rfl
  have hr := readResponse_reply
    (⟨⟨⟨true, "150 Opening BINARY mode data connection.\r\n".data,
          ["226 Transfer complete.\r\n".data]⟩, ⟨false, content, []⟩, t, srv⟩,
      st, size, code, msg, ct, dt, tr ++ [Ev.println (['R', 'E', 'T', 'R'] ++ [' '] ++ path)]⟩ :
        State Ftpd)
    '1' '5' '0' ' ' "Opening BINARY mode data connection.".data ['\n'] rfl rfl rfl rfl
    (by decide) (by simp; omega) (by simp; omega)
  simp only [_sendCmd, ctrlPrintln, ftpd, hp, if_true]
  rw [hr]
  simp [digitVal]

/-- Reading a data connection that the peer closed after sending `content`. -/
theorem readDataLoop_closed (content : List Char) :
    ∀ (fuel : Nat) (acc : List Char), content.length < fuel →
      readDataLoop 0 fuel ⟨false, content, []⟩ acc = (⟨false, [], []⟩, acc ++ content) := by
  induction content with
  | nil =>
    intro fuel acc hf
    obtain ⟨f, rfl⟩ : ∃ f, fuel = f + 1 := ⟨fuel - 1, by simp at hf; omega⟩
    simp [readDataLoop]
  | cons a content ih =>
    intro fuel acc hf
    obtain ⟨f, rfl⟩ : ∃ f, fuel = f + 1 := ⟨fuel - 1, by simp at hf; omega⟩
    simp only [readDataLoop, ne_eq, not_true_eq_false, false_and, if_false]
    rw [ih f (acc ++ [a]) (by simp at hf; omega)]
    simp

/-- The reply 226 that arrives once the client waits for it. -/
theorem readResponse_later_226 {σ : Type} (d t : WiFiClient) (srv : σ) (st : Status)
    (size code : Nat) (msg : List Char) (ct dt : Nat) (tr : List Ev)
    (hsize : size < 5 ∨ 46 ≤ size) (hct : 64 ≤ ct) :
    _readResponse (⟨⟨⟨true, [], ["226 Transfer complete.\r\n".data]⟩, d, t, srv⟩, st, size,
        code, msg, ct, dt, tr⟩ : State σ) =
      (226, ⟨⟨⟨true, [], []⟩, d, t, srv⟩, st, size, 226, "Transfer complete.".data, ct, dt,
        tr⟩) := by
  obtain ⟨f, rfl⟩ : ∃ f, ct = f + 1 := ⟨ct - 1, by omega⟩
  have hl := readLoop_reply size f ⟨true, "226 Transfer complete.\r\n".data, []⟩
    '2' '2' '6' ' ' "Transfer complete.".data ['\n'] rfl rfl rfl rfl
    (by decide) (by simp; omega) (by simp; omega)
  simp only [_readResponse, readLoop, WiFiClient.poll, if_true]
  rw [hl]
  simp [discardRest, digitVal]

/-- `finishUpload` against the model server during a `STOR`. -/
theorem ftpd_finishUpload (path : List Char) (d t : WiFiClient)
    (files : List (List Char × List Char)) (passive : Bool) (size code : Nat)
    (msg : List Char) (ct dt : Nat) (tr : List Ev)
    (hsize : size < 5 ∨ 46 ≤ size) (hct : 64 ≤ ct) :
    finishUpload ftpd
        ⟨⟨⟨true, [], []⟩, d, t, ⟨files, passive, some path⟩⟩, Status.UPLOADING, size, code, msg,
          ct, dt, tr⟩ =
      (0, ⟨⟨⟨true, [], []⟩, ⟨false, [], []⟩, t, ⟨files, passive, none⟩⟩, Status.IDLE, size,
        226, "Transfer complete.".data, ct, dt, tr ++ [Ev.stop Chan.data]⟩) := by
  have hr := readResponse_reply
    (⟨⟨⟨true, "226 Transfer complete.\r\n".data, []⟩, ⟨false, [], []⟩, t,
        ⟨files, passive, none⟩⟩, Status.IDLE, size, code, msg, ct, dt,
      tr ++ [Ev.stop Chan.data]⟩ : State Ftpd)
    '2' '2' '6' ' ' "Transfer complete.".data ['\n'] rfl rfl rfl rfl
    (by decide) (by simp; omega) (by simp; omega)
  simp only [finishUpload, clientStop, ftpd, Net.setClient, ctrlReply, List.nil_append,
    ne_eq, not_true_eq_false, if_false]
  rw [hr]
  simp [digitVal]

/-- `uploadData` against the model server during a `STOR`: the C string at `data` is
appended. -/
theorem ftpd_uploadData (path data : List Char) (c t : WiFiClient) (drx : List Char)
    (dl : List (List Char)) (files : List (List Char × List Char)) (passive : Bool)
    (size code : Nat) (msg : List Char) (ct dt : Nat) (tr : List Ev) :
    uploadData ftpd data
        ⟨⟨c, ⟨true, drx, dl⟩, t, ⟨files, passive, some path⟩⟩, Status.UPLOADING, size, code,
          msg, ct, dt, tr⟩ =
      ((cstr data).length,
        ⟨⟨c, ⟨true, drx, dl⟩, t, ⟨appendFile files path (cstr data), passive, some path⟩⟩,
          Status.UPLOADING, size, code, msg, ct, dt, tr ++ [Ev.write (cstr data)]⟩) := by
  simp [uploadData, dataWrite, ftpd]

/-- `uploadData(data, size)` against the model server during a `STOR`. -/
theorem ftpd_uploadDataN (path bytes : List Char) (n : Nat) (c t : WiFiClient)
    (drx : List Char) (dl : List (List Char)) (files : List (List Char × List Char))
    (passive : Bool) (size code : Nat) (msg : List Char) (ct dt : Nat) (tr : List Ev) :
    uploadDataN ftpd bytes n
        ⟨⟨c, ⟨true, drx, dl⟩, t, ⟨files, passive, some path⟩⟩, Status.UPLOADING, size, code,
          msg, ct, dt, tr⟩ =
      ((bytes.take n).length,
        ⟨⟨c, ⟨true, drx, dl⟩, t, ⟨appendFile files path (bytes.take n), passive, some path⟩⟩,
          Status.UPLOADING, size, code, msg, ct, dt, tr ++ [Ev.write (bytes.take n)]⟩) := by
  simp [uploadDataN, dataWrite, ftpd]

/-- A sequence of `uploadData` calls against the model server during a `STOR`: the C strings
at the arguments are appended in turn. -/
theorem ftpd_uploadChunks (path : List Char) (c t : WiFiClient) (drx : List Char)
    (dl : List (List Char)) (passive : Bool) (size code : Nat) (msg : List Char)
    (ct dt : Nat) (datas : List (List Char)) :
    ∀ (files : List (List Char × List Char)) (tr : List Ev),
      uploadChunks ftpd datas
          ⟨⟨c, ⟨true, drx, dl⟩, t, ⟨files, passive, some path⟩⟩, Status.UPLOADING, size, code,
            msg, ct, dt, tr⟩ =
        ⟨⟨c, ⟨true, drx, dl⟩, t,
            ⟨(datas.map cstr).foldl (fun fs chunk => appendFile fs path chunk) files, passive,
              some path⟩⟩,
          Status.UPLOADING, size, code, msg, ct, dt, tr ++ (datas.map cstr).map Ev.write⟩ := by
  induction datas with
  | nil => intro files tr; simp [uploadChunks]
  | cons a datas ih =>
    intro files tr
    have h := ih (appendFile files path (cstr a)) (tr ++ [Ev.write (cstr a)])
    unfold uploadChunks at h ⊢
    rw [List.foldl_cons, ftpd_uploadData]
    simp only [h]
    simp

theorem lookupFile_chunks (path : List Char) (chunks : List (List Char)) :
    ∀ (content : List Char) (files : List (List Char × List Char)),
      lookupFile files path = some content →
      lookupFile (chunks.foldl (fun fs chunk => appendFile fs path chunk) files) path
        = some (content ++ chunks.flatten) := by
  induction chunks with
  | nil => intro content files h; simpa using h
  | cons a chunks ih =>
    intro content files h
    rw [List.foldl_cons, ih (content ++ a) (appendFile files path a)
      (by rw [lookupFile_appendFile, h]; rfl)]
    simp

/-- `initUpload` with `CREATE_REPLACE` against the model server. -/
theorem ftpd_initUpload (path : List Char) (hpath : '\r' ∉ path) (drx : List Char)
    (dl : List (List Char)) (t : WiFiClient)
    (files : List (List Char × List Char)) (passive : Bool) (size code : Nat)
    (msg : List Char) (ct dt : Nat) (tr : List Ev)
    (hsize : size < 5 ∨ 46 ≤ size) (hct : 64 ≤ ct) :
    initUpload ftpd path OpenType.CREATE_REPLACE
        ⟨⟨⟨true, [], []⟩, ⟨false, drx, dl⟩, t, ⟨files, passive, none⟩⟩, Status.IDLE, size, code,
          msg, ct, dt, tr⟩ =
      some (0, ⟨⟨⟨true, [], []⟩, ⟨true, [], []⟩, t, ⟨storeFile files path [], false, some path⟩⟩,
        Status.UPLOADING, size, 150, "Ok to send data.".data, ct, dt,
        tr ++ [Ev.println "PASV".data, Ev.connect Chan.data ⟨127, 0, 0, 1⟩ 51256,
          Ev.println ("STOR".data ++ [' '] ++ path)]⟩) := by
  unfold initUpload
  simp only [Bool.false_eq_true, ne_eq, not_true_eq_false, or_self, if_false]
  rw [ftpd_openDataChn _ t _ _ size code msg ct dt tr hsize hct]
  simp only [ne_eq, not_true_eq_false, if_false]
  rw [ftpd_stor path hpath t _ _ size _ _ ct dt _ hsize hct]
  simp

/-- `downloadSingleshot` against the model server for a stored file. -/
theorem ftpd_downloadSingleshot (path content : List Char) (hpath : '\r' ∉ path)
    (d t : WiFiClient) (srv : Ftpd) (size code : Nat)
    (msg : List Char) (ct dt : Nat) (tr : List Ev)
    (hfile : lookupFile srv.files path = some content)
    (hsize : size < 5 ∨ 46 ≤ size) (hct : 64 ≤ ct) (hdt : content.length < dt) :
    downloadSingleshot ftpd path []
        ⟨⟨⟨true, [], []⟩, d, t, srv⟩, Status.IDLE, size, code, msg, ct, dt, tr⟩ =
      some (0, content,
        ⟨⟨⟨true, [], []⟩, ⟨false, [], []⟩, t, { srv with passive := false }⟩, Status.IDLE, size,
          226, "Transfer complete.".data, ct, dt,
          tr ++ [Ev.println "PASV".data, Ev.connect Chan.data ⟨127, 0, 0, 1⟩ 51256,
            Ev.println ("RETR".data ++ [' '] ++ path)]⟩) := by
  unfold downloadSingleshot
  simp only [ne_eq, not_true_eq_false, if_false]
  rw [ftpd_openDataChn d t srv _ size code msg ct dt tr hsize hct]
  simp only [ne_eq, not_true_eq_false, if_false]
  rw [ftpd_retr path content hpath t { srv with passive := false } _ size _ _ ct dt _ hfile
    hsize hct]
  simp only [ne_eq, not_true_eq_false, if_false, _readData, Net.client, Net.setClient]
  rw [readDataLoop_closed content dt [] hdt]
  simp only [List.nil_append]
  rw [readResponse_later_226 _ t _ _ size _ _ ct dt _ hsize hct]
  simp [addString]

/-! ## C1: upload then download -/

/-- C1: against the model server, from a connected idle client, for every path without
`'\r'` and every non-empty payload that the data timeout leaves time to read:
`uploadSingleshot(path, data, size, CREATE_REPLACE)` of the payload's bytes returns 0 and a
following `downloadSingleshot` of the same path into an empty destination returns 0 and
yields the payload; so does `uploadSingleshot(path, data, CREATE_REPLACE)` for every `data`
whose C string (the bytes before the first NUL) is the payload; and `initUpload`, any
sequence of `uploadData(data)` calls and `finishUpload` return 0 and the download then
yields the concatenation of the C strings handed to `uploadData`. -/
theorem upload_download_roundtrip (path payload : List Char) (chunks : List (List Char))
    (s : State Ftpd) (hs : Ready s) (hpath : '\r' ∉ path) (hne : payload ≠ [])
    (hdt : payload.length < s._data_timeout_us)
    (hdt2 : chunks.flatten.length < s._data_timeout_us) :
    (∀ data : List Char, cstr data = payload →
      ∃ s1 s2, uploadSingleshot ftpd path data OpenType.CREATE_REPLACE s = some (0, s1) ∧
        downloadSingleshot ftpd path [] s1 = some (0, payload, s2)) ∧
    (∃ s1 s2,
      uploadSingleshotN ftpd path payload payload.length OpenType.CREATE_REPLACE s
        = some (0, s1) ∧
      downloadSingleshot ftpd path [] s1 = some (0, payload, s2)) ∧
    (∀ datas : List (List Char), datas.map cstr = chunks →
      ∃ s1 s3 s4, initUpload ftpd path OpenType.CREATE_REPLACE s = some (0, s1) ∧
        finishUpload ftpd (uploadChunks ftpd datas s1) = (0, s3) ∧
        downloadSingleshot ftpd path [] s3 = some (0, chunks.flatten, s4)) := by
  obtain ⟨⟨c, ⟨dup, drx, dl⟩, t, ⟨files, passive, storing⟩⟩, st, size, code, msg, ct, dt, tr⟩ := s
  obtain ⟨hst, hc, hd, hsto, hsize, hct⟩ := hs
  simp only at hst hc hd hsto hsize hct hdt hdt2
  subst hst hc hd hsto
  have hinit := ftpd_initUpload path hpath drx dl t files passive size code msg ct dt tr
    hsize hct
  have hlook : lookupFile (appendFile (storeFile files path []) path payload) path
      = some payload := by
    simp [appendFile, storeFile, lookupFile]
  have hfin := ftpd_finishUpload path ⟨true, [], []⟩ t
    (appendFile (storeFile files path []) path payload) false size 150
    "Ok to send data.".data ct dt
    (tr ++ [Ev.println "PASV".data, Ev.connect Chan.data ⟨127, 0, 0, 1⟩ 51256,
        Ev.println ("STOR".data ++ [' '] ++ path)] ++ [Ev.write payload]) hsize hct
  have hdown := ftpd_downloadSingleshot path payload hpath ⟨false, [], []⟩ t
    ⟨appendFile (storeFile files path []) path payload, false, none⟩ size 226
    "Transfer complete.".data ct dt
    (tr ++ [Ev.println "PASV".data, Ev.connect Chan.data ⟨127, 0, 0, 1⟩ 51256,
        Ev.println ("STOR".data ++ [' '] ++ path)] ++ [Ev.write payload] ++ [Ev.stop Chan.data])
    hlook hsize hct hdt
  refine ⟨fun data hdata => ⟨_, _, ?_, hdown⟩, ⟨_, _, ?_, hdown⟩, ?_⟩
  · unfold uploadSingleshot
    simp only [ne_eq, not_true_eq_false, if_false, hinit]
    rw [ftpd_uploadData, hdata]
    simp only [List.length_eq_zero, hne, if_false]
    rw [hfin]
    simp only [ne_eq, not_true_eq_false, if_false]
  · unfold uploadSingleshotN
    simp only [ne_eq, not_true_eq_false, if_false, hinit]
    rw [ftpd_uploadDataN]
    simp only [List.take_length, List.length_eq_zero, hne, if_false]
    rw [hfin]
    simp only [ne_eq, not_true_eq_false, if_false]
  · have hfin3 := ftpd_finishUpload path ⟨true, [], []⟩ t
      (chunks.foldl (fun fs chunk => appendFile fs path chunk) (storeFile files path []))
      false size 150 "Ok to send data.".data ct dt
      (tr ++ [Ev.println "PASV".data, Ev.connect Chan.data ⟨127, 0, 0, 1⟩ 51256,
          Ev.println ("STOR".data ++ [' '] ++ path)] ++ chunks.map Ev.write) hsize hct
    have hlook3 := lookupFile_chunks path chunks [] (storeFile files path [])
      (lookupFile_storeFile files path [])
    rw [List.nil_append] at hlook3
    have hdown3 := ftpd_downloadSingleshot path chunks.flatten hpath ⟨false, [], []⟩ t
      ⟨chunks.foldl (fun fs chunk => appendFile fs path chunk) (storeFile files path []),
        false, none⟩ size 226 "Transfer complete.".data ct dt
      (tr ++ [Ev.println "PASV".data, Ev.connect Chan.data ⟨127, 0, 0, 1⟩ 51256,
          Ev.println ("STOR".data ++ [' '] ++ path)] ++ chunks.map Ev.write
        ++ [Ev.stop Chan.data])
      hlook3 hsize hct hdt2
    intro datas hdatas
    refine ⟨_, _, _, hinit, ?_, hdown3⟩
    rw [ftpd_uploadChunks, hdatas, hfin3]

theorem upload_download_roundtrip_witness :
    (((uploadSingleshot ftpd "/a.txt".data "hello".data OpenType.CREATE_REPLACE
        (freshClient [])).bind
      (fun r => downloadSingleshot ftpd "/a.txt".data [] r.2)).map
        (fun r => (r.1, r.2.1))) = some (0, "hello".data) ∧
    (((initUpload ftpd "/upload.multi".data OpenType.CREATE_REPLACE (freshClient [])).bind
      (fun r => downloadSingleshot ftpd "/upload.multi".data []
        (finishUpload ftpd
          (uploadChunks ftpd ["some".data, " ".data, "data".data] r.2)).2)).map
        (fun r => (r.1, r.2.1))) = some (0, "some data".data) ∧
    (∃ s1 s2,
      uploadSingleshot ftpd "/a.txt".data "hello".data OpenType.CREATE_REPLACE (freshClient [])
        = some (0, s1) ∧
      downloadSingleshot ftpd "/a.txt".data [] s1 = some (0, "hello".data, s2)) ∧
    (∃ s1 s3 s4,
      initUpload ftpd "/upload.multi".data OpenType.CREATE_REPLACE (freshClient [])
        = some (0, s1) ∧
      finishUpload ftpd (uploadChunks ftpd ["some".data, " ".data, "data".data] s1) = (0, s3) ∧
      downloadSingleshot ftpd "/upload.multi".data [] s3
        = some (0, ["some".data, " ".data, "data".data].flatten, s4)) :=
  ⟨by decide, by decide,
    (upload_download_roundtrip "/a.txt".data "hello".data [] (freshClient [])
      (by decide) (by decide) (by decide) (by decide) (by decide)).1 "hello".data (by decide),
    (upload_download_roundtrip "/upload.multi".data "x".data
      ["some".data, " ".data, "data".data] (freshClient [])
      (by decide) (by decide) (by decide) (by decide) (by decide)).2.2
      ["some".data, " ".data, "data".data] (by decide)⟩

/-- The two ways to hand over the bytes `he`, NUL, `llo`: `uploadSingleshot(path, data, t)`
sends the C string `he`, and that is what the download yields;
`uploadSingleshot(path, data, 6, t)` sends the six bytes, and the download yields them. -/
theorem upload_nul_example :
    (((uploadSingleshot ftpd "/a.txt".data ['h', 'e', Char.ofNat 0, 'l', 'l', 'o']
        OpenType.CREATE_REPLACE (freshClient [])).bind
      (fun r => downloadSingleshot ftpd "/a.txt".data [] r.2)).map
        (fun r => (r.1, r.2.1))) = some (0, "he".data) ∧
    (((uploadSingleshotN ftpd "/a.txt".data ['h', 'e', Char.ofNat 0, 'l', 'l', 'o'] 6
        OpenType.CREATE_REPLACE (freshClient [])).bind
      (fun r => downloadSingleshot ftpd "/a.txt".data [] r.2)).map
        (fun r => (r.1, r.2.1))) = some (0, ['h', 'e', Char.ofNat 0, 'l', 'l', 'o']) :=
  ⟨by decide, by decide⟩

/-! ## C11, C12: the guards of the transfer calls at a stale data connection -/

/-- C11 (failing input): `initUpload` with an invalid open type returns `INVARG` and leaves
the status `IDLE` with the data connection open.  From that state `initUpload` returns
`BUSY`, but `initDownload` prints `PASV` and `RETR` and returns 0: it tests the status only. -/
theorem initDownload_ignores_open_data :
    (initUpload ftpd "/x".data OpenType.invalid (freshClient exampleFiles)).map
        (fun r => (r.1, r.2._status, r.2.net._dClient.isConnected))
      = some (INVARG, Status.IDLE, true) ∧
    ((initUpload ftpd "/x".data OpenType.invalid (freshClient exampleFiles)).bind
        (fun r => initUpload ftpd "/a.txt".data OpenType.CREATE_REPLACE r.2)).map
        (fun r => (r.1, printed r.2.trace))
      = some (BUSY, ["PASV".data]) ∧
    ((initUpload ftpd "/x".data OpenType.invalid (freshClient exampleFiles)).bind
        (fun r => initDownload ftpd "/a.txt".data r.2)).map
        (fun r => (r.1, r.2._status, printed r.2.trace))
      = some (0, Status.DOWNLOADING, ["PASV".data, "PASV".data, "RETR /a.txt".data]) := by
  decide

/-- C12 (failing input): with an invalid open type `initUpload` returns `INVARG` (2) but
`uploadSingleshot` returns 227, the code of the `PASV` reply; with the data connection left
open `initUpload` returns `BUSY` (3) but `uploadSingleshot` again returns the last reply
code 227.  In both cases nothing is written and `finishUpload` is not run. -/
theorem uploadSingleshot_loses_error :
    (initUpload ftpd "/x".data OpenType.invalid (freshClient [])).map (fun r => r.1)
      = some INVARG ∧
    (uploadSingleshot ftpd "/x".data "hello".data OpenType.invalid (freshClient [])).map
        (fun r => (r.1, printed r.2.trace))
      = some (227, ["PASV".data]) ∧
    (uploadSingleshotN ftpd "/x".data "hello".data 5 OpenType.invalid (freshClient [])).map
        (fun r => (r.1, printed r.2.trace))
      = some (227, ["PASV".data]) ∧
    ((initUpload ftpd "/x".data OpenType.invalid (freshClient [])).bind
        (fun r => initUpload ftpd "/x".data OpenType.CREATE_REPLACE r.2)).map (fun r => r.1)
      = some BUSY ∧
    ((initUpload ftpd "/x".data OpenType.invalid (freshClient [])).bind
        (fun r => uploadSingleshot ftpd "/x".data "hello".data OpenType.CREATE_REPLACE r.2)).map
        (fun r => (r.1, printed r.2.trace))
      = some (227, ["PASV".data]) := by
  decide

/-! ## C18, C19: `renameFile` and `getLastModificationDate` -/

/-- C18 (failing input): when `RNFR` is answered 350 and `RNTO` 250, `renameFile` has sent
both commands but reaches the end of its body without a `return`, so no return value is
defined; the legacy `renameFile` returns 0 there. -/
theorem renameFile_success_no_return :
    (renameFile scripted "/a".data "/b".data renameState).1 = none ∧
    printed (renameFile scripted "/a".data "/b".data renameState).2.trace
      = ["RNFR /a".data, "RNTO /b".data] ∧
    getLastCode (renameFile scripted "/a".data "/b".data renameState).2 = 250 ∧
    (renameFileLegacy scripted "/a".data "/b".data renameState).1 = 0 := by
  decide

/-- C19 (failing input): `MDTM` is answered `213 20240101120000.000`; the function returns 0
and the date is the last message, but the output parameter still holds what it held. -/
theorem getLastModificationDate_keeps_output :
    (getLastModificationDate scripted "/a.txt".data "old".data mdtmState).1 = 0 ∧
    (getLastModificationDate scripted "/a.txt".data "old".data mdtmState).2.1 = "old".data ∧
    getLastMsg (getLastModificationDate scripted "/a.txt".data "old".data mdtmState).2.2
      = "20240101120000.000".data := by
  decide

/-- The output parameter of `getLastModificationDate` is never written. -/
theorem getLastModificationDate_output {σ : Type} (env : Env σ) (filename date : List Char)
    (s : State σ) : (getLastModificationDate env filename date s).2.1 = date := rfl

/-! ## C14, C15: `rmtree` and the root directory -/

/-- C15 (failing input, every peer and state): called with `"/"`, `rmtree` strips the
trailing slash, pushes the empty path, pops it and returns 0: it sends no command and leaves
the state as it was. -/
theorem rmtree_root_does_nothing {σ : Type} (env : Env σ) (fuel : Nat) (s : State σ) :
    rmtree env (fuel + 2) "/".data s = Run.done (0, s) := by
  have h1 : charAt "/".data (("/".data.length : Int) - 1) = '/' := by decide
  have h2 : substring "/".data 0 (("/".data.length : Int) - 1) = [] := by decide
  unfold rmtree
  rw [if_pos h1, h2]
  simp [rmtreeLoop]

/-- C15 (failing input at the tree server): the root holds the file `/f`; after
`rmtree("/")` nothing was printed and the file is still there. -/
theorem rmtree_root_keeps_files :
    (rmtree treed 20 "/".data (treeClient [⟨[], "f".data, false⟩] false)).result.map
        (fun r => (r.1, printed r.2.trace, r.2.net.srv.entries))
      = some (0, [], [⟨[], "f".data, false⟩]) := by
  decide

/-- C14 (failing input): called with `"//"` on a root that holds only the file `/f`,
`rmtree` lists `/`, deletes the file and then prints `RMD /`: the test that keeps `/` is
made only when the listing is empty. -/
theorem rmtree_issues_rmd_root :
    (rmtree treed 20 "//".data (treeClient [⟨[], "f".data, false⟩] false)).result.map
        (fun r => (r.1, printed r.2.trace))
      = some (550, ["PASV".data, "MLSD /".data, "DELE //f".data, "RMD /".data]) := by
  decide

/-! ## C16, C17, C20: `mktree` at concrete paths -/

/-- The witness of C16: on the empty tree `mktree("/a/b/c/d/e/f/")` returns 0 after one
`NLST` and one `MKD` for each of the six segments. -/
theorem mktree_absolute_example :
    (mktree treed 20 "/a/b/c/d/e/f/".data (treeClient [] false)).result.map
        (fun r => (r.1, printed r.2.trace, r.2.net.srv.entries.map Entry.path))
      = some (0,
          ["PASV".data, "NLST /".data, "MKD /a/".data,
            "PASV".data, "NLST /a/".data, "MKD /a/b/".data,
            "PASV".data, "NLST /a/b/".data, "MKD /a/b/c/".data,
            "PASV".data, "NLST /a/b/c/".data, "MKD /a/b/c/d/".data,
            "PASV".data, "NLST /a/b/c/d/".data, "MKD /a/b/c/d/e/".data,
            "PASV".data, "NLST /a/b/c/d/e/".data, "MKD /a/b/c/d/e/f/".data],
          [["a".data], ["a".data, "b".data], ["a".data, "b".data, "c".data],
            ["a".data, "b".data, "c".data, "d".data],
            ["a".data, "b".data, "c".data, "d".data, "e".data],
            ["a".data, "b".data, "c".data, "d".data, "e".data, "f".data]]) := by
  decide

/-- C17 (failing input): `mktree("/a/b")` on the empty tree returns 0 and creates `/a` and
`/a/b`; the second `mktree("/a/b")` lists `/`, does not find `/a/` in the listing, whether
the server lists bare names or names prefixed by the path, prints `MKD /a/` for the
existing directory and returns the server's 550. -/
theorem mktree_second_call_fails :
    (mktree treed 20 "/a/b".data (treeClient [] false)).result.map
        (fun r => (r.1, r.2.net.srv.entries.map Entry.path))
      = some (0, [["a".data], ["a".data, "b".data]]) ∧
    ((mktree treed 20 "/a/b".data (treeClient [] false)).result.bind
        (fun r => (mktree treed 20 "/a/b".data { r.2 with trace := [] }).result)).map
        (fun r => (r.1, printed r.2.trace))
      = some (550, ["PASV".data, "NLST /".data, "MKD /a/".data]) ∧
    ((mktree treed 20 "/a/b".data (treeClient [] true)).result.bind
        (fun r => (mktree treed 20 "/a/b".data { r.2 with trace := [] }).result)).map
        (fun r => (r.1, printed r.2.trace))
      = some (550, ["PASV".data, "NLST /".data, "MKD /a/".data]) := by
  decide

/-- C20 (failing input): the root holds the directory `/ab` only and the server lists names
prefixed by the path, so the listing of `/` is the one line `/ab`.  `mktree("/a")` finds the
text `/a` inside that line, prints no `MKD` and returns 0; `/a` does not exist afterwards.
And when the root holds `/a` and the server lists bare names, the listing names the segment
`a`, yet `MKD /a` is printed. -/
theorem mktree_substring_check :
    nlstListing (nlstLead true "/".data) (kids [⟨[], "ab".data, true⟩] []) = "/ab\r\n".data ∧
    (mktree treed 20 "/a".data (treeClient [⟨[], "ab".data, true⟩] true)).result.map
        (fun r => (r.1, printed r.2.trace, r.2.net.srv.entries.map Entry.path))
      = some (0, ["PASV".data, "NLST /".data], [["ab".data]]) ∧
    nlstListing (nlstLead false "/".data) (kids [⟨[], "a".data, true⟩] []) = "a\r\n".data ∧
    (mktree treed 20 "/a".data (treeClient [⟨[], "a".data, true⟩] false)).result.map
        (fun r => (r.1, printed r.2.trace))
      = some (550, ["PASV".data, "NLST /".data, "MKD /a".data]) := by
  decide

/-! ## Reading replies: forms used when running the client against a server -/

/-- `_readResponse` on a complete single-line reply whose code is `code`. -/
theorem readResponse_line {σ : Type} (s : State σ) (code : Nat) (d0 d1 d2 sep : Char)
    (m rest : List Char)
    (hrx : s.net._cClient.rx = d0 :: d1 :: d2 :: sep :: (m ++ '\r' :: rest))
    (h0 : isDigitC d0 = true) (h1 : isDigitC d1 = true) (h2 : isDigitC d2 = true)
    (hcode : digitVal d0 * 100 + digitVal d1 * 10 + digitVal d2 = code)
    (hm : '\r' ∉ m) (hsize : s._msg_buff_size < 5 ∨ m.length + 5 ≤ s._msg_buff_size)
    (hfuel : m.length + 5 ≤ s._ctrl_timeout_us) :
    _readResponse s =
      (code,
        { s with
          net := { s.net with _cClient := { s.net._cClient with rx := [] } }
          _r_code := code
          _r_msg := m }) := by
  rw [readResponse_reply s d0 d1 d2 sep m rest hrx h0 h1 h2 hm hsize hfuel, hcode]

/-- `_readResponse` when the reply arrives while the client waits for it. -/
theorem readResponse_awaited {σ : Type} (s : State σ) (code : Nat) (d0 d1 d2 sep : Char)
    (m rest : List Char)
    (hc : s.net._cClient = ⟨true, [], [d0 :: d1 :: d2 :: sep :: (m ++ '\r' :: rest)]⟩)
    (h0 : isDigitC d0 = true) (h1 : isDigitC d1 = true) (h2 : isDigitC d2 = true)
    (hcode : digitVal d0 * 100 + digitVal d1 * 10 + digitVal d2 = code)
    (hm : '\r' ∉ m) (hsize : s._msg_buff_size < 5 ∨ m.length + 5 ≤ s._msg_buff_size)
    (hfuel : m.length + 6 ≤ s._ctrl_timeout_us) :
    _readResponse s =
      (code,
        { s with
          net := { s.net with _cClient := ⟨true, [], []⟩ }
          _r_code := code
          _r_msg := m }) := by
  obtain ⟨f, hf⟩ : ∃ f, s._ctrl_timeout_us = f + 1 := ⟨s._ctrl_timeout_us - 1, by omega⟩
  have hl := readLoop_reply s._msg_buff_size f
    ⟨true, d0 :: d1 :: d2 :: sep :: (m ++ '\r' :: rest), []⟩ d0 d1 d2 sep m rest rfl h0 h1 h2
    hm hsize (by omega)
  unfold _readResponse
  rw [hf, hc]
  simp only [readLoop, WiFiClient.poll, if_true]
  rw [hl, hcode]
  simp [discardRest]

/-- `_readData` on a connection that the peer closed after sending `content`. -/
theorem readData_closed {σ : Type} (s : State σ) (ch : Chan) (content : List Char)
    (hc : s.net.client ch = ⟨false, content, []⟩) (hdt : content.length < s._data_timeout_us) :
    _readData ch 0 s = (content, { s with net := s.net.setClient ch ⟨false, [], []⟩ }) := by
  unfold _readData
  rw [hc, readDataLoop_closed content _ [] hdt]
  simp

/-- C16 (failing input): for the relative path `a`, against a server on which every listing
and every `MKD` succeeds, the running prefix is `./a`, `./aa`, `./aaa`, ... and never equals
`a`: `mktree` lists and creates one directory after the other for the single segment and
only returns when the server refuses (here the third `MKD`). -/
theorem mktree_relative_example :
    (mktree agreeable 20 "a".data (construct (ctrlOnly (some 2) true []) 0)).result.map
        (fun r => (r.1, printed r.2.trace))
      = some (550,
          ["PASV".data, "NLST ./".data, "MKD ./a".data,
            "PASV".data, "NLST ./a".data, "MKD ./aa".data,
            "PASV".data, "NLST ./aa".data, "MKD ./aaa".data]) ∧
    (mktree agreeable 20 "a".data (construct (ctrlOnly none true []) 0)).isRunning = true := by
  decide

/-! ## `mktree` with a relative path never returns -/

/-- The verb of a command line with an argument, as the servers read it. -/
theorem verb_of_line (v arg : List Char) (hv : ∀ c ∈ v, c ≠ ' ' ∧ c ≠ '\r') :
    ((v ++ [' '] ++ arg) ++ ['\r', '\n']).takeWhile (fun c => c ≠ ' ' && c ≠ '\r') = v := by
  have h : ∀ c ∈ v, (fun c => c ≠ ' ' && c ≠ '\r') c = true := by
    intro c hc
    have := hv c hc
    simp [this.1, this.2]
  rw [List.append_assoc, List.append_assoc, List.takeWhile_append_of_pos h]
  simp [List.takeWhile]

theorem agreeable_println_pasv (n : Net (Option Nat)) :
    agreeable.println (['P', 'A', 'S', 'V'] ++ ['\r', '\n']) n
      = { n with _cClient := { n._cClient with rx := n._cClient.rx ++ pasvLine } } := rfl

theorem agreeable_println_nlst (dir : List Char) (n : Net (Option Nat)) :
    agreeable.println ((['N', 'L', 'S', 'T'] ++ [' '] ++ dir) ++ ['\r', '\n']) n
      = { n with
          _cClient :=
            { n._cClient with
              rx := n._cClient.rx ++ "150 Here comes the listing.\r\n".data
              later := n._cClient.later ++ ["226 Transfer complete.\r\n".data] }
          tmp := ⟨false, [], []⟩ } := by
  have hv := verb_of_line ['N', 'L', 'S', 'T'] dir (by decide)
  simp only [agreeable]
  rw [hv]
  rfl

theorem agreeable_println_mkd (dir : List Char) (n : Net (Option Nat)) (h : n.srv = none) :
    agreeable.println ((['M', 'K', 'D'] ++ [' '] ++ dir) ++ ['\r', '\n']) n
      = { n with _cClient := { n._cClient with rx := n._cClient.rx ++ "257 Created.\r\n".data } }
    := by
  have hv := verb_of_line ['M', 'K', 'D'] dir (by decide)
  simp only [agreeable]
  rw [hv]
  simp [h]

/-- `listContent` with `SIMPLE` against the agreeable server: an empty listing. -/
theorem agreeable_listContent (dir dest : List Char) (d t : WiFiClient) (st : Status)
    (size code : Nat) (msg : List Char) (ct dt : Nat) (tr : List Ev)
    (hsize : size < 5 ∨ 46 ≤ size) (hct : 64 ≤ ct) (hdt : 1 ≤ dt) :
    listContent agreeable dir ListType.SIMPLE dest
        ⟨⟨⟨true, [], []⟩, d, t, none⟩, st, size, code, msg, ct, dt, tr⟩ =
      some (0, dest,
        ⟨⟨⟨true, [], []⟩, d, ⟨false, [], []⟩, none⟩, st, size, 226, "Transfer complete.".data,
          ct, dt,
          tr ++ [Ev.println ['P', 'A', 'S', 'V'], Ev.connect Chan.tmp ⟨127, 0, 0, 1⟩ 51256,
            Ev.println (['N', 'L', 'S', 'T'] ++ [' '] ++ dir), Ev.stop Chan.tmp]⟩) := by
  have he : pasvEndpoint "Entering Passive Mode (127,0,0,1,200,56).".data
      = some (⟨127, 0, 0, 1⟩, 51256) := by decide
  simp only [listContent, listCommand, _openDataChn, _sendCmdNoArg, ctrlPrintln, if_true,
    agreeable_println_pasv, List.nil_append]
  rw [readResponse_line _ 227 '2' '2' '7' ' ' "Entering Passive Mode (127,0,0,1,200,56).".data
    ['\n'] rfl rfl rfl rfl rfl (by decide) (by simpa using hsize) (by simp; omega)]
  simp only [ne_eq, not_true_eq_false, if_false, if_true, he, clientConnect, _sendCmd,
    ctrlPrintln, agreeable_println_nlst, List.nil_append]
  rw [show ∀ n : Net (Option Nat), (agreeable.connect Chan.tmp ⟨127, 0, 0, 1⟩ 51256 n)
      = (true, n.setClient Chan.tmp ⟨true, [], []⟩) from fun _ => rfl]
  simp only [Net.setClient, if_true, agreeable_println_nlst, List.nil_append]
  rw [readResponse_line _ 150 '1' '5' '0' ' ' "Here comes the listing.".data
    ['\n'] rfl rfl rfl rfl rfl (by decide) (by simp; omega) (by simp; omega)]
  simp only [ne_eq, not_true_eq_false, if_false, if_true]
  rw [readData_closed _ Chan.tmp [] ?_ ?_]
  rotate_left
  · rfl
  · simp only [List.length_nil]; omega
  simp only [Net.setClient]
  rw [readResponse_awaited _ 226 '2' '2' '6' ' ' "Transfer complete.".data
    ['\n'] rfl rfl rfl rfl rfl (by decide) (by simp; omega) (by simp; omega)]
  simp only [if_true, addString, List.append_nil, destroyTmp, clientStop, Net.setClient]
  rw [show ∀ n : Net (Option Nat), agreeable.stop Chan.tmp n = n from fun _ => rfl]
  simp

/-- `mkdir` against the agreeable server without a limit. -/
theorem agreeable_mkdir (dir : List Char) (d t : WiFiClient) (st : Status)
    (size code : Nat) (msg : List Char) (ct dt : Nat) (tr : List Ev)
    (hsize : size < 5 ∨ 46 ≤ size) (hct : 64 ≤ ct) :
    mkdir agreeable dir ⟨⟨⟨true, [], []⟩, d, t, none⟩, st, size, code, msg, ct, dt, tr⟩ =
      (0, ⟨⟨⟨true, [], []⟩, d, t, none⟩, st, size, 257, "Created.".data, ct, dt,
        tr ++ [Ev.println (['M', 'K', 'D'] ++ [' '] ++ dir)]⟩) := by
  simp only [mkdir, _sendCmd, ctrlPrintln, if_true]
  rw [agreeable_println_mkd dir _ rfl]
  simp only [List.nil_append]
  rw [readResponse_line _ 257 '2' '5' '7' ' ' "Created.".data
    ['\n'] rfl rfl rfl rfl rfl (by decide) (by simp; omega) (by simp; omega)]
  simp

/-- The loop of `mktree("a")` against the agreeable server: from a running prefix of at
least two characters it is still running after any number of iterations. -/
theorem mktreeLoop_relative_runs (fuel : Nat) :
    ∀ (e : List Char) (d t : WiFiClient) (st : Status) (size code : Nat) (msg : List Char)
      (ct dt : Nat) (tr : List Ev),
      (size < 5 ∨ 46 ≤ size) → 64 ≤ ct → 1 ≤ dt → 2 ≤ e.length →
      mktreeLoop agreeable "a".data fuel e [] 0
        ⟨⟨⟨true, [], []⟩, d, t, none⟩, st, size, code, msg, ct, dt, tr⟩ = Run.running := by
  induction fuel with
  | zero => intros; rfl
  | succ f ih =>
    intro e d t st size code msg ct dt tr hsize hct hdt he
    have h1 : strEquals e "a".data = false := by
      simp only [strEquals, Bool.and_eq_false_iff, decide_eq_false_iff_not]
      left
      simp only [String.data, List.length_cons, List.length_nil]
      omega
    have h2 : indexOfChar "a".data '/' 0 = -1 := by decide
    have h3 : substring "a".data 0 (-1) = "a".data := by decide
    have h4 : indexOfStr [] (e ++ "a".data) = -1 := by simp [indexOfStr]
    unfold mktreeLoop
    rw [h1]
    simp only [Bool.false_eq_true, if_false]
    rw [agreeable_listContent _ [] d t st size code msg ct dt tr hsize hct hdt]
    simp only [ne_eq, not_true_eq_false, if_false, h2, h3, h4]
    rw [agreeable_mkdir _ d _ st size _ _ ct dt _ hsize hct]
    simp only [ne_eq, not_true_eq_false, if_false]
    exact ih (e ++ "a".data) d _ st size _ _ ct dt _ hsize hct hdt (by simp; omega)

/-- C16 (failing input, every bound on the iterations): against a server on which every
listing and every `MKD` succeeds, `mktree("a")` is still running after any number of
iterations of its loop: it does not return. -/
theorem mktree_relative_never_returns (fuel : Nat) :
    mktree agreeable fuel "a".data (construct (ctrlOnly none true []) 0) = Run.running := by
  have h : startsWith "a".data ['/'] = false := by decide
  unfold mktree
  rw [h]
  simp only [Bool.false_eq_true, if_false]
  exact mktreeLoop_relative_runs fuel ['.', '/'] _ _ _ 60 _ _ 5000000 (5000000 * 2) _
    (Or.inr (by decide)) (by decide) (by decide) (by decide)

/-! ## Paths of the tree server -/

theorem validName_mem (n : List Char) (h : validName n = true) :
    n ≠ [] ∧ '/' ∉ n ∧ '\r' ∉ n ∧ Char.ofNat 0 ∉ n := by
  simp only [validName, Bool.and_eq_true, Bool.not_eq_true', List.all_eq_true,
    decide_eq_true_eq, ne_eq, decide_not] at h
  obtain ⟨hne, hall⟩ := h
  refine ⟨?_, ?_, ?_, ?_⟩
  · intro h0; simp [h0] at hne
  · intro hm; exact absurd (hall _ hm).1.1 (by decide)
  · intro hm; exact absurd (hall _ hm).1.2 (by decide)
  · intro hm; exact absurd (hall _ hm).2 (by decide)

theorem renderPath_nil : renderPath [] = [] := rfl

theorem renderPath_cons (n : List Char) (d : List (List Char)) :
    renderPath (n :: d) = '/' :: (n ++ renderPath d) := by
  simp [renderPath]

theorem renderPath_append (d : List (List Char)) (n : List Char) :
    renderPath (d ++ [n]) = renderPath d ++ '/' :: n := by
  simp [renderPath]

theorem renderPath_not_mem (d : List (List Char)) (c : Char) (hc : c ≠ '/')
    (hd : ∀ seg ∈ d, c ∉ seg) : c ∉ renderPath d := by
  induction d with
  | nil => simp [renderPath]
  | cons n d ih =>
    rw [renderPath_cons]
    simp only [List.mem_cons, List.mem_append, not_or]
    exact ⟨hc, hd n (by simp), ih (fun seg hs => hd seg (List.mem_cons_of_mem _ hs))⟩

theorem strtokAll_skip (delim : Char) (rest : List Char) :
    strtokAll delim (delim :: rest) [] = strtokAll delim rest [] := by
  simp [strtokAll]

theorem segments_renderPath (d : List (List Char)) (hd : ∀ seg ∈ d, validName seg = true) :
    segments (renderPath d) = d := by
  induction d with
  | nil => rfl
  | cons n d ih =>
    have hn := validName_mem n (hd n (by simp))
    have ih2 := ih (fun seg hs => hd seg (List.mem_cons_of_mem _ hs))
    unfold segments at ih2 ⊢
    rw [renderPath_cons, strtokAll_skip]
    cases d with
    | nil =>
      rw [renderPath_nil, List.append_nil,
        strtokAll_last '/' n [] hn.2.1 (by simpa using hn.1)]
      simp
    | cons m d =>
      rw [renderPath_cons] at ih2 ⊢
      rw [strtokAll_token '/' n _ [] hn.2.1 (by simpa using hn.1)]
      rw [strtokAll_skip] at ih2
      rw [ih2]
      simp

theorem segments_slash (path : List Char) :
    segments (path ++ ['/']) = segments path := by
  unfold segments
  have h : ∀ (p cur : List Char), strtokAll '/' (p ++ ['/']) cur = strtokAll '/' p cur := by
    intro p
    induction p with
    | nil => intro cur; by_cases hc : cur = [] <;> simp [strtokAll, hc]
    | cons a p ih =>
      intro cur
      by_cases ha : a = '/'
      · by_cases hc : cur = [] <;> simp [strtokAll, ha, hc, ih]
      · simp [strtokAll, ha, ih]
  exact h path []

/-- The argument of a command line, as the tree server reads it. -/
theorem arg_of_line (v arg : List Char) (harg : '\r' ∉ arg) :
    ((((v ++ [' '] ++ arg) ++ ['\r', '\n']).drop (v.length + 1)).takeWhile (fun c => c ≠ '\r'))
      = arg := by
  have h : ∀ c ∈ arg, (fun c => decide (c ≠ '\r')) c = true := by
    intro c hc
    simp only [ne_eq, decide_not, Bool.not_eq_true', decide_eq_false_iff_not]
    intro h0
    exact harg (h0 ▸ hc)
  have hd : ((v ++ [' '] ++ arg) ++ ['\r', '\n']).drop (v.length + 1) = arg ++ ['\r', '\n'] := by
    rw [List.append_assoc, List.append_assoc]
    rw [show v ++ ([' '] ++ (arg ++ ['\r', '\n'])) = (v ++ [' ']) ++ (arg ++ ['\r', '\n']) from by
      simp]
    exact List.drop_left' (by simp)
  rw [hd, List.takeWhile_append_of_pos h]
  simp [List.takeWhile]

/-! ## The tree server, command by command -/

theorem treed_println_pasv (n : Net Treed) :
    treed.println (['P', 'A', 'S', 'V'] ++ ['\r', '\n']) n
      = treeReply pasvLine { n with srv := { n.srv with passive := true } } := rfl

theorem treed_println_mlsd (w : List Char) (d : List (List Char)) (n : Net Treed)
    (hd : segments w = d) (hw : '\r' ∉ w) (htmp : n.tmp.isConnected = true)
    (hdir : isDirPath n.srv.entries d = true) :
    treed.println ((['M', 'L', 'S', 'D'] ++ [' '] ++ w) ++ ['\r', '\n']) n
      = treeSend (mlsdListing (kids n.srv.entries d)) n := by
  have hv := verb_of_line ['M', 'L', 'S', 'D'] w (by decide)
  have ha := arg_of_line ['M', 'L', 'S', 'D'] w hw
  simp only [treed, treePrintln]
  rw [hv, ha, hd, if_neg (by decide), if_pos (by decide), htmp, hdir]
  simp

theorem treed_println_dele (w : List Char) (p : List (List Char)) (n : Net Treed)
    (hp : segments w = p) (hw : '\r' ∉ w)
    (hfile : n.srv.entries.any (fun e => !e.isDir && e.path = p) = true) :
    treed.println ((['D', 'E', 'L', 'E'] ++ [' '] ++ w) ++ ['\r', '\n']) n
      = treeReply "250 Deleted.\r\n".data
          { n with srv := { n.srv with entries := removeEntry n.srv.entries p false } } := by
  have hv := verb_of_line ['D', 'E', 'L', 'E'] w (by decide)
  have ha := arg_of_line ['D', 'E', 'L', 'E'] w hw
  simp only [treed, treePrintln]
  rw [hv, ha, hp, if_neg (by decide), if_neg (by decide),
    if_neg (by decide), if_pos (by decide), hfile]
  simp

theorem treed_println_rmd (w : List Char) (p : List (List Char)) (n : Net Treed)
    (hp : segments w = p) (hw : '\r' ∉ w)
    (hdir : n.srv.entries.any (fun e => e.isDir && e.path = p) = true)
    (hkids : kids n.srv.entries p = []) :
    treed.println ((['R', 'M', 'D'] ++ [' '] ++ w) ++ ['\r', '\n']) n
      = treeReply "250 Removed.\r\n".data
          { n with srv := { n.srv with entries := removeEntry n.srv.entries p true } } := by
  have hv := verb_of_line ['R', 'M', 'D'] w (by decide)
  have ha := arg_of_line ['R', 'M', 'D'] w hw
  simp only [treed, treePrintln]
  rw [hv, ha, hp, if_neg (by decide), if_neg (by decide),
    if_neg (by decide), if_neg (by decide), if_pos (by decide), hdir, hkids]
  simp

/-- `listContent` with `MACHINE` on a directory of the tree server: the listing of its
children. -/
theorem treed_listContent (E : List Entry) (w : List Char) (d : List (List Char)) (dc t : WiFiClient)
    (pa fu : Bool) (st : Status) (size code : Nat) (msg : List Char) (ct dt : Nat)
    (tr : List Ev) (hd : segments w = d) (hw : '\r' ∉ w) (hdir : isDirPath E d = true)
    (hsize : size < 5 ∨ 46 ≤ size) (hct : 64 ≤ ct)
    (hdt : (mlsdListing (kids E d)).length < dt) :
    listContent treed (w) ListType.MACHINE []
        ⟨⟨⟨true, [], []⟩, dc, t, ⟨E, pa, fu⟩⟩, st, size, code, msg, ct, dt, tr⟩ =
      some (0, mlsdListing (kids E d),
        ⟨⟨⟨true, [], []⟩, dc, ⟨false, [], []⟩, ⟨E, false, fu⟩⟩, st, size, 226,
          "Transfer complete.".data, ct, dt,
          tr ++ [Ev.println ['P', 'A', 'S', 'V'], Ev.connect Chan.tmp ⟨127, 0, 0, 1⟩ 51256,
            Ev.println (['M', 'L', 'S', 'D'] ++ [' '] ++ w),
            Ev.stop Chan.tmp]⟩) := by
  have he : pasvEndpoint "Entering Passive Mode (127,0,0,1,200,56).".data
      = some (⟨127, 0, 0, 1⟩, 51256) := by decide
  simp only [listContent, listCommand, _openDataChn, _sendCmdNoArg, ctrlPrintln, if_true,
    treed_println_pasv, treeReply, List.nil_append]
  rw [readResponse_line _ 227 '2' '2' '7' ' ' "Entering Passive Mode (127,0,0,1,200,56).".data
    ['\n'] rfl rfl rfl rfl rfl (by decide) (by simpa using hsize) (by simp; omega)]
  simp only [ne_eq, not_true_eq_false, if_false, if_true, he, clientConnect, _sendCmd,
    ctrlPrintln, List.nil_append]
  rw [show ∀ n : Net Treed, n.srv.passive = true →
      (treed.connect Chan.tmp ⟨127, 0, 0, 1⟩ 51256 n)
        = (true, { n.setClient Chan.tmp ⟨true, [], []⟩ with
                    srv := { n.srv with passive := false } }) from
      fun n h => by simp [treed, h]]
  rotate_left
  · rfl
  simp only [Net.setClient, if_true]
  rw [treed_println_mlsd w d _ hd hw rfl hdir]
  simp only [treeSend, List.nil_append]
  rw [readResponse_line _ 150 '1' '5' '0' ' ' "Here comes the listing.".data
    ['\n'] rfl rfl rfl rfl rfl (by decide) (by simp; omega) (by simp; omega)]
  simp only [ne_eq, not_true_eq_false, if_false, if_true]
  rw [readData_closed _ Chan.tmp (mlsdListing (kids E d)) ?_ ?_]
  rotate_left
  · rfl
  · exact hdt
  simp only [Net.setClient]
  rw [readResponse_awaited _ 226 '2' '2' '6' ' ' "Transfer complete.".data
    ['\n'] rfl rfl rfl rfl rfl (by decide) (by simp; omega) (by simp; omega)]
  simp only [if_true, addString, List.nil_append, destroyTmp, clientStop, Net.setClient]
  rw [show ∀ n : Net Treed, treed.stop Chan.tmp n = n from fun _ => rfl]
  simp

/-- `deleteFile` on a file of the tree server. -/
theorem treed_deleteFile (E : List Entry) (w : List Char) (p : List (List Char)) (dc t : WiFiClient)
    (pa fu : Bool) (st : Status) (size code : Nat) (msg : List Char) (ct dt : Nat)
    (tr : List Ev) (hp : segments w = p) (hw : '\r' ∉ w)
    (hfile : E.any (fun e => !e.isDir && e.path = p) = true)
    (hsize : size < 5 ∨ 46 ≤ size) (hct : 64 ≤ ct) :
    deleteFile treed (w)
        ⟨⟨⟨true, [], []⟩, dc, t, ⟨E, pa, fu⟩⟩, st, size, code, msg, ct, dt, tr⟩ =
      (0, ⟨⟨⟨true, [], []⟩, dc, t, ⟨removeEntry E p false, pa, fu⟩⟩, st, size, 250,
        "Deleted.".data, ct, dt,
        tr ++ [Ev.println (['D', 'E', 'L', 'E'] ++ [' '] ++ w)]⟩) := by
  simp only [deleteFile, _sendCmd, ctrlPrintln, if_true]
  rw [treed_println_dele w p _ hp hw hfile]
  simp only [treeReply, List.nil_append]
  rw [readResponse_line _ 250 '2' '5' '0' ' ' "Deleted.".data
    ['\n'] rfl rfl rfl rfl rfl (by decide) (by simp; omega) (by simp; omega)]
  simp

/-- `rmdir` on an empty directory of the tree server. -/
theorem treed_rmdir (E : List Entry) (w : List Char) (p : List (List Char)) (dc t : WiFiClient)
    (pa fu : Bool) (st : Status) (size code : Nat) (msg : List Char) (ct dt : Nat)
    (tr : List Ev) (hp : segments w = p) (hw : '\r' ∉ w)
    (hdir : E.any (fun e => e.isDir && e.path = p) = true) (hkids : kids E p = [])
    (hsize : size < 5 ∨ 46 ≤ size) (hct : 64 ≤ ct) :
    rmdir treed (w)
        ⟨⟨⟨true, [], []⟩, dc, t, ⟨E, pa, fu⟩⟩, st, size, code, msg, ct, dt, tr⟩ =
      (0, ⟨⟨⟨true, [], []⟩, dc, t, ⟨removeEntry E p true, pa, fu⟩⟩, st, size, 250,
        "Removed.".data, ct, dt,
        tr ++ [Ev.println (['R', 'M', 'D'] ++ [' '] ++ w)]⟩) := by
  simp only [rmdir, _sendCmd, ctrlPrintln, if_true]
  rw [treed_println_rmd w p _ hp hw hdir hkids]
  simp only [treeReply, List.nil_append]
  rw [readResponse_line _ 250 '2' '5' '0' ' ' "Removed.".data
    ['\n'] rfl rfl rfl rfl rfl (by decide) (by simp; omega) (by simp; omega)]
  simp

/-! ## The same steps from any ready state -/

theorem treeReady_listContent (B : Nat) (E : List Entry) (w : List Char) (d : List (List Char))
    (s : State Treed) (hs : TreeReady B E s) (hd : segments w = d) (hw : '\r' ∉ w)
    (hdir : isDirPath E d = true) (hB : (mlsdListing (kids E d)).length ≤ B) :
    ∃ s1, listContent treed w ListType.MACHINE [] s = some (0, mlsdListing (kids E d), s1)
      ∧ TreeReady B E s1 := by
  obtain ⟨⟨c, dc, t, ⟨E0, pa, fu⟩⟩, st, size, code, msg, ct, dt, tr⟩ := s
  simp only [TreeReady] at hs
  obtain ⟨rfl, rfl, hsize, hct, hdt⟩ := hs
  refine ⟨_, treed_listContent E0 w d dc t pa fu st size code msg ct dt tr hd hw hdir hsize hct
    (by omega), ?_⟩
  exact ⟨rfl, rfl, hsize, hct, hdt⟩

theorem treeReady_deleteFile (B : Nat) (E : List Entry) (w : List Char) (p : List (List Char))
    (s : State Treed) (hs : TreeReady B E s) (hp : segments w = p) (hw : '\r' ∉ w)
    (hfile : E.any (fun e => !e.isDir && e.path = p) = true) :
    ∃ s1, deleteFile treed w s = (0, s1) ∧ TreeReady B (removeEntry E p false) s1 := by
  obtain ⟨⟨c, dc, t, ⟨E0, pa, fu⟩⟩, st, size, code, msg, ct, dt, tr⟩ := s
  simp only [TreeReady] at hs
  obtain ⟨rfl, rfl, hsize, hct, hdt⟩ := hs
  refine ⟨_, treed_deleteFile E0 w p dc t pa fu st size code msg ct dt tr hp hw hfile hsize hct,
    ?_⟩
  exact ⟨rfl, rfl, hsize, hct, hdt⟩

theorem treeReady_rmdir (B : Nat) (E : List Entry) (w : List Char) (p : List (List Char))
    (s : State Treed) (hs : TreeReady B E s) (hp : segments w = p) (hw : '\r' ∉ w)
    (hdir : E.any (fun e => e.isDir && e.path = p) = true) (hkids : kids E p = []) :
    ∃ s1, rmdir treed w s = (0, s1) ∧ TreeReady B (removeEntry E p true) s1 := by
  obtain ⟨⟨c, dc, t, ⟨E0, pa, fu⟩⟩, st, size, code, msg, ct, dt, tr⟩ := s
  simp only [TreeReady] at hs
  obtain ⟨rfl, rfl, hsize, hct, hdt⟩ := hs
  refine ⟨_, treed_rmdir E0 w p dc t pa fu st size code msg ct dt tr hp hw hdir hkids hsize hct,
    ?_⟩
  exact ⟨rfl, rfl, hsize, hct, hdt⟩

/-! ## The strings of an `MLSD` listing -/

theorem strchr_found (ch : Char) (pre rest : List Char) :
    ∀ k : Nat, ch ∉ pre → strchr ch (pre ++ ch :: rest) k = some (k + pre.length) := by
  induction pre with
  | nil => intro k _; simp [strchr]
  | cons a pre ih =>
    intro k hp
    have ha : a ≠ ch := fun h => hp (by simp [h])
    have hp2 : ch ∉ pre := fun h => hp (List.mem_cons_of_mem _ h)
    simp only [List.cons_append, strchr, ha, if_false, List.append_eq]
    rw [ih (k + 1) hp2]
    simp; omega

theorem indexOfChar_at (B pre m rest : List Char) (ch : Char) (hB : B = pre ++ (m ++ ch :: rest))
    (hch : ch ≠ Char.ofNat 0) (hm : ch ∉ m) (hm0 : Char.ofNat 0 ∉ m)
    (hlen : pre.length < 4294967296) :
    indexOfChar B ch (pre.length : Int) = ((pre.length + m.length : Nat) : Int) := by
  subst hB
  unfold indexOfChar
  rw [toUnsigned_ofNat _ hlen, if_pos (by simp), List.drop_left, cstr_append m _ hm0]
  have hc : cstr (ch :: rest) = ch :: cstr rest := by
    simp [cstr, List.takeWhile, hch]
  rw [hc, strchr_found ch m _ _ hm]

theorem indexOfChar_zero (m rest : List Char) (ch : Char)
    (hch : ch ≠ Char.ofNat 0) (hm : ch ∉ m) (hm0 : Char.ofNat 0 ∉ m) :
    indexOfChar (m ++ ch :: rest) ch 0 = (m.length : Int) := by
  have h := indexOfChar_at (m ++ ch :: rest) [] m rest ch rfl hch hm hm0 (by simp)
  simpa using h

theorem substring_at (B a m b : List Char) (hB : B = a ++ (m ++ b))
    (h : (a ++ m).length < 4294967296) :
    substring B (a.length : Int) ((a.length + m.length : Nat) : Int) = m := by
  subst hB
  have := substring_mid a m b h
  simpa using this

theorem substring_rest (a m : List Char) (k : Nat) (hk : (a ++ m).length ≤ k)
    (hk2 : k < 4294967296) :
    substring (a ++ m) (a.length : Int) (k : Int) = m := by
  unfold substring
  have ha : a.length < 4294967296 := by simp at hk; omega
  rw [toUnsigned_ofNat _ ha, toUnsigned_ofNat _ hk2]
  simp only [List.length_append] at hk ⊢
  rw [Nat.min_eq_left (by omega), Nat.max_eq_right (by omega)]
  by_cases hm : m = []
  · subst hm; simp
  · have hpos : 0 < m.length := List.length_pos.mpr hm
    rw [if_neg (by omega), List.drop_left, Nat.min_eq_right (by omega)]
    simp

theorem mlsdLine_entryText (e : Entry) : mlsdLine e = entryText e ++ ['\r', '\n'] := rfl

theorem entryText_length (e : Entry) :
    (entryText e).length = (if e.isDir then 10 else 11) + e.name.length := by
  cases h : e.isDir <;> simp [entryText, h] <;> omega

theorem entryText_clean (e : Entry) (hname : validName e.name = true) :
    '\r' ∉ entryText e ∧ Char.ofNat 0 ∉ entryText e := by
  have hn := validName_mem e.name hname
  cases h : e.isDir
  · simp only [entryText, h]
    refine ⟨?_, ?_⟩
    · simp only [List.mem_append, not_or]
      exact ⟨⟨by decide, by decide⟩, hn.2.2.1⟩
    · simp only [List.mem_append, not_or]
      exact ⟨⟨by decide, by decide⟩, hn.2.2.2⟩
  · simp only [entryText, h]
    refine ⟨?_, ?_⟩
    · simp only [List.mem_append, not_or]
      exact ⟨⟨by decide, by decide⟩, hn.2.2.1⟩
    · simp only [List.mem_append, not_or]
      exact ⟨⟨by decide, by decide⟩, hn.2.2.2⟩

/-- The name of an entry, as `rmtree` cuts it out of the line. -/
theorem entryText_name (e : Entry) (k : Nat) (hk : (entryText e).length ≤ k)
    (hk2 : k < 4294967296) :
    substring (entryText e) (indexOfChar (entryText e) ' ' 0 + 1) (k : Int) = e.name := by
  cases h : e.isDir
  · have hi : indexOfChar (entryText e) ' ' 0 = ("type=file;".data.length : Int) := by
      simp only [entryText, h, List.append_assoc]
      exact indexOfChar_zero "type=file;".data _ ' ' (by decide) (by decide) (by decide)
    rw [hi]
    have he : entryText e = ("type=file;".data ++ [' ']) ++ e.name := by simp [entryText, h]
    have h2 := substring_rest ("type=file;".data ++ [' ']) e.name k (by rw [← he]; exact hk) hk2
    rw [he]
    simpa using h2
  · have hi : indexOfChar (entryText e) ' ' 0 = ("type=dir;".data.length : Int) := by
      simp only [entryText, h, List.append_assoc]
      exact indexOfChar_zero "type=dir;".data _ ' ' (by decide) (by decide) (by decide)
    rw [hi]
    have he : entryText e = ("type=dir;".data ++ [' ']) ++ e.name := by simp [entryText, h]
    have h2 := substring_rest ("type=dir;".data ++ [' ']) e.name k (by rw [← he]; exact hk) hk2
    rw [he]
    simpa using h2

/-- The kind of an entry, as `rmtree` reads it off the line. -/
theorem entryText_kind (e : Entry) :
    equalsLit (substring (entryText e) (indexOfChar (entryText e) '=' 0 + 1)
      (indexOfChar (entryText e) ';' 0)) ['d', 'i', 'r'] = e.isDir := by
  cases h : e.isDir
  · have h1 : indexOfChar (entryText e) '=' 0 = ("type".data.length : Int) := by
      simp only [entryText, h]
      exact indexOfChar_zero "type".data ("file; ".data ++ e.name) '=' (by decide) (by decide)
        (by decide)
    have h2 : indexOfChar (entryText e) ';' 0 = ("type=file".data.length : Int) := by
      simp only [entryText, h]
      exact indexOfChar_zero "type=file".data (" ".data ++ e.name) ';' (by decide) (by decide)
        (by decide)
    have h3 := substring_at (entryText e) "type=".data "file".data ("; ".data ++ e.name)
      (by simp [entryText, h]) (by decide)
    rw [h1, h2]
    have h4 : substring (entryText e) (("type".data.length : Int) + 1)
        ("type=file".data.length : Int) = "file".data := by
      simpa using h3
    rw [h4]
    decide
  · have h1 : indexOfChar (entryText e) '=' 0 = ("type".data.length : Int) := by
      simp only [entryText, h]
      exact indexOfChar_zero "type".data ("dir; ".data ++ e.name) '=' (by decide) (by decide)
        (by decide)
    have h2 : indexOfChar (entryText e) ';' 0 = ("type=dir".data.length : Int) := by
      simp only [entryText, h]
      exact indexOfChar_zero "type=dir".data (" ".data ++ e.name) ';' (by decide) (by decide)
        (by decide)
    have h3 := substring_at (entryText e) "type=".data "dir".data ("; ".data ++ e.name)
      (by simp [entryText, h]) (by decide)
    rw [h1, h2]
    have h4 : substring (entryText e) (("type".data.length : Int) + 1)
        ("type=dir".data.length : Int) = "dir".data := by
      simpa using h3
    rw [h4]
    decide

/-! ## The entry scan of `rmtree` against the tree server -/

theorem segments_child (p n : List Char) (hn : validName n = true) :
    segments (p ++ ['/'] ++ n) = segments p ++ [n] := by
  have hv := validName_mem n hn
  unfold segments
  have h : ∀ (p cur : List Char),
      strtokAll '/' (p ++ '/' :: n) cur = strtokAll '/' p cur ++ [n] := by
    intro p
    induction p with
    | nil =>
      intro cur
      have hl := strtokAll_last '/' n [] hv.2.1 (by simpa using hv.1)
      by_cases hc : cur = [] <;> simp [strtokAll, hc, hl]
    | cons a p ih =>
      intro cur
      by_cases ha : a = '/'
      · by_cases hc : cur = [] <;> simp [strtokAll, ha, hc, ih]
      · simp [strtokAll, ha, ih]
  simpa using h p []

/-- One line of the listing, as the entry scan reads it. -/
theorem scan_line (B pre rest : List Char) (e : Entry)
    (hB : B = pre ++ (mlsdLine e ++ rest)) (hname : validName e.name = true)
    (hlen : B.length < 2147483648) :
    toUnsigned (pre.length : Int) < B.length ∧
    indexOfChar B '\r' (pre.length : Int) = ((pre.length + (entryText e).length : Nat) : Int) ∧
    substring B (pre.length : Int) ((pre.length + (entryText e).length : Nat) : Int)
      = entryText e ∧
    substring (entryText e) (indexOfChar (entryText e) ' ' 0 + 1)
      ((pre.length + (entryText e).length : Nat) : Int) = e.name ∧
    ((pre.length + (entryText e).length : Nat) : Int) + 2 = ((pre ++ mlsdLine e).length : Int)
    := by
  have hc := entryText_clean e hname
  have hB2 : B = pre ++ (entryText e ++ '\r' :: ('\n' :: rest)) := by
    rw [hB, mlsdLine_entryText]; simp
  have hl : B.length = pre.length + (entryText e).length + 2 + rest.length := by
    rw [hB2]; simp; omega
  refine ⟨?_, ?_, ?_, ?_, ?_⟩
  · rw [toUnsigned_ofNat _ (by omega)]; omega
  · exact indexOfChar_at B pre (entryText e) ('\n' :: rest) '\r' hB2 (by decide) hc.1 hc.2
      (by omega)
  · exact substring_at B pre (entryText e) ('\r' :: '\n' :: rest) hB2 (by simp; omega)
  · exact entryText_name e _ (by omega) (by omega)
  · rw [mlsdLine_entryText]; simp; omega

/-- The entries after the files of the given paths were deleted one by one. -/
theorem foldl_removeEntry (ps : List (List (List Char))) :
    ∀ E : List Entry,
      ps.foldl (fun acc p => removeEntry acc p false) E
        = E.filter (fun x => !(!x.isDir && ps.contains x.path)) := by
  induction ps with
  | nil => intro E; simp
  | cons p ps ih =>
    intro E
    rw [List.foldl_cons, ih]
    simp only [removeEntry, List.filter_filter]
    apply List.filter_congr
    intro x _
    by_cases h1 : x.path = p <;> cases h2 : x.isDir <;> simp [h1, h2, List.contains_cons]

/-- The entry scan of `rmtree` over the listing of the entries `ks` of the directory named
by `w`: the directories among them are pushed, the files are deleted. -/
theorem rmtreeScan_treed (B : Nat) (w : List Char) (d : List (List Char))
    (hd : segments w = d) (hwr : '\r' ∉ w) (hw0 : Char.ofNat 0 ∉ w) :
    ∀ (ks : List Entry) (buf pre : List Char) (stack : List (List Char)) (flag : Bool)
      (E : List Entry) (s : State Treed),
      buf = pre ++ mlsdListing ks → buf.length < 2147483648 →
      TreeReady B E s →
      (∀ e ∈ ks, validName e.name = true ∧ e.parent = d) →
      (∀ e ∈ ks, e.isDir = false → E.any (fun x => !x.isDir && x.path = e.path) = true) →
      (ks.map Entry.path).Nodup →
      ∃ s1, TreeReady B
          (((ks.filter (fun e => !e.isDir)).map Entry.path).foldl
            (fun acc p => removeEntry acc p false) E) s1 ∧
        ∀ F, ks.length < F →
          rmtreeScan treed w buf F (pre.length : Int) stack flag s
            = Run.done ⟨none,
                ((ks.filter (fun e => e.isDir)).map (fun e => w ++ ['/'] ++ e.name)).reverse
                  ++ stack,
                flag || ks.any (fun e => e.isDir), s1⟩ := by
  intro ks
  induction ks with
  | nil =>
    intro buf pre stack flag E s hbuf hlen hs _ _ _
    refine ⟨s, by simpa using hs, ?_⟩
    intro F hF
    obtain ⟨f, rfl⟩ : ∃ f, F = f + 1 := ⟨F - 1, by simp at hF; omega⟩
    have hl : buf.length = pre.length := by rw [hbuf]; simp [mlsdListing]
    simp only [rmtreeScan]
    rw [toUnsigned_ofNat _ (by omega), if_neg (by omega)]
    simp
  | cons e ks ih =>
    intro buf pre stack flag E s hbuf hlen hs hks hfiles hnd
    have hname := (hks e (by simp)).1
    have hpar := (hks e (by simp)).2
    have hbuf1 : buf = pre ++ (mlsdLine e ++ mlsdListing ks) := by
      rw [hbuf]; simp [mlsdListing]
    have hbuf2 : buf = (pre ++ mlsdLine e) ++ mlsdListing ks := by
      rw [hbuf1]; simp
    obtain ⟨h1, h2, h3, h4, h5⟩ := scan_line buf pre (mlsdListing ks) e hbuf1 hname hlen
    have hks2 : ∀ x ∈ ks, validName x.name = true ∧ x.parent = d :=
      fun x hx => hks x (List.mem_cons_of_mem _ hx)
    have hnd2 : (ks.map Entry.path).Nodup := by
      simp only [List.map_cons, List.nodup_cons] at hnd; exact hnd.2
    have hv := validName_mem e.name hname
    cases hk : e.isDir
    · -- a file: it is deleted
      have hseg : segments (w ++ ['/'] ++ e.name) = e.path := by
        rw [segments_child w e.name hname, hd, Entry.path, hpar]
      have hpr : '\r' ∉ w ++ ['/'] ++ e.name := by
        simp only [List.mem_append, not_or]
        exact ⟨⟨hwr, by decide⟩, hv.2.2.1⟩
      have hp0 : Char.ofNat 0 ∉ w ++ ['/'] ++ e.name := by
        simp only [List.mem_append, not_or]
        exact ⟨⟨hw0, by decide⟩, hv.2.2.2⟩
      obtain ⟨s1, hdel, hs1⟩ := treeReady_deleteFile B E (w ++ ['/'] ++ e.name) e.path s hs
        hseg hpr (hfiles e (by simp) hk)
      have hfiles2 : ∀ x ∈ ks, x.isDir = false →
          (removeEntry E e.path false).any (fun y => !y.isDir && y.path = x.path) = true := by
        intro x hx hxd
        have h0 := hfiles x (List.mem_cons_of_mem _ hx) hxd
        have hne : x.path ≠ e.path := by
          intro heq
          simp only [List.map_cons, List.nodup_cons, List.mem_map, not_exists, not_and] at hnd
          exact hnd.1 x hx heq
        simp only [List.any_eq_true, Bool.and_eq_true, Bool.not_eq_true', decide_eq_true_eq,
          removeEntry, List.mem_filter, Bool.not_eq_true', Bool.and_eq_false_iff,
          decide_eq_false_iff_not] at h0 ⊢
        obtain ⟨y, hy, hyd, hyp⟩ := h0
        exact ⟨y, ⟨hy, Or.inl (by rw [hyp]; exact hne)⟩, hyd, hyp⟩
      obtain ⟨s2, hs2, hrun⟩ := ih buf (pre ++ mlsdLine e) stack flag
        (removeEntry E e.path false) s1 hbuf2 hlen hs1 hks2 hfiles2 hnd2
      refine ⟨s2, by simpa [hk] using hs2, ?_⟩
      intro F hF
      obtain ⟨f, rfl⟩ : ∃ f, F = f + 1 := ⟨F - 1, by simp at hF; omega⟩
      simp only [rmtreeScan]
      rw [if_pos h1]
      simp only [h2, h3, h4, h5, entryText_kind, hk, Bool.false_eq_true, if_false]
      rw [cstr_id _ hp0, hdel]
      simp only [ne_eq, not_true_eq_false, if_false]
      rw [hrun f (by simp at hF; omega)]
      simp [hk]
    · -- a directory: it is pushed
      obtain ⟨s2, hs2, hrun⟩ := ih buf (pre ++ mlsdLine e)
        ((w ++ ['/'] ++ e.name) :: stack) true E s hbuf2 hlen hs hks2
        (fun x hx hxd => hfiles x (List.mem_cons_of_mem _ hx) hxd) hnd2
      refine ⟨s2, by simpa [hk] using hs2, ?_⟩
      intro F hF
      obtain ⟨f, rfl⟩ : ∃ f, F = f + 1 := ⟨F - 1, by simp at hF; omega⟩
      simp only [rmtreeScan]
      rw [if_pos h1]
      simp only [h2, h3, h4, h5, entryText_kind, hk, if_true]
      rw [hrun f (by simp at hF; omega)]
      simp [hk]

/-! ## Trees: what lies inside a directory -/

theorem inside_iff (c : List (List Char)) (x : Entry) :
    inside c x = true ↔ ∃ r, x.path = c ++ r := by
  simp only [inside, decide_eq_true_eq]
  constructor
  · intro h
    have h2 := List.take_append_drop c.length x.path
    rw [h] at h2
    exact ⟨x.path.drop c.length, h2.symm⟩
  · rintro ⟨r, hr⟩
    rw [hr, List.take_left]

theorem inside_self (x : Entry) : inside x.path x = true :=
  (inside_iff _ _).2 ⟨[], by simp⟩

theorem inside_child (c : List (List Char)) (y x : Entry) (hy : y.parent = c)
    (h : inside y.path x = true) : inside c x = true := by
  obtain ⟨r, hr⟩ := (inside_iff _ _).1 h
  exact (inside_iff _ _).2 ⟨[y.name] ++ r, by rw [hr, Entry.path, hy]; simp⟩

theorem not_inside_longer (c : List (List Char)) (y x : Entry) (hy : y.parent = c)
    (hx : x.path = c) : inside y.path x = false := by
  cases h : inside y.path x
  · rfl
  · obtain ⟨r, hr⟩ := (inside_iff _ _).1 h
    have hl := congrArg List.length hr
    rw [hx, Entry.path, hy] at hl
    simp at hl

theorem inside_sibling (c : List (List Char)) (y x : Entry) (hy : y.parent = c)
    (hx : x.parent = c) (h : inside y.path x = true) : x.path = y.path := by
  obtain ⟨r, hr⟩ := (inside_iff _ _).1 h
  have hl := congrArg List.length hr
  simp only [Entry.path, hy, hx, List.length_append, List.length_singleton] at hl
  have hr0 : r = [] := List.length_eq_zero.mp (by omega)
  rw [hr, hr0, List.append_nil]

theorem wellFormed_unique (E : List Entry) (hwf : WellFormed E) (x y : Entry)
    (hx : x ∈ E) (hy : y ∈ E) (h : x.path = y.path) : x = y :=
  List.inj_on_of_nodup_map hwf.2.1 hx hy h

theorem dirEntry_iff (E : List Entry) (c : List (List Char)) :
    E.any (fun e => e.isDir && e.path = c) = true ↔ ∃ y ∈ E, y.isDir = true ∧ y.path = c := by
  simp [List.any_eq_true]

theorem path_ne_nil (x : Entry) : x.path ≠ [] := by
  simp [Entry.path]

/-- An entry strictly inside `c` is a child of `c`, or it is inside a child directory
of `c`. -/
theorem inside_cases (E : List Entry) (hwf : WellFormed E) (c : List (List Char)) :
    ∀ (n : Nat) (x : Entry) (r : List (List Char)), r.length ≤ n → x ∈ E → r ≠ [] →
      x.path = c ++ r →
      x.parent = c ∨ ∃ y ∈ E, y.isDir = true ∧ y.parent = c ∧ inside y.path x = true := by
  intro n
  induction n with
  | zero =>
    intro x r hn _ hr _
    exact absurd (List.length_eq_zero.mp (Nat.le_zero.mp hn)) hr
  | succ n ih =>
    intro x r hn hx hr hp
    rcases List.eq_nil_or_concat r with h0 | ⟨r1, b, hb⟩
    · exact absurd h0 hr
    · subst hb
      have h2 : x.parent ++ [x.name] = (c ++ r1) ++ [b] := by
        rw [← Entry.path, hp]; simp
      have h3 := List.append_inj' h2 rfl
      by_cases hr1 : r1 = []
      · left; rw [h3.1, hr1, List.append_nil]
      · right
        have hpc := hwf.2.2 x hx
        simp only [isDirPath, Bool.or_eq_true, decide_eq_true_eq] at hpc
        rcases hpc with hnil | hany
        · rw [h3.1] at hnil
          simp at hnil
          exact absurd hnil.2 hr1
        · obtain ⟨y, hy, hyd, hyp⟩ := (dirEntry_iff E _).1 hany
          have hyx : inside y.path x = true :=
            (inside_iff _ _).2 ⟨[x.name], by rw [hyp]; rfl⟩
          rcases ih y r1 (by simp at hn; omega) hy hr1 (by rw [hyp, h3.1]) with h4 | h4
          · exact ⟨y, hy, hyd, h4, hyx⟩
          · obtain ⟨z, hz, hzd, hzp, hzy⟩ := h4
            obtain ⟨r2, hr2⟩ := (inside_iff _ _).1 hzy
            refine ⟨z, hz, hzd, hzp, (inside_iff _ _).2 ⟨r2 ++ [x.name], ?_⟩⟩
            rw [← List.append_assoc, ← hr2, hyp]; rfl

/-- Leaving out entries keeps a tree well formed as long as the parent of an entry that
stays also stays. -/
theorem wellFormed_filter (E : List Entry) (hwf : WellFormed E) (keep : Entry → Bool)
    (hkeep : ∀ x ∈ E, ∀ y ∈ E, keep x = true → y.isDir = true → y.path = x.parent →
      keep y = true) :
    WellFormed (E.filter keep) := by
  refine ⟨?_, ?_, ?_⟩
  · intro e he
    exact hwf.1 e (List.mem_of_mem_filter he)
  · exact hwf.2.1.sublist ((List.filter_sublist E).map _)
  · intro e he
    have heE := List.mem_of_mem_filter he
    have hk : keep e = true := (List.mem_filter.1 he).2
    have hpc := hwf.2.2 e heE
    simp only [isDirPath, Bool.or_eq_true, decide_eq_true_eq] at hpc ⊢
    rcases hpc with hnil | hany
    · exact Or.inl hnil
    · right
      obtain ⟨y, hy, hyd, hyp⟩ := (dirEntry_iff E _).1 hany
      exact (dirEntry_iff _ _).2 ⟨y, List.mem_filter.2 ⟨hy, hkeep e heE y hy hk hyd hyp⟩, hyd, hyp⟩

theorem wellFormed_remove_inside (E : List Entry) (hwf : WellFormed E) (c : List (List Char)) :
    WellFormed (E.filter (fun x => !inside c x)) := by
  apply wellFormed_filter E hwf
  intro x _ y _ hkx _ hyp
  simp only [Bool.not_eq_true'] at hkx ⊢
  cases h : inside c y
  · rfl
  · obtain ⟨r, hr⟩ := (inside_iff _ _).1 h
    have : inside c x = true :=
      (inside_iff _ _).2 ⟨r ++ [x.name], by rw [Entry.path, ← hyp, hr]; simp⟩
    rw [this] at hkx
    exact absurd hkx (by decide)

theorem wellFormed_remove_files (E : List Entry) (hwf : WellFormed E)
    (ps : List (List (List Char))) :
    WellFormed (E.filter (fun x => !(!x.isDir && ps.contains x.path))) := by
  apply wellFormed_filter E hwf
  intro x _ y _ _ hyd _
  simp [hyd]

theorem mlsdListing_filter_le (keep : Entry → Bool) (E : List Entry) :
    (mlsdListing (E.filter keep)).length ≤ (mlsdListing E).length := by
  induction E with
  | nil => simp
  | cons e E ih =>
    by_cases h : keep e = true
    · simp only [List.filter_cons, h, if_true, mlsdListing, List.map_cons, List.flatten_cons,
        List.length_append] at ih ⊢
      omega
    · simp only [List.filter_cons, h, if_false, mlsdListing, List.map_cons, List.flatten_cons,
        List.length_append] at ih ⊢
      simp only [Bool.false_eq_true, if_false]
      omega

theorem filter_length_lt (p q : Entry → Bool) (E : List Entry)
    (himp : ∀ x ∈ E, p x = true → q x = true) (y : Entry) (hy : y ∈ E) (hq : q y = true)
    (hp : p y = false) : (E.filter p).length < (E.filter q).length := by
  induction E with
  | nil => simp at hy
  | cons e E ih =>
    have hle : (E.filter p).length ≤ (E.filter q).length := by
      have : ∀ (L : List Entry), (∀ x ∈ L, p x = true → q x = true) →
          (L.filter p).length ≤ (L.filter q).length := by
        intro L
        induction L with
        | nil => intro _; simp
        | cons a L ihL =>
          intro h
          have h1 := ihL (fun x hx => h x (List.mem_cons_of_mem _ hx))
          by_cases hpa : p a = true
          · have hqa := h a (by simp) hpa
            simp [List.filter_cons, hpa, hqa]; omega
          · by_cases hqa : q a = true
            · simp [List.filter_cons, hpa, hqa]; omega
            · simp [List.filter_cons, hpa, hqa]; omega
      exact this E (fun x hx => himp x (List.mem_cons_of_mem _ hx))
    rcases List.mem_cons.1 hy with h | h
    · subst h
      simp [List.filter_cons, hq, hp]; omega
    · have h1 := ih (fun x hx => himp x (List.mem_cons_of_mem _ hx)) h
      by_cases hpe : p e = true
      · have hqe := himp e (by simp) hpe
        simp [List.filter_cons, hpe, hqe]; omega
      · by_cases hqe : q e = true
        · simp [List.filter_cons, hpe, hqe]; omega
        · simp [List.filter_cons, hpe, hqe]; omega

theorem weight_filter_le (keep p : Entry → Bool) (E : List Entry) :
    ((E.filter keep).filter p).length ≤ (E.filter p).length :=
  ((List.filter_sublist E).filter p).length_le

/-- A child directory holds fewer entries than its parent. -/
theorem weight_child_lt (E : List Entry) (c : List (List Char)) (y : Entry)
    (hy : y.parent = c) (hc : E.any (fun e => e.isDir && e.path = c) = true) :
    (E.filter (fun x => inside y.path x)).length < (E.filter (fun x => inside c x)).length := by
  obtain ⟨yc, hyc, _, hycp⟩ := (dirEntry_iff E c).1 hc
  exact filter_length_lt _ _ E (fun x _ h => inside_child c y x hy h) yc hyc
    ((inside_iff _ _).2 ⟨[], by simp [hycp]⟩) (not_inside_longer c y yc hy hycp)

/-! ## `rmtree` against the tree server -/

/-- What is left of a tree after the files in `c` were deleted, the directories in `c`
removed with all they hold, and `c` itself removed: all that is not inside `c`. -/
theorem subtree_removed (E : List Entry) (hwf : WellFormed E) (c : List (List Char))
    (hc : E.any (fun e => e.isDir && e.path = c) = true)
    (fp : List (List (List Char))) (ds : List Entry)
    (hfp : ∀ x ∈ E, x.isDir = false → x.parent = c → x.path ∈ fp)
    (hfp2 : ∀ p ∈ fp, ∃ x ∈ E, x.parent = c ∧ x.path = p)
    (hds : ∀ y ∈ E, y.isDir = true → y.parent = c → y ∈ ds)
    (hds2 : ∀ y ∈ ds, y.parent = c) :
    removeEntry ((E.filter (fun x => !(!x.isDir && fp.contains x.path))).filter
        (fun x => !(ds.any (fun y => inside y.path x)))) c true
      = E.filter (fun x => !inside c x) := by
  simp only [removeEntry, List.filter_filter]
  apply List.filter_congr
  intro x hx
  obtain ⟨yc, hyc, hycd, hycp⟩ := (dirEntry_iff E c).1 hc
  cases hin : inside c x
  · -- outside: nothing removes it
    have h1 : decide (x.path = c) = false := by
      apply decide_eq_false
      intro h
      have := (inside_iff c x).2 ⟨[], by simp [h]⟩
      rw [hin] at this
      exact absurd this (by decide)
    have h2 : ds.any (fun y => inside y.path x) = false := by
      cases h : ds.any (fun y => inside y.path x)
      · rfl
      · obtain ⟨y, hy, hyx⟩ := List.any_eq_true.1 h
        have := inside_child c y x (hds2 y hy) hyx
        rw [hin] at this
        exact absurd this (by decide)
    have h3 : x.path ∉ fp := by
      intro hm
      obtain ⟨z, _, hzp, hzx⟩ := hfp2 _ hm
      have := (inside_iff c x).2 ⟨[z.name], by rw [← hzx, Entry.path, hzp]⟩
      rw [hin] at this
      exact absurd this (by decide)
    simp [h1, h2, h3]
  · -- inside: one of the three removes it
    obtain ⟨r, hr⟩ := (inside_iff c x).1 hin
    by_cases hr0 : r = []
    · have hxc : x.path = c := by rw [hr, hr0, List.append_nil]
      have hxy : x = yc := wellFormed_unique E hwf x yc hx hyc (by rw [hxc, hycp])
      have hxd : x.isDir = true := by rw [hxy]; exact hycd
      simp [hxc, hxd]
    · rcases inside_cases E hwf c r.length x r (Nat.le_refl _) hx hr0 hr with h | h
      · cases hxd : x.isDir
        · have hm := hfp x hx hxd h
          simp [hxd, hm]
        · have hm := hds x hx hxd h
          have hany : ds.any (fun y => inside y.path x) = true :=
            List.any_eq_true.2 ⟨x, hm, inside_self x⟩
          simp [hany]
      · obtain ⟨y, hy, hyd, hyp, hyx⟩ := h
        have hany : ds.any (fun y => inside y.path x) = true :=
          List.any_eq_true.2 ⟨y, hds y hy hyd hyp, hyx⟩
        simp [hany]

theorem segments_nil : segments [] = [] := rfl

theorem names_ne (w : List Char) (c : List (List Char)) (hseg : segments w = c) (hc : c ≠ [])
    (hw0 : Char.ofNat 0 ∉ w) : w ≠ [] ∧ equalsLit w ['/'] = false := by
  refine ⟨?_, ?_⟩
  · intro h; rw [h] at hseg; exact hc hseg.symm
  · cases h : equalsLit w ['/']
    · rfl
    · simp only [equalsLit, decide_eq_true_eq] at h
      rw [cstr_id w hw0] at h
      rw [h] at hseg
      exact absurd hseg.symm hc

theorem dirEntry_ne_nil (E : List Entry) (c : List (List Char))
    (hc : E.any (fun e => e.isDir && e.path = c) = true) : c ≠ [] := by
  obtain ⟨y, _, _, hyp⟩ := (dirEntry_iff E c).1 hc
  rw [← hyp]
  exact path_ne_nil y

theorem kids_listing_le (E : List Entry) (c : List (List Char)) :
    (mlsdListing (kids E c)).length ≤ (mlsdListing E).length :=
  mlsdListing_filter_le _ E

theorem mlsdListing_eq_nil (ks : List Entry) : mlsdListing ks = [] ↔ ks = [] := by
  cases ks with
  | nil => simp [mlsdListing]
  | cons e ks => simp [mlsdListing, mlsdLine]

/-- A visit of `rmtree` to a directory without children: it is removed. -/
theorem rmtreeLoop_empty_dir (B : Nat) (E : List Entry) (c : List (List Char)) (w : List Char)
    (S : List (List Char)) (s : State Treed) (hs : TreeReady B E s)
    (hseg : segments w = c) (hwr : '\r' ∉ w) (hw0 : Char.ofNat 0 ∉ w)
    (hc : E.any (fun e => e.isDir && e.path = c) = true) (hkids : kids E c = []) :
    ∃ s1, TreeReady B (removeEntry E c true) s1 ∧
      ∀ F fuel, rmtreeLoop treed F (fuel + 1) (w :: S) s = rmtreeLoop treed F fuel S s1 := by
  have hcne := dirEntry_ne_nil E c hc
  obtain ⟨hwne, hweq⟩ := names_ne w c hseg hcne hw0
  have hdir : isDirPath E c = true := by simp only [isDirPath, hc, Bool.or_true]
  obtain ⟨s1, hlist, hs1⟩ := treeReady_listContent B E w c s hs hseg hwr hdir
    (by rw [hkids]; simp [mlsdListing])
  obtain ⟨s2, hrm, hs2⟩ := treeReady_rmdir B E w c s1 hs1 hseg hwr hc hkids
  refine ⟨s2, hs2, ?_⟩
  intro F fuel
  simp only [rmtreeLoop]
  rw [if_neg hwne, cstr_id w hw0, hlist]
  simp only [ne_eq, not_true_eq_false, if_false, hkids, mlsdListing, List.map_nil,
    List.flatten_nil, if_true, hweq, Bool.false_eq_true, and_false, hrm]

/-- The directories on top of the stack are removed one after the other, given that a visit
removes a directory holding at most `n` entries. -/
theorem rmtreeLoop_drain (B n : Nat)
    (hvisit : ∀ (E : List Entry) (c : List (List Char)) (w : List Char)
      (S : List (List Char)) (s : State Treed),
      (E.filter (fun x => inside c x)).length ≤ n → WellFormed E →
      (mlsdListing E).length ≤ B → segments w = c → '\r' ∉ w → Char.ofNat 0 ∉ w →
      E.any (fun e => e.isDir && e.path = c) = true → TreeReady B E s →
      ∃ k s1, TreeReady B (E.filter (fun x => !inside c x)) s1 ∧
        ∀ F fuel, E.length < F →
          rmtreeLoop treed F (fuel + k) (w :: S) s = rmtreeLoop treed F fuel S s1)
    (c : List (List Char)) (w : List Char) (hseg : segments w = c) (hwr : '\r' ∉ w)
    (hw0 : Char.ofNat 0 ∉ w) (S : List (List Char)) :
    ∀ (ds : List Entry) (E : List Entry) (s : State Treed),
      WellFormed E → (mlsdListing E).length ≤ B → TreeReady B E s →
      (∀ y ∈ ds, y ∈ E ∧ y.isDir = true ∧ y.parent = c ∧
        (E.filter (fun x => inside y.path x)).length ≤ n) →
      (ds.map Entry.path).Nodup →
      ∃ k s1, TreeReady B (E.filter (fun x => !(ds.any (fun y => inside y.path x)))) s1 ∧
        ∀ F fuel, E.length < F →
          rmtreeLoop treed F (fuel + k) (ds.map (fun y => w ++ ['/'] ++ y.name) ++ S) s
            = rmtreeLoop treed F fuel S s1 := by
  intro ds
  induction ds with
  | nil =>
    intro E s _ _ hs _ _
    exact ⟨0, s, by simpa using hs, fun F fuel _ => by simp⟩
  | cons y ds ih =>
    intro E s hwf hB hs hds hnd
    obtain ⟨hyE, hyd, hyp, hyw⟩ := hds y (by simp)
    have hname := (hwf.1 y hyE).1
    have hv := validName_mem y.name hname
    have hsegy : segments (w ++ ['/'] ++ y.name) = y.path := by
      rw [segments_child w y.name hname, hseg, Entry.path, hyp]
    have hwry : '\r' ∉ w ++ ['/'] ++ y.name := by
      simp only [List.mem_append, not_or]
      exact ⟨⟨hwr, by decide⟩, hv.2.2.1⟩
    have hw0y : Char.ofNat 0 ∉ w ++ ['/'] ++ y.name := by
      simp only [List.mem_append, not_or]
      exact ⟨⟨hw0, by decide⟩, hv.2.2.2⟩
    have hcy : E.any (fun e => e.isDir && e.path = y.path) = true :=
      (dirEntry_iff E _).2 ⟨y, hyE, hyd, rfl⟩
    obtain ⟨k1, s1, hs1, hrun1⟩ := hvisit E y.path (w ++ ['/'] ++ y.name)
      (ds.map (fun y => w ++ ['/'] ++ y.name) ++ S) s hyw hwf hB hsegy hwry hw0y hcy hs
    have hnd1 : y.path ∉ ds.map Entry.path ∧ (ds.map Entry.path).Nodup := by
      simpa only [List.map_cons, List.nodup_cons] using hnd
    have hds1 : ∀ z ∈ ds, z ∈ E.filter (fun x => !inside y.path x) ∧ z.isDir = true ∧
        z.parent = c ∧
        ((E.filter (fun x => !inside y.path x)).filter (fun x => inside z.path x)).length ≤ n := by
      intro z hz
      obtain ⟨hzE, hzd, hzp, hzw⟩ := hds z (List.mem_cons_of_mem _ hz)
      refine ⟨List.mem_filter.2 ⟨hzE, ?_⟩, hzd, hzp,
        Nat.le_trans (weight_filter_le _ _ E) hzw⟩
      cases hin : inside y.path z
      · rfl
      · exact absurd (List.mem_map.2 ⟨z, hz, inside_sibling c y z hyp hzp hin⟩) hnd1.1
    obtain ⟨k2, s2, hs2, hrun2⟩ := ih (E.filter (fun x => !inside y.path x)) s1
      (wellFormed_remove_inside E hwf y.path)
      (Nat.le_trans (mlsdListing_filter_le _ E) hB) hs1 hds1 hnd1.2
    have heq : (E.filter (fun x => !inside y.path x)).filter
          (fun x => !(ds.any (fun z => inside z.path x)))
        = E.filter (fun x => !((y :: ds).any (fun z => inside z.path x))) := by
      rw [List.filter_filter]
      apply List.filter_congr
      intro x _
      simp only [List.any_cons, Bool.not_or]
      exact Bool.and_comm _ _
    rw [heq] at hs2
    refine ⟨k2 + k1, s2, hs2, ?_⟩
    intro F fuel hF
    rw [show fuel + (k2 + k1) = (fuel + k2) + k1 from by omega]
    simp only [List.map_cons, List.cons_append]
    rw [hrun1 F (fuel + k2) hF,
      hrun2 F fuel (Nat.lt_of_le_of_lt (List.length_filter_le _ E) hF)]

theorem kids_eq_nil (L : List Entry) (c : List (List Char)) (h : ∀ x ∈ L, x.parent = c → False) :
    kids L c = [] := by
  unfold kids
  rw [List.filter_eq_nil_iff]
  intro x hx hxp
  exact h x hx (by simpa using hxp)

/-- A visit of `rmtree` to a directory of a well-formed tree, up to the moment the directory
has left the stack: the directory and all it holds are removed, nothing else is. -/
theorem rmtreeLoop_subtree (B : Nat) (hB31 : B < 2147483648) :
    ∀ (n : Nat) (E : List Entry) (c : List (List Char)) (w : List Char)
      (S : List (List Char)) (s : State Treed),
      (E.filter (fun x => inside c x)).length ≤ n → WellFormed E →
      (mlsdListing E).length ≤ B → segments w = c → '\r' ∉ w → Char.ofNat 0 ∉ w →
      E.any (fun e => e.isDir && e.path = c) = true → TreeReady B E s →
      ∃ k s1, TreeReady B (E.filter (fun x => !inside c x)) s1 ∧
        ∀ F fuel, E.length < F →
          rmtreeLoop treed F (fuel + k) (w :: S) s = rmtreeLoop treed F fuel S s1 := by
  intro n
  induction n with
  | zero =>
    intro E c w S s hweight _ _ _ _ _ hc _
    obtain ⟨yc, hyc, _, hycp⟩ := (dirEntry_iff E c).1 hc
    have hm : yc ∈ E.filter (fun x => inside c x) :=
      List.mem_filter.2 ⟨hyc, (inside_iff c yc).2 ⟨[], by simp [hycp]⟩⟩
    have := List.length_pos_of_mem hm
    omega
  | succ n ih =>
    intro E c w S s hweight hwf hB hseg hwr hw0 hc hs
    obtain ⟨yc, hyc, hycd, hycp⟩ := (dirEntry_iff E c).1 hc
    have hcne := dirEntry_ne_nil E c hc
    obtain ⟨hwne, hweq⟩ := names_ne w c hseg hcne hw0
    have hdir : isDirPath E c = true := by simp only [isDirPath, hc, Bool.or_true]
    by_cases hkids : kids E c = []
    · -- no children
      obtain ⟨s1, hs1, hrun⟩ := rmtreeLoop_empty_dir B E c w S s hs hseg hwr hw0 hc hkids
      have hno : ∀ x ∈ E, x.parent ≠ c := by
        intro x hx hxp
        have : x ∈ kids E c := List.mem_filter.2 ⟨hx, by simpa using hxp⟩
        rw [hkids] at this
        simp at this
      have heq := subtree_removed E hwf c hc [] []
        (fun x hx _ hxp => absurd hxp (hno x hx)) (fun p hp => by simp at hp)
        (fun y hy _ hyp => absurd hyp (hno y hy)) (fun y hy => by simp at hy)
      simp only [List.any_nil, Bool.not_false, List.filter_true, List.contains_nil,
        Bool.and_false] at heq
      rw [heq] at hs1
      exact ⟨1, s1, hs1, fun F fuel _ => hrun F fuel⟩
    · -- children: the listing is scanned
      have hks : ∀ e ∈ kids E c, validName e.name = true ∧ e.parent = c := by
        intro e he
        have h := List.mem_filter.1 he
        exact ⟨(hwf.1 e h.1).1, by simpa using h.2⟩
      have hfiles : ∀ e ∈ kids E c, e.isDir = false →
          E.any (fun x => !x.isDir && x.path = e.path) = true := by
        intro e he hed
        exact List.any_eq_true.2 ⟨e, (List.mem_filter.1 he).1, by simp [hed]⟩
      have hnd : ((kids E c).map Entry.path).Nodup :=
        hwf.2.1.sublist ((List.filter_sublist E).map _)
      have hlen := kids_listing_le E c
      obtain ⟨s1, hlist, hs1⟩ := treeReady_listContent B E w c s hs hseg hwr hdir
        (Nat.le_trans hlen hB)
      obtain ⟨s2, hs2, hscan⟩ := rmtreeScan_treed B w c hseg hwr hw0 (kids E c)
        (mlsdListing (kids E c)) [] (w :: S) false E s1 (by simp) (by omega) hs1 hks hfiles hnd
      have hscan0 : ∀ F, (kids E c).length < F →
          rmtreeScan treed w (mlsdListing (kids E c)) F 0 (w :: S) false s1
            = Run.done ⟨none,
                (((kids E c).filter (fun e => e.isDir)).reverse.map
                  (fun e => w ++ ['/'] ++ e.name)) ++ (w :: S),
                (kids E c).any (fun e => e.isDir), s2⟩ := by
        intro F hF
        have h := hscan F hF
        simp only [List.length_nil, Nat.cast_zero, Bool.false_or, ← List.map_reverse] at h
        exact h
      rw [foldl_removeEntry] at hs2
      have hklen : (kids E c).length ≤ E.length := List.length_filter_le _ E
      have hne : mlsdListing (kids E c) ≠ [] := fun h => hkids ((mlsdListing_eq_nil _).1 h)
      -- the sets involved
      have hfp : ∀ x ∈ E, x.isDir = false → x.parent = c →
          x.path ∈ ((kids E c).filter (fun e => !e.isDir)).map Entry.path := by
        intro x hx hxd hxp
        exact List.mem_map.2 ⟨x, List.mem_filter.2
          ⟨List.mem_filter.2 ⟨hx, by simpa using hxp⟩, by simp [hxd]⟩, rfl⟩
      have hfp2 : ∀ p ∈ ((kids E c).filter (fun e => !e.isDir)).map Entry.path,
          ∃ x ∈ E, x.parent = c ∧ x.path = p := by
        intro p hp
        obtain ⟨x, hx, hxp⟩ := List.mem_map.1 hp
        have hxk := (List.mem_filter.1 hx).1
        exact ⟨x, (List.mem_filter.1 hxk).1, (hks x hxk).2, hxp⟩
      have hds : ∀ y ∈ E, y.isDir = true → y.parent = c →
          y ∈ ((kids E c).filter (fun e => e.isDir)).reverse := by
        intro y hy hyd hyp
        exact List.mem_reverse.2 (List.mem_filter.2
          ⟨List.mem_filter.2 ⟨hy, by simpa using hyp⟩, hyd⟩)
      have hds2 : ∀ y ∈ ((kids E c).filter (fun e => e.isDir)).reverse, y.parent = c := by
        intro y hy
        exact (hks y (List.mem_filter.1 (List.mem_reverse.1 hy)).1).2
      have heq := subtree_removed E hwf c hc _ _ hfp hfp2 hds hds2
      have hwf1 := wellFormed_remove_files E hwf
        (((kids E c).filter (fun e => !e.isDir)).map Entry.path)
      have hB1 : (mlsdListing (E.filter (fun x => !(!x.isDir &&
          (((kids E c).filter (fun e => !e.isDir)).map Entry.path).contains x.path)))).length
            ≤ B := Nat.le_trans (mlsdListing_filter_le _ E) hB
      have hyc1 : yc ∈ E.filter (fun x => !(!x.isDir &&
          (((kids E c).filter (fun e => !e.isDir)).map Entry.path).contains x.path)) :=
        List.mem_filter.2 ⟨hyc, by simp [hycd]⟩
      cases hany : (kids E c).any (fun e => e.isDir)
      · -- files only: the directory is removed at once
        have hnil : (kids E c).filter (fun e => e.isDir) = [] := by
          rw [List.filter_eq_nil_iff]
          intro x hx hxd
          have : (kids E c).any (fun e => e.isDir) = true := List.any_eq_true.2 ⟨x, hx, hxd⟩
          rw [hany] at this
          exact absurd this (by decide)
        have hc1 := (dirEntry_iff _ c).2 ⟨yc, hyc1, hycd, hycp⟩
        have hk1 : kids (E.filter (fun x => !(!x.isDir &&
            (((kids E c).filter (fun e => !e.isDir)).map Entry.path).contains x.path))) c
              = [] := by
          apply kids_eq_nil
          intro x hx hxp2
          obtain ⟨hxE, hxk⟩ := List.mem_filter.1 hx
          cases hxd : x.isDir
          · have hcon : (((kids E c).filter (fun e => !e.isDir)).map Entry.path).contains
                x.path = true := by
              simpa using hfp x hxE hxd hxp2
            rw [hxd, hcon] at hxk
            exact absurd hxk (by decide)
          · have : (kids E c).any (fun e => e.isDir) = true :=
              List.any_eq_true.2 ⟨x, List.mem_filter.2 ⟨hxE, by simpa using hxp2⟩, hxd⟩
            rw [hany] at this
            exact absurd this (by decide)
        obtain ⟨s3, hrm, hs3⟩ := treeReady_rmdir B _ w c s2 hs2 hseg hwr hc1 hk1
        rw [hnil] at heq
        simp only [List.reverse_nil, List.any_nil, Bool.not_false, List.filter_true] at heq
        rw [heq] at hs3
        refine ⟨1, s3, hs3, ?_⟩
        intro F fuel hF
        simp only [rmtreeLoop]
        rw [if_neg hwne, cstr_id w hw0, hlist]
        simp only [ne_eq, not_true_eq_false, if_false, hne]
        rw [hscan0 F (by omega)]
        simp only [hany, hnil, Bool.false_eq_true, if_false, hrm, ne_eq, not_true_eq_false,
          List.reverse_nil, List.map_nil, List.nil_append, List.tail_cons]
      · -- directories among the children: they are removed first
        have hdsd : ∀ y ∈ ((kids E c).filter (fun e => e.isDir)).reverse,
            y ∈ E.filter (fun x => !(!x.isDir &&
              (((kids E c).filter (fun e => !e.isDir)).map Entry.path).contains x.path)) ∧
            y.isDir = true ∧ y.parent = c ∧
            ((E.filter (fun x => !(!x.isDir &&
              (((kids E c).filter (fun e => !e.isDir)).map Entry.path).contains x.path))).filter
                (fun x => inside y.path x)).length ≤ n := by
          intro y hy
          have hyf := List.mem_filter.1 (List.mem_reverse.1 hy)
          have hyE := (List.mem_filter.1 hyf.1).1
          have hyp := (hks y hyf.1).2
          have hw1 := weight_filter_le (fun x => !(!x.isDir &&
              (((kids E c).filter (fun e => !e.isDir)).map Entry.path).contains x.path))
            (fun x => inside y.path x) E
          have hw2 := weight_child_lt E c y hyp hc
          exact ⟨List.mem_filter.2 ⟨hyE, by simp [hyf.2]⟩, hyf.2, hyp, by omega⟩
        have hndd : ((((kids E c).filter (fun e => e.isDir)).reverse).map Entry.path).Nodup := by
          rw [List.map_reverse, List.nodup_reverse]
          exact hnd.sublist ((List.filter_sublist _).map _)
        obtain ⟨k1, s3, hs3, hrun3⟩ := rmtreeLoop_drain B n ih c w hseg hwr hw0 (w :: S)
          (((kids E c).filter (fun e => e.isDir)).reverse) _ s2 hwf1 hB1 hs2 hdsd hndd
        have hyc2 : yc ∈ (E.filter (fun x => !(!x.isDir &&
            (((kids E c).filter (fun e => !e.isDir)).map Entry.path).contains x.path))).filter
              (fun x => !((((kids E c).filter (fun e => e.isDir)).reverse).any
                (fun y => inside y.path x))) := by
          refine List.mem_filter.2 ⟨hyc1, ?_⟩
          cases h : (((kids E c).filter (fun e => e.isDir)).reverse).any
              (fun y => inside y.path yc)
          · rfl
          · obtain ⟨y, hy, hyx⟩ := List.any_eq_true.1 h
            rw [not_inside_longer c y yc (hds2 y hy) hycp] at hyx
            exact absurd hyx (by decide)
        have hc2 := (dirEntry_iff _ c).2 ⟨yc, hyc2, hycd, hycp⟩
        have hk2 : kids ((E.filter (fun x => !(!x.isDir &&
            (((kids E c).filter (fun e => !e.isDir)).map Entry.path).contains x.path))).filter
              (fun x => !((((kids E c).filter (fun e => e.isDir)).reverse).any
                (fun y => inside y.path x)))) c = [] := by
          apply kids_eq_nil
          intro x hx hxp2
          obtain ⟨hx1, hxk2⟩ := List.mem_filter.1 hx
          obtain ⟨hxE, hxk⟩ := List.mem_filter.1 hx1
          cases hxd : x.isDir
          · have hcon : (((kids E c).filter (fun e => !e.isDir)).map Entry.path).contains
                x.path = true := by
              simpa using hfp x hxE hxd hxp2
            rw [hxd, hcon] at hxk
            exact absurd hxk (by decide)
          · have hm := hds x hxE hxd hxp2
            have : (((kids E c).filter (fun e => e.isDir)).reverse).any
                (fun y => inside y.path x) = true :=
              List.any_eq_true.2 ⟨x, hm, inside_self x⟩
            rw [this] at hxk2
            exact absurd hxk2 (by decide)
        obtain ⟨s4, hs4, hrun4⟩ := rmtreeLoop_empty_dir B _ c w S s3 hs3 hseg hwr hw0 hc2 hk2
        rw [heq] at hs4
        refine ⟨k1 + 2, s4, hs4, ?_⟩
        intro F fuel hF
        rw [show fuel + (k1 + 2) = (fuel + 1 + k1) + 1 from by omega]
        simp only [rmtreeLoop]
        rw [if_neg hwne, cstr_id w hw0, hlist]
        simp only [ne_eq, not_true_eq_false, if_false, hne]
        rw [hscan0 F (by omega)]
        simp only [hany, if_true]
        rw [hrun3 F (fuel + 1) (Nat.lt_of_le_of_lt (List.length_filter_le _ E) hF),
          hrun4 F fuel]

theorem charAt_last (r : List Char) (b : Char) (hlen : (r ++ [b]).length < 4294967296) :
    charAt (r ++ [b]) (((r ++ [b]).length : Int) - 1) = b := by
  have h1 : (((r ++ [b]).length : Int) - 1) = (r.length : Int) := by simp
  unfold charAt
  rw [h1, toUnsigned_ofNat _ (by simp at hlen; omega)]
  simp

theorem substring_dropLast (r : List Char) (b : Char)
    (hlen : (r ++ [b]).length < 4294967296) :
    substring (r ++ [b]) 0 (((r ++ [b]).length : Int) - 1) = r := by
  have h1 : (((r ++ [b]).length : Int) - 1) = ((([] : List Char) ++ r).length : Int) := by simp
  have h2 := substring_mid [] r [b] (by simp at hlen ⊢; omega)
  rw [h1]
  simpa using h2

/-- C13: against the tree server, which holds a finite directory tree, answers `MLSD` with
one line `type=dir; name` or `type=file; name` per child and accepts `DELE` of files and
`RMD` of empty directories, `rmtree(root)` on a well-formed tree, for a root path that names
an existing directory other than the root of the server, returns 0 whenever the fuel
suffices, and the server is left with exactly the entries that are not the named directory
and not below it, in their order. -/
theorem rmtree_removes_subtree (E : List Entry) (root : List Char) (s : State Treed)
    (hwf : WellFormed E) (hr : '\r' ∉ root) (h0 : Char.ofNat 0 ∉ root)
    (hlen : root.length < 4294967296) (hne : segments root ≠ [])
    (hdir : isDirPath E (segments root) = true)
    (h31 : (mlsdListing E).length < 2147483648)
    (hs : TreeReady (mlsdListing E).length E s) :
    ∃ N s1, (∀ fuel, N ≤ fuel → rmtree treed fuel root s = Run.done (0, s1)) ∧
      s1.net.srv.entries = E.filter (fun e => !inside (segments root) e) := by
  have hc : E.any (fun e => e.isDir && e.path = segments root) = true := by
    simp only [isDirPath, Bool.or_eq_true, decide_eq_true_eq] at hdir
    rcases hdir with h | h
    · exact absurd h hne
    · exact h
  have hloop : ∀ w : List Char, segments w = segments root → '\r' ∉ w → Char.ofNat 0 ∉ w →
      ∃ N s1, (∀ fuel, N ≤ fuel → rmtreeLoop treed fuel fuel [w] s = Run.done (0, s1)) ∧
        s1.net.srv.entries = E.filter (fun e => !inside (segments root) e) := by
    intro w hw hwr hw0
    obtain ⟨k, s1, hs1, hrun⟩ := rmtreeLoop_subtree (mlsdListing E).length h31 _ E
      (segments root) w [] s (Nat.le_refl _) hwf (Nat.le_refl _) hw hwr hw0 hc hs
    refine ⟨k + E.length + 1, s1, ?_, hs1.2.1⟩
    intro fuel hfuel
    obtain ⟨m, hm⟩ : ∃ m, fuel = (m + 1) + k := ⟨fuel - k - 1, by omega⟩
    rw [hm, hrun (m + 1 + k) (m + 1) (by omega)]
    rfl
  rcases List.eq_nil_or_concat root with hnil | ⟨r, b, hb⟩
  · rw [hnil] at hne
    exact absurd segments_nil hne
  · rw [List.concat_eq_append] at hb
    subst hb
    by_cases hbs : b = '/'
    · subst hbs
      obtain ⟨N, s1, hrun, hent⟩ := hloop r (segments_slash r).symm
        (fun h => hr (List.mem_append_left _ h)) (fun h => h0 (List.mem_append_left _ h))
      refine ⟨N, s1, ?_, hent⟩
      intro fuel hfuel
      unfold rmtree
      rw [charAt_last r '/' hlen, if_pos rfl, substring_dropLast r '/' hlen]
      exact hrun fuel hfuel
    · obtain ⟨N, s1, hrun, hent⟩ := hloop (r ++ [b]) rfl hr h0
      refine ⟨N, s1, ?_, hent⟩
      intro fuel hfuel
      unfold rmtree
      rw [charAt_last r b hlen, if_neg hbs]
      exact hrun fuel hfuel

/-- The witness of C13: the tree `/a/b/c/d/e/f` built by `mktree` is removed by
`rmtree("/a")`, which leaves the server without entries. -/
theorem rmtree_removes_subtree_witness :
    chainClient.net.srv.entries = chainTree ∧
    ∃ N s1, (∀ fuel, N ≤ fuel → rmtree treed fuel "/a".data chainClient = Run.done (0, s1)) ∧
      s1.net.srv.entries = [] :=
  ⟨by decide,
    rmtree_removes_subtree chainTree "/a".data chainClient (by decide) (by decide) (by decide)
      (by decide) (by decide) (by decide) (by decide) (by decide)⟩

/-- The run of the witness of C13: `rmtree("/a")` on the tree built by `mktree` lists each
directory on the way down, removes `f`, `e`, `d`, `c`, `b` and `a` on the way up, returns 0
and leaves no entry. -/
theorem rmtree_chain_example :
    (rmtree treed 20 "/a".data { chainClient with trace := [] }).result.map
        (fun r => (r.1, printed r.2.trace, r.2.net.srv.entries))
      = some (0,
          ["PASV".data, "MLSD /a".data, "PASV".data, "MLSD /a/b".data,
            "PASV".data, "MLSD /a/b/c".data, "PASV".data, "MLSD /a/b/c/d".data,
            "PASV".data, "MLSD /a/b/c/d/e".data, "PASV".data, "MLSD /a/b/c/d/e/f".data,
            "RMD /a/b/c/d/e/f".data, "PASV".data, "MLSD /a/b/c/d/e".data,
            "RMD /a/b/c/d/e".data, "PASV".data, "MLSD /a/b/c/d".data, "RMD /a/b/c/d".data,
            "PASV".data, "MLSD /a/b/c".data, "RMD /a/b/c".data,
            "PASV".data, "MLSD /a/b".data, "RMD /a/b".data,
            "PASV".data, "MLSD /a".data, "RMD /a".data], []) := by
  decide

/-! ## C22: `uploadSingleshot` when nothing is written -/

/-- C22: when `initUpload` succeeds on the reply 150 (it returns 0 and hands over the state
`s1`) and the write of `uploadData` then returns 0, as it does for an empty payload, both
`uploadSingleshot` overloads (`bytes` is what they hand to `write`: the C string at `data`,
the first `size` bytes of `buf`) return the last reply code 150 and hand back the state right
after the write: the status is still `UPLOADING`, and the client has done nothing to the data
connection after the write (no `stop`, so `finishUpload` was not called).  In that state
`initUpload`, `initDownload` and every singleshot call return `BUSY` and leave the state as
it is, so they keep doing so, and `finishUpload` stops the data connection and sets the status
back to `IDLE`. -/
theorem uploadSingleshot_zero_write {σ : Type} (env : Env σ) (path bytes : List Char)
    (t : OpenType) (s s1 : State σ)
    (h1 : initUpload env path t s = some (0, s1)) (h150 : s1._r_code = 150)
    (hw : (env.write bytes s1.net).1 = 0) :
    (∀ data : List Char, cstr data = bytes →
      uploadSingleshot env path data t s = some (150, (dataWrite env bytes s1).2)) ∧
    (∀ (buf : List Char) (size : Nat), buf.take size = bytes →
      uploadSingleshotN env path buf size t s = some (150, (dataWrite env bytes s1).2)) ∧
    (dataWrite env bytes s1).2._status = Status.UPLOADING ∧
    (dataWrite env bytes s1).2._r_code = 150 ∧
    (dataWrite env bytes s1).2.net = (env.write bytes s1.net).2 ∧
    (dataWrite env bytes s1).2.trace = s1.trace ++ [Ev.write bytes] ∧
    (∀ (p data dest : List Char) (size : Nat) (t2 : OpenType),
      initUpload env p t2 (dataWrite env bytes s1).2 = some (BUSY, (dataWrite env bytes s1).2) ∧
      initDownload env p (dataWrite env bytes s1).2 = some (BUSY, (dataWrite env bytes s1).2) ∧
      uploadSingleshot env p data t2 (dataWrite env bytes s1).2
        = some (BUSY, (dataWrite env bytes s1).2) ∧
      uploadSingleshotN env p data size t2 (dataWrite env bytes s1).2
        = some (BUSY, (dataWrite env bytes s1).2) ∧
      downloadSingleshot env p dest (dataWrite env bytes s1).2
        = some (BUSY, dest, (dataWrite env bytes s1).2) ∧
      downloadSingleshotRaw env p dest (dataWrite env bytes s1).2
        = some (BUSY, dest, (dataWrite env bytes s1).2)) ∧
    (finishUpload env (dataWrite env bytes s1).2).2._status = Status.IDLE ∧
    (finishUpload env (dataWrite env bytes s1).2).2.trace
      = s1.trace ++ [Ev.write bytes, Ev.stop Chan.data] := by
  have hidle : s._status = Status.IDLE := by
    by_contra hne
    simp [initUpload, hne, BUSY] at h1
  have hup : s1._status = Status.UPLOADING := by
    unfold initUpload at h1
    split at h1
    · simp [BUSY] at h1
    · split at h1
      · simp at h1
      · split at h1
        · simp only [Option.some.injEq, Prod.mk.injEq] at h1
          rw [← h1.2] at h150
          omega
        · split at h1
          · simp [INVARG] at h1
          · dsimp only at h1
            split at h1
            · simp only [Option.some.injEq, Prod.mk.injEq, true_and] at h1
              rw [← h1]
            · simp only [Option.some.injEq, Prod.mk.injEq] at h1
              rw [← h1.2] at h150
              omega
          · dsimp only at h1
            split at h1
            · simp only [Option.some.injEq, Prod.mk.injEq, true_and] at h1
              rw [← h1]
            · simp only [Option.some.injEq, Prod.mk.injEq] at h1
              rw [← h1.2] at h150
              omega
  have hst : (dataWrite env bytes s1).2._status = Status.UPLOADING := by
    simp [dataWrite, hup]
  refine ⟨?_, ?_, hst, ?_, rfl, rfl, ?_, ?_, ?_⟩
  · intro data hdata
    simp [uploadSingleshot, hidle, h1, uploadData, hup, dataWrite, hdata, hw, h150]
  · intro buf size hbuf
    simp [uploadSingleshotN, hidle, h1, uploadDataN, hup, dataWrite, hbuf, hw, h150]
  · simp [dataWrite, h150]
  · intro p data dest size t2
    simp [initUpload, initDownload, uploadSingleshot, uploadSingleshotN, downloadSingleshot,
      downloadSingleshotRaw, hst]
  · simp only [finishUpload, hst, ne_eq, not_true_eq_false, if_false]
    split <;> simp [_readResponse]
  · simp only [finishUpload, hst, ne_eq, not_true_eq_false, if_false]
    split <;> simp [_readResponse, clientStop, dataWrite]

/-- The witness of C22: `uploadSingleshot("/x", "", CREATE_REPLACE)` on a fresh client of the
model server returns 150 with the status `UPLOADING` and the data connection open; a second
`uploadSingleshot` is answered `BUSY`; after `finishUpload` the next `initUpload` returns 0
again. -/
theorem uploadSingleshot_zero_write_witness :
    initUpload ftpd "/x".data OpenType.CREATE_REPLACE (freshClient exampleFiles)
      = some (0, storInit) ∧
    uploadSingleshot ftpd "/x".data [] OpenType.CREATE_REPLACE (freshClient exampleFiles)
      = some (150, (dataWrite ftpd [] storInit).2) ∧
    (dataWrite ftpd [] storInit).2._status = Status.UPLOADING ∧
    (dataWrite ftpd [] storInit).2.net._dClient.isConnected = true ∧
    uploadSingleshot ftpd "/x".data "hello".data OpenType.CREATE_REPLACE
        (dataWrite ftpd [] storInit).2
      = some (BUSY, (dataWrite ftpd [] storInit).2) ∧
    (initUpload ftpd "/x".data OpenType.CREATE_REPLACE
        (finishUpload ftpd (dataWrite ftpd [] storInit).2).2).map (fun r => r.1) = some 0 :=
  have h := uploadSingleshot_zero_write ftpd "/x".data [] OpenType.CREATE_REPLACE
    (freshClient exampleFiles) storInit rfl (by decide) (by decide)
  ⟨rfl, h.1 [] (by decide), h.2.2.1, by decide,
    (h.2.2.2.2.2.2.1 "/x".data "hello".data [] 0 OpenType.CREATE_REPLACE).2.2.1, by decide⟩

/-! ## The entry scan of `rmtree`, entry by entry -/

theorem strchr_none (ch : Char) (l : List Char) :
    ∀ k : Nat, ch ∉ l → strchr ch l k = none := by
  induction l with
  | nil => intro k _; rfl
  | cons a l ih =>
    intro k h
    have ha : a ≠ ch := fun h0 => h (by simp [h0])
    simp only [strchr, ha, if_false]
    exact ih (k + 1) (fun h0 => h (List.mem_cons_of_mem _ h0))

theorem strchr_range (ch : Char) (l : List Char) :
    ∀ k j : Nat, strchr ch l k = some j → k ≤ j ∧ j < k + l.length := by
  induction l with
  | nil => intro k j h; simp [strchr] at h
  | cons a l ih =>
    intro k j h
    by_cases ha : a = ch
    · simp only [strchr, ha, if_true, Option.some.injEq] at h
      simp only [List.length_cons]
      omega
    · simp only [strchr, ha, if_false] at h
      have := ih (k + 1) j h
      simp only [List.length_cons]
      omega

theorem cstr_length_le (s : List Char) : (cstr s).length ≤ s.length :=
  (List.takeWhile_sublist _).length_le

theorem not_mem_cstr (ch : Char) (s : List Char) (h : ch ∉ s) : ch ∉ cstr s :=
  fun h0 => h ((List.takeWhile_sublist _).subset h0)

/-- `indexOf` finds nothing where the character does not occur from the index on. -/
theorem indexOfChar_none (B : List Char) (ch : Char) (k : Nat) (hk : k < 4294967296)
    (h : ch ∉ B.drop k) : indexOfChar B ch (k : Int) = -1 := by
  unfold indexOfChar
  rw [toUnsigned_ofNat _ hk]
  split
  · rw [strchr_none ch _ k (not_mem_cstr ch _ h)]
  · rfl

/-- `indexOf` from 0 is `-1` or an index below the length. -/
theorem indexOfChar_zero_range (s : List Char) (ch : Char) :
    indexOfChar s ch 0 = -1 ∨ ∃ j : Nat, j < s.length ∧ indexOfChar s ch 0 = (j : Int) := by
  unfold indexOfChar
  have h0 : toUnsigned 0 = 0 := by decide
  rw [h0, List.drop_zero]
  split
  · cases h : strchr ch (cstr s) 0 with
    | none => left; rfl
    | some j =>
      right
      have hr := strchr_range ch _ 0 j h
      have hl := cstr_length_le s
      exact ⟨j, by omega, rfl⟩
  · left; rfl

/-- `substring` with a right bound at or past the end: all from the left bound on. -/
theorem substring_from (s : List Char) (left right : Int) (L : Nat)
    (hL : toUnsigned left = L) (hle : L ≤ s.length) (hr : s.length ≤ toUnsigned right) :
    substring s left right = s.drop L := by
  unfold substring
  rw [hL]
  have h1 : min L (toUnsigned right) = L := Nat.min_eq_left (by omega)
  have h2 : max L (toUnsigned right) = toUnsigned right := Nat.max_eq_right (by omega)
  have h3 : min (toUnsigned right) s.length = s.length := Nat.min_eq_right hr
  simp only [h1, h2, h3]
  by_cases h : s.length ≤ L
  · rw [if_pos h, List.drop_eq_nil_of_le h]
  · rw [if_neg h]
    apply List.take_of_length_le
    simp

/-- The end position handed to `substring` for the name only matters up to the length of
the entry. -/
theorem entryName_clip (entry : List Char) (endPos : Int) (hlen : entry.length < 4294967296)
    (hend : entry.length ≤ toUnsigned endPos) :
    entryName entry endPos = entryName entry entry.length := by
  unfold entryName
  have hu : toUnsigned (entry.length : Int) = entry.length := toUnsigned_ofNat _ hlen
  rcases indexOfChar_zero_range entry ' ' with h | ⟨j, hj, h⟩
  · rw [h]
    have h1 : toUnsigned (-1 + 1) = 0 := by decide
    rw [substring_from entry _ _ 0 h1 (by omega) hend,
      substring_from entry _ _ 0 h1 (by omega) (by omega)]
  · rw [h]
    have h1 : toUnsigned ((j : Int) + 1) = j + 1 := by
      have := toUnsigned_ofNat (j + 1) (by omega)
      simpa using this
    rw [substring_from entry _ _ (j + 1) h1 (by omega) hend,
      substring_from entry _ _ (j + 1) h1 (by omega) (by omega)]

/-- One iteration of the entry scan at the start of an entry that is followed by
`"\r\n"`: the entry is visited and the scan goes on right after the `"\r\n"`. -/
theorem rmtreeScan_step {σ : Type} (env : Env σ) (currentDir B pre line rest : List Char)
    (fuel : Nat) (dirStack : List (List Char)) (containDir : Bool) (s : State σ)
    (hB : B = pre ++ (line ++ '\r' :: '\n' :: rest)) (hr : '\r' ∉ line)
    (h0 : Char.ofNat 0 ∉ line) (hlen : B.length < 2147483648) :
    rmtreeScan env currentDir B (fuel + 1) (pre.length : Int) dirStack containDir s =
      if (visitEntry env currentDir line dirStack containDir s).returned.isSome then
        Run.done (visitEntry env currentDir line dirStack containDir s)
      else
        rmtreeScan env currentDir B fuel ((pre ++ line ++ ['\r', '\n']).length : Int)
          (visitEntry env currentDir line dirStack containDir s).dirStack
          (visitEntry env currentDir line dirStack containDir s).containDir
          (visitEntry env currentDir line dirStack containDir s).state := by
  have hl : B.length = pre.length + line.length + 2 + rest.length := by
    rw [hB]; simp; omega
  have h1 : toUnsigned (pre.length : Int) < B.length := by
    rw [toUnsigned_ofNat _ (by omega)]; omega
  have h2 : indexOfChar B '\r' (pre.length : Int) = ((pre.length + line.length : Nat) : Int) :=
    indexOfChar_at B pre line ('\n' :: rest) '\r' hB (by decide) hr h0 (by omega)
  have h3 : substring B (pre.length : Int) ((pre.length + line.length : Nat) : Int) = line :=
    substring_at B pre line ('\r' :: '\n' :: rest) hB (by simp; omega)
  have h4 : ((pre.length + line.length : Nat) : Int) + 2
      = ((pre ++ line ++ ['\r', '\n']).length : Int) := by
    simp; omega
  have h5 : substring line (indexOfChar line ' ' 0 + 1) ((pre.length + line.length : Nat) : Int)
      = entryName line line.length := by
    have := entryName_clip line ((pre.length + line.length : Nat) : Int) (by omega)
      (by rw [toUnsigned_ofNat _ (by omega)]; omega)
    exact this
  have h6 : equalsLit (substring line (indexOfChar line '=' 0 + 1) (indexOfChar line ';' 0))
      ['d', 'i', 'r'] = entryIsDir line := rfl
  simp only [rmtreeScan]
  rw [if_pos h1]
  simp only [h2, h3, h4, h5, h6, visitEntry]
  cases hd : entryIsDir line
  · by_cases hdel : (deleteFile env
        (cstr (currentDir ++ ['/'] ++ entryName line line.length)) s).1 = 0
    · simp only [hdel, ne_eq, not_true_eq_false, if_false, Bool.false_eq_true,
        Option.isSome_none]
    · simp only [hdel, ne_eq, not_false_eq_true, if_true, Bool.false_eq_true, if_false,
        Option.isSome_some]
  · simp only [if_true, Option.isSome_none, Bool.false_eq_true, if_false]

/-- One iteration of the entry scan where no `'\r'` follows the start position: all that is
left of the buffer is visited as one entry and the scan goes on at position 1. -/
theorem rmtreeScan_step_nocr {σ : Type} (env : Env σ) (currentDir B : List Char) (k : Nat)
    (fuel : Nat) (dirStack : List (List Char)) (containDir : Bool) (s : State σ)
    (hk : k < B.length) (hlen : B.length < 2147483648) (hr : '\r' ∉ B.drop k) :
    rmtreeScan env currentDir B (fuel + 1) (k : Int) dirStack containDir s =
      if (visitEntry env currentDir (B.drop k) dirStack containDir s).returned.isSome then
        Run.done (visitEntry env currentDir (B.drop k) dirStack containDir s)
      else
        rmtreeScan env currentDir B fuel 1
          (visitEntry env currentDir (B.drop k) dirStack containDir s).dirStack
          (visitEntry env currentDir (B.drop k) dirStack containDir s).containDir
          (visitEntry env currentDir (B.drop k) dirStack containDir s).state := by
  have h1 : toUnsigned (k : Int) < B.length := by
    rw [toUnsigned_ofNat _ (by omega)]; exact hk
  have h2 : indexOfChar B '\r' (k : Int) = -1 := indexOfChar_none B '\r' k (by omega) hr
  have hm : toUnsigned (-1) = 4294967295 := by decide
  have h3 : substring B (k : Int) (-1) = B.drop k :=
    substring_from B _ _ k (toUnsigned_ofNat _ (by omega)) (by omega) (by rw [hm]; omega)
  have h4 : ((-1 : Int) + 2) = 1 := by decide
  have h5 : substring (B.drop k) (indexOfChar (B.drop k) ' ' 0 + 1) (-1)
      = entryName (B.drop k) (B.drop k).length := by
    have := entryName_clip (B.drop k) (-1) (by simp; omega) (by rw [hm]; simp; omega)
    exact this
  have h6 : equalsLit (substring (B.drop k) (indexOfChar (B.drop k) '=' 0 + 1)
      (indexOfChar (B.drop k) ';' 0)) ['d', 'i', 'r'] = entryIsDir (B.drop k) := rfl
  simp only [rmtreeScan]
  rw [if_pos h1]
  simp only [h2, h3, h4, h5, h6, visitEntry]
  cases hd : entryIsDir (B.drop k)
  · by_cases hdel : (deleteFile env
        (cstr (currentDir ++ ['/'] ++ entryName (B.drop k) (B.drop k).length)) s).1 = 0
    · simp only [hdel, ne_eq, not_true_eq_false, if_false, Bool.false_eq_true,
        Option.isSome_none]
    · simp only [hdel, ne_eq, not_false_eq_true, if_true, Bool.false_eq_true, if_false,
        Option.isSome_some]
  · simp only [if_true, Option.isSome_none, Bool.false_eq_true, if_false]

theorem joinLines_nil : joinLines [] = [] := rfl

theorem joinLines_cons (entry : List Char) (rest : List (List Char)) :
    joinLines (entry :: rest) = entry ++ '\r' :: '\n' :: joinLines rest := by
  simp [joinLines]

theorem joinLines_append (a b : List (List Char)) :
    joinLines (a ++ b) = joinLines a ++ joinLines b := by
  simp [joinLines]

theorem joinLines_snoc (a : List (List Char)) (entry : List Char) :
    joinLines (a ++ [entry]) = joinLines a ++ entry ++ ['\r', '\n'] := by
  simp [joinLines]

/-- The entry scan over a buffer of terminated entries, from the start of any of them: the
entries from there on are visited one after the other. -/
theorem rmtreeScan_lines {σ : Type} (env : Env σ) (currentDir : List Char)
    (entries : List (List Char))
    (hentries : ∀ entry ∈ entries, '\r' ∉ entry ∧ Char.ofNat 0 ∉ entry)
    (hlen : (joinLines entries).length < 2147483648) :
    ∀ (todo before : List (List Char)), entries = before ++ todo →
      ∀ (fuel : Nat) (dirStack : List (List Char)) (containDir : Bool) (s : State σ),
        todo.length < fuel →
        rmtreeScan env currentDir (joinLines entries) fuel ((joinLines before).length : Int)
            dirStack containDir s
          = Run.done (visitEntries env currentDir todo dirStack containDir s) := by
  intro todo
  induction todo with
  | nil =>
    intro before hsplit fuel dirStack containDir s hfuel
    obtain ⟨f, rfl⟩ : ∃ f, fuel = f + 1 := ⟨fuel - 1, by simp at hfuel; omega⟩
    rw [List.append_nil] at hsplit
    subst hsplit
    simp only [rmtreeScan]
    rw [toUnsigned_ofNat _ (by omega), if_neg (by omega)]
    rfl
  | cons entry todo ih =>
    intro before hsplit fuel dirStack containDir s hfuel
    obtain ⟨f, rfl⟩ : ∃ f, fuel = f + 1 := ⟨fuel - 1, by simp at hfuel; omega⟩
    have hmem := hentries entry (by rw [hsplit]; simp)
    have hB : joinLines entries
        = joinLines before ++ (entry ++ '\r' :: '\n' :: joinLines todo) := by
      rw [hsplit, joinLines_append, joinLines_cons]
    rw [rmtreeScan_step env currentDir (joinLines entries) (joinLines before) entry
      (joinLines todo) f dirStack containDir s hB hmem.1 hmem.2 hlen]
    rw [← joinLines_snoc]
    simp only [visitEntries]
    split
    · rfl
    · exact ih (before ++ [entry]) (by rw [hsplit]; simp) f _ _ _ (by simp at hfuel; omega)

/-! ## C23: the entry scan advances entry by entry -/

/-- C23: on a listing buffer in which every entry is followed by `"\r\n"`, an iteration of
the entry scan of `rmtree` that starts at the start of an entry visits that entry and goes on
at the start of the next one, a strictly larger position; the scan from position 0 visits the
entries one after the other, each once, in buffer order, and returns when the buffer is
used up (or when a deletion fails).  Where no `'\r'` follows the start position, the rest of
the buffer is visited as one entry and the scan goes on at position 1. -/
theorem rmtreeScan_advances {σ : Type} (env : Env σ) (currentDir : List Char)
    (entries : List (List Char)) (B : List Char) (k : Nat)
    (hentries : ∀ entry ∈ entries, '\r' ∉ entry ∧ Char.ofNat 0 ∉ entry)
    (hlen : (joinLines entries).length < 2147483648)
    (hk : k < B.length) (hB : B.length < 2147483648) (hnocr : '\r' ∉ B.drop k) :
    (∀ (before : List (List Char)) (entry : List Char) (after : List (List Char)),
      entries = before ++ entry :: after →
      (joinLines before).length < (joinLines (before ++ [entry])).length ∧
      ∀ (fuel : Nat) (dirStack : List (List Char)) (containDir : Bool) (s : State σ),
        rmtreeScan env currentDir (joinLines entries) (fuel + 1)
            ((joinLines before).length : Int) dirStack containDir s =
          if (visitEntry env currentDir entry dirStack containDir s).returned.isSome then
            Run.done (visitEntry env currentDir entry dirStack containDir s)
          else
            rmtreeScan env currentDir (joinLines entries) fuel
              ((joinLines (before ++ [entry])).length : Int)
              (visitEntry env currentDir entry dirStack containDir s).dirStack
              (visitEntry env currentDir entry dirStack containDir s).containDir
              (visitEntry env currentDir entry dirStack containDir s).state) ∧
    (∀ (fuel : Nat) (dirStack : List (List Char)) (containDir : Bool) (s : State σ),
      entries.length < fuel →
      rmtreeScan env currentDir (joinLines entries) fuel 0 dirStack containDir s
        = Run.done (visitEntries env currentDir entries dirStack containDir s)) ∧
    (∀ (fuel : Nat) (dirStack : List (List Char)) (containDir : Bool) (s : State σ),
      rmtreeScan env currentDir B (fuel + 1) (k : Int) dirStack containDir s =
        if (visitEntry env currentDir (B.drop k) dirStack containDir s).returned.isSome then
          Run.done (visitEntry env currentDir (B.drop k) dirStack containDir s)
        else
          rmtreeScan env currentDir B fuel 1
            (visitEntry env currentDir (B.drop k) dirStack containDir s).dirStack
            (visitEntry env currentDir (B.drop k) dirStack containDir s).containDir
            (visitEntry env currentDir (B.drop k) dirStack containDir s).state) := by
  refine ⟨?_, ?_, ?_⟩
  · intro before entry after hsplit
    refine ⟨by rw [joinLines_snoc]; simp, ?_⟩
    intro fuel dirStack containDir s
    have hmem := hentries entry (by rw [hsplit]; simp)
    have hbuf : joinLines entries
        = joinLines before ++ (entry ++ '\r' :: '\n' :: joinLines after) := by
      rw [hsplit, joinLines_append, joinLines_cons]
    rw [rmtreeScan_step env currentDir (joinLines entries) (joinLines before) entry
      (joinLines after) fuel dirStack containDir s hbuf hmem.1 hmem.2 hlen, ← joinLines_snoc]
  · intro fuel dirStack containDir s hfuel
    have h := rmtreeScan_lines env currentDir entries hentries hlen entries [] rfl fuel
      dirStack containDir s hfuel
    simpa [joinLines_nil] using h
  · intro fuel dirStack containDir s
    exact rmtreeScan_step_nocr env currentDir B k fuel dirStack containDir s hk hB hnocr

/-- The witness of C23: the listing of the directory `d` and the file `f g` is scanned in two
iterations; the listing `type=file; f` without its `"\r\n"` is visited at position 0 and
the scan goes on at position 1. -/
theorem rmtreeScan_advances_witness :
    rmtreeScan agreeable "/a".data (joinLines ["type=dir; d".data, "type=file; f g".data]) 3 0
        [] false (construct (ctrlOnly none true []) 0)
      = Run.done (visitEntries agreeable "/a".data ["type=dir; d".data, "type=file; f g".data]
          [] false (construct (ctrlOnly none true []) 0)) ∧
    rmtreeScan agreeable "/a".data "type=file; f".data (0 + 1) ((0 : Nat) : Int) [] false
        (construct (ctrlOnly none true []) 0)
      = rmtreeScan agreeable "/a".data "type=file; f".data 0 1 [] false
          (visitEntry agreeable "/a".data "type=file; f".data [] false
            (construct (ctrlOnly none true []) 0)).state :=
  have h := rmtreeScan_advances agreeable "/a".data
    ["type=dir; d".data, "type=file; f g".data] "type=file; f".data 0 (by decide) (by decide)
    (by decide) (by decide) (by decide)
  ⟨h.2.1 3 [] false (construct (ctrlOnly none true []) 0) (by decide),
    (h.2.2 0 [] false (construct (ctrlOnly none true []) 0)).trans rfl⟩

/-- The runs of the witness of C23: the first listing is used up after a push and a `DELE`;
on the second listing, against a server that accepts every `DELE`, the scan stays at
position 1 and deletes `/a/f` again and again, so it is still running after any number of
iterations the fuel allows. -/
theorem rmtreeScan_examples :
    Scan.summary (rmtreeScan agreeable "/a".data
        (joinLines ["type=dir; d".data, "type=file; f g".data]) 3 0 [] false
        (construct (ctrlOnly none true []) 0))
      = some (none, ["/a/d".data], true, ["DELE /a/f g".data]) ∧
    (rmtreeScan agreeable "/a".data "type=file; f".data 8 0 [] false
        (construct (ctrlOnly none true []) 0)).isRunning = true := by
  decide

/-! ## C21: how the entry scan reads an entry line -/

/-- The test of the scan on a line `key=value;more name`: whether the value of the first
fact is `dir`. -/
theorem entryIsDir_factLine (key value more name : List Char)
    (hkey : '=' ∉ key ∧ ';' ∉ key) (hvalue : ';' ∉ value)
    (h0 : Char.ofNat 0 ∉ factLine key value more name)
    (hlen : (factLine key value more name).length < 4294967296) :
    entryIsDir (factLine key value more name) = decide (value = ['d', 'i', 'r']) := by
  have h0k : Char.ofNat 0 ∉ key := fun h => h0 (by simp [factLine, h])
  have h0v : Char.ofNat 0 ∉ value := fun h => h0 (by simp [factLine, h])
  have hl : (factLine key value more name).length
      = key.length + 1 + value.length + 1 + more.length + 1 + name.length := by
    simp [factLine]; omega
  have h1 : indexOfChar (factLine key value more name) '=' 0 = (key.length : Int) := by
    have := indexOfChar_zero key (value ++ [';'] ++ more ++ [' '] ++ name) '=' (by decide)
      hkey.1 h0k
    simpa [factLine] using this
  have he : factLine key value more name
      = (key ++ ['='] ++ value) ++ ';' :: (more ++ [' '] ++ name) := by simp [factLine]
  have h2 : indexOfChar (factLine key value more name) ';' 0
      = (((key ++ ['=']).length + value.length : Nat) : Int) := by
    have := indexOfChar_zero (key ++ ['='] ++ value) (more ++ [' '] ++ name) ';' (by decide)
      (by
        simp only [List.mem_append, List.mem_singleton, not_or]
        exact ⟨⟨hkey.2, by decide⟩, hvalue⟩)
      (by
        simp only [List.mem_append, List.mem_singleton, not_or]
        exact ⟨⟨h0k, by decide⟩, h0v⟩)
    rw [he, this, List.length_append]
  have h3 := substring_at (factLine key value more name) (key ++ ['=']) value
    ([';'] ++ more ++ [' '] ++ name) (by simp [factLine]) (by simp; omega)
  have h4 : (key.length : Int) + 1 = ((key ++ ['=']).length : Int) := by simp
  unfold entryIsDir
  rw [h1, h2, h4, h3]
  simp only [equalsLit, cstr_id value h0v]

/-- The name the scan cuts out of a line `key=value;more name`: what follows the first
space. -/
theorem entryName_factLine (key value more name : List Char)
    (hkey : ' ' ∉ key) (hvalue : ' ' ∉ value) (hmore : ' ' ∉ more)
    (h0 : Char.ofNat 0 ∉ factLine key value more name)
    (hlen : (factLine key value more name).length < 4294967296) :
    entryName (factLine key value more name) (factLine key value more name).length = name := by
  have h0f : Char.ofNat 0 ∉ key ++ ['='] ++ value ++ [';'] ++ more :=
    fun h => h0 (by
      simp only [factLine, List.mem_append, List.mem_singleton] at h ⊢
      tauto)
  have hsp : ' ' ∉ key ++ ['='] ++ value ++ [';'] ++ more := by
    simp only [List.mem_append, List.mem_singleton, not_or]
    exact ⟨⟨⟨⟨hkey, by decide⟩, hvalue⟩, by decide⟩, hmore⟩
  have h1 : indexOfChar (factLine key value more name) ' ' 0
      = ((key ++ ['='] ++ value ++ [';'] ++ more).length : Int) := by
    have := indexOfChar_zero (key ++ ['='] ++ value ++ [';'] ++ more) name ' ' (by decide)
      hsp h0f
    simpa [factLine] using this
  have h2 : ((key ++ ['='] ++ value ++ [';'] ++ more).length : Int) + 1
      = ((key ++ ['='] ++ value ++ [';'] ++ more ++ [' ']).length : Int) := by
    simp only [List.length_append, List.length_singleton]
    push_cast
    ring
  have h3 := substring_rest (key ++ ['='] ++ value ++ [';'] ++ more ++ [' ']) name
    (factLine key value more name).length (by simp [factLine]) hlen
  unfold entryName
  rw [h1, h2]
  exact h3

/-- C21 (amended): for an entry line `key=value;more name` (neither `'='`, `';'` nor a space
in the key, neither `';'` nor a space in the value, no space in the further facts) followed
by `"\r\n"`, the entry scan of `rmtree` takes the entry for a directory exactly when the
value of the first fact is `dir` and for a file otherwise, takes as the name all that
follows the first space of the line, and pushes, or deletes, `currentDir + "/" + name`. -/
theorem rmtreeScan_first_fact {σ : Type} (env : Env σ)
    (currentDir key value more name pre rest B : List Char) (fuel : Nat)
    (dirStack : List (List Char)) (containDir : Bool) (s : State σ)
    (hB : B = pre ++ (factLine key value more name ++ '\r' :: '\n' :: rest))
    (hlen : B.length < 2147483648)
    (hkey : '=' ∉ key ∧ ';' ∉ key ∧ ' ' ∉ key) (hvalue : ';' ∉ value ∧ ' ' ∉ value)
    (hmore : ' ' ∉ more)
    (hr : '\r' ∉ factLine key value more name)
    (h0 : Char.ofNat 0 ∉ factLine key value more name) :
    rmtreeScan env currentDir B (fuel + 1) (pre.length : Int) dirStack containDir s =
      if value = "dir".data then
        rmtreeScan env currentDir B fuel
          ((pre ++ factLine key value more name ++ ['\r', '\n']).length : Int)
          ((currentDir ++ ['/'] ++ name) :: dirStack) true s
      else if (deleteFile env (cstr (currentDir ++ ['/'] ++ name)) s).1 ≠ 0 then
        Run.done ⟨some (deleteFile env (cstr (currentDir ++ ['/'] ++ name)) s).2._r_code,
          dirStack, containDir, (deleteFile env (cstr (currentDir ++ ['/'] ++ name)) s).2⟩
      else
        rmtreeScan env currentDir B fuel
          ((pre ++ factLine key value more name ++ ['\r', '\n']).length : Int)
          dirStack containDir (deleteFile env (cstr (currentDir ++ ['/'] ++ name)) s).2 := by
  have hl : B.length = pre.length + (factLine key value more name).length + 2 + rest.length := by
    rw [hB]; simp; omega
  have hd := entryIsDir_factLine key value more name ⟨hkey.1, hkey.2.1⟩ hvalue.1 h0
    (by omega)
  have hn := entryName_factLine key value more name hkey.2.2 hvalue.2 hmore h0 (by omega)
  rw [rmtreeScan_step env currentDir B pre (factLine key value more name) rest fuel dirStack
    containDir s hB hr h0 hlen]
  simp only [visitEntry, hd, hn]
  by_cases hv : value = ['d', 'i', 'r']
  · simp only [hv, decide_True, if_true, Option.isSome_none, Bool.false_eq_true, if_false]
  · simp only [hv, decide_False, Bool.false_eq_true, if_false]
    by_cases hdel : (deleteFile env (cstr (currentDir ++ ['/'] ++ name)) s).1 = 0
    · simp only [hdel, ne_eq, not_true_eq_false, if_false, Option.isSome_none,
        Bool.false_eq_true]
    · simp only [hdel, ne_eq, not_false_eq_true, if_true, Option.isSome_some]

/-- The witness of C21 (amended): the line `type=dir;size=3; my dir` in `/a` is pushed as
`/a/my dir`. -/
theorem rmtreeScan_first_fact_witness :
    rmtreeScan agreeable "/a".data "type=dir;size=3; my dir\r\n".data (1 + 1)
        ((([] : List Char).length : Nat) : Int) [] false (construct (ctrlOnly none true []) 0)
      = rmtreeScan agreeable "/a".data "type=dir;size=3; my dir\r\n".data 1
          ((([] ++ factLine "type".data "dir".data "size=3;".data "my dir".data
            ++ ['\r', '\n']).length : Nat) : Int)
          ["/a/my dir".data] true (construct (ctrlOnly none true []) 0) :=
  (rmtreeScan_first_fact agreeable "/a".data "type".data "dir".data "size=3;".data
    "my dir".data [] [] "type=dir;size=3; my dir\r\n".data 1 [] false
    (construct (ctrlOnly none true []) 0) (by decide) (by decide) (by decide) (by decide)
    (by decide) (by decide) (by decide)).trans rfl

/-- C21 (counterexample): in `/a`, the line `size=0;type=dir; sub`, which carries a
`type=dir` fact, is taken for a file (nothing is pushed, `DELE /a/sub` is printed); the line
`x=dir;type=file; f`, which carries no `type=dir` fact, is taken for a directory (`/a/f` is
pushed); and the name of `type=file; my file` is `my file`, what follows the first space,
not `file`, what follows the last. -/
theorem rmtreeScan_type_not_first :
    Scan.summary (rmtreeScan agreeable "/a".data "size=0;type=dir; sub\r\n".data 5 0 [] false
        (construct (ctrlOnly none true []) 0))
      = some ((none : Option Nat), ([] : List (List Char)), false, ["DELE /a/sub".data]) ∧
    Scan.summary (rmtreeScan agreeable "/a".data "x=dir;type=file; f\r\n".data 5 0 [] false
        (construct (ctrlOnly none true []) 0))
      = some ((none : Option Nat), ["/a/f".data], true, ([] : List (List Char))) ∧
    Scan.summary (rmtreeScan agreeable "/a".data "type=file; my file\r\n".data 5 0 [] false
        (construct (ctrlOnly none true []) 0))
      = some ((none : Option Nat), ([] : List (List Char)), false, ["DELE /a/my file".data]) :=
  ⟨by decide, by decide, by decide⟩

end FTP32
